import Mathlib

/-!
# coordinated-omission-example: the periodic exclusive locker and the shared-lock handler

A verification development for `main.go`.  The program consists of

* a background goroutine (lines 13-20) that forever sleeps 10 seconds, takes the
  package-level `sync.RWMutex` exclusively, sleeps 2 seconds and releases it;
* an HTTP handler registered on "/" (lines 22-27) that takes the same lock in shared
  mode, defers its release and writes the two bytes `ok`;
* the bootstrap (lines 29-31) that calls `http.ListenAndServe("127.0.0.1:8989", nil)`
  and calls `log.Fatalf` when it returns a non-nil error.

The goroutines are embedded as program counters over the source lines, the lock as an
explicit state, and the whole process as a labelled step function `step` on `State`.
Time is a natural number of nanoseconds (Go's `time.Duration`).

What `main.go` calls but does not define belongs to Go's standard library and is embedded
by its documented behaviour: `sync.RWMutex` (a waiting call of `Lock` keeps new readers
out; unlocking an unlocked mutex is a fatal error), `time.Sleep` (pauses for at least the
given duration), `net/http` (the server and its default mux answer some requests without
calling the handler; a `Write` without `WriteHeader` sends status 200; the body of the
response to a `HEAD` request is left out; `ListenAndServe` binds, then serves until it
returns an error, and the goroutines of its connections run on after it has returned; a
panic of a handler is recovered by the server) and `log.Fatalf` (writes the date, the time
and the message, then exits with status 1).
-/

namespace CoordinatedOmission

/-! ## Time -/

/-- Go's `time.Second`: a `time.Duration` counts nanoseconds. -/
def Second : Nat := 1000000000

/-- The argument of the first sleep, `10*time.Second` (line 15). -/
def idleSleep : Nat := 10 * Second

/-- The argument of the second sleep, `2*time.Second` (line 17). -/
def holdSleep : Nat := 2 * Second

/-! ## The lock (line 10: `var lock sync.RWMutex`) -/

/-- The state of a `sync.RWMutex` as its callers observe it: the number of goroutines
holding it in shared mode, whether it is held exclusively, and whether a call of `Lock`
has announced itself and waits for the shared holders to leave.  The last field is not
state but the policy of the implementation: whether a waiting call of `Lock` keeps new
readers out.  Go's `sync.RWMutex` does so ("if any goroutine calls Lock while the lock is
already held by one or more readers, concurrent calls to RLock will block until the writer
has acquired (and released) the lock"), hence the default; the other policy is kept
within reach because the specification of the program leaves the policy open. -/
structure RWMutex where
  readers : Nat
  writer : Bool
  writerWaiting : Bool
  writerPreference : Bool := true
deriving DecidableEq, Repr

/-- The zero value of `sync.RWMutex`: unlocked. -/
def RWMutex.zero : RWMutex := { readers := 0, writer := false, writerWaiting := false }

/-- The message of the Go runtime when `Unlock` is applied to a mutex not held exclusively. -/
def unlockOfUnlocked : String := "sync: Unlock of unlocked RWMutex"

/-- The message of the Go runtime when `RUnlock` is applied to a mutex without shared holder. -/
def rUnlockOfUnlocked : String := "sync: RUnlock of unlocked RWMutex"

/-- The mutex operation `RLock`: it returns (`some`) and adds one shared holder when no
writer holds the lock and, under writer preference, no writer waits for it; otherwise the
caller stays suspended (`none`). -/
def RWMutex.rlock (m : RWMutex) : Option RWMutex :=
  if m.writer || (m.writerPreference && m.writerWaiting) then none
  else some { m with readers := m.readers + 1 }

/-- The mutex operation `RUnlock`: removes one shared holder; fatal when there is none. -/
def RWMutex.runlock (m : RWMutex) : Except String RWMutex :=
  if m.readers = 0 then .error rUnlockOfUnlocked
  else .ok { m with readers := m.readers - 1 }

/-- Entering `Lock`: suspended (`none`) while another writer holds or waits; otherwise
the call either acquires at once (no shared holder, flag `true`) or announces itself and
waits for the shared holders to leave (flag `false`). -/
def RWMutex.lockBegin (m : RWMutex) : Option (RWMutex × Bool) :=
  if m.writer || m.writerWaiting then none
  else if m.readers = 0 then some ({ m with writer := true }, true)
  else some ({ m with writerWaiting := true }, false)

/-- Leaving `Lock` after waiting: possible once the last shared holder has left. -/
def RWMutex.lockFinish (m : RWMutex) : Option RWMutex :=
  if m.writerWaiting && m.readers == 0 then
    some { m with writer := true, writerWaiting := false }
  else none

/-- The mutex operation `Unlock`: releases the exclusive hold; fatal when not held. -/
def RWMutex.unlock (m : RWMutex) : Except String RWMutex :=
  if m.writer then .ok { m with writer := false }
  else .error unlockOfUnlocked

/-! ## The background locker (lines 13-20) -/

/-- The four statements of the loop body, lines 15 to 18. -/
inductive LockerStmt where
  | sleep (d : Nat)
  | lock
  | unlock
deriving DecidableEq, Repr

/-- The loop body of the locker in source order. -/
def lockerBody : List LockerStmt :=
  [.sleep idleSleep, .lock, .sleep holdSleep, .unlock]

/-- Program counter of the locker goroutine.  `at...` is "about to call", `in...` is
"inside the blocking call".  There is no constructor for a finished loop: `for { }` has
no condition, no `break` and no `return`. -/
inductive LockerPc where
  /-- line 15, about to call `time.Sleep(10*time.Second)` -/
  | atSleep10
  /-- line 15, sleeping; the sleep was requested to end at `wake` -/
  | inSleep10 (wake : Nat)
  /-- line 16, about to call `lock.Lock()` -/
  | atLock
  /-- line 16, inside `lock.Lock()`, waiting for the shared holders to leave -/
  | inLock
  /-- line 17, about to call `time.Sleep(2*time.Second)`, holding the lock -/
  | atSleep2
  /-- line 17, sleeping while holding the lock -/
  | inSleep2 (wake : Nat)
  /-- line 18, about to call `lock.Unlock()` -/
  | atUnlock
deriving DecidableEq, Repr

/-- The statement of the loop body a program counter stands at. -/
def LockerPc.stmt : LockerPc → LockerStmt
  | .atSleep10 | .inSleep10 _ => .sleep idleSleep
  | .atLock | .inLock => .lock
  | .atSleep2 | .inSleep2 _ => .sleep holdSleep
  | .atUnlock => .unlock

/-- The index in `lockerBody` of the statement a program counter stands at. -/
def LockerPc.index : LockerPc → Nat
  | .atSleep10 | .inSleep10 _ => 0
  | .atLock | .inLock => 1
  | .atSleep2 | .inSleep2 _ => 2
  | .atUnlock => 3

/-- The locker is between the return of `lock.Lock()` and its call of `lock.Unlock()`. -/
def LockerPc.holding : LockerPc → Bool
  | .atSleep2 | .inSleep2 _ | .atUnlock => true
  | _ => false

/-- The locker has called `lock.Lock()` and has not yet called `lock.Unlock()`:
it waits for the lock or holds it. -/
def LockerPc.requested : LockerPc → Bool
  | .inLock | .atSleep2 | .inSleep2 _ | .atUnlock => true
  | _ => false

/-! ## The handler (lines 22-27) -/

/-- What the `Expect` header of a request says. -/
inductive Expect where
  /-- there is no such header -/
  | absent
  /-- the header names `100-continue` -/
  | continue100
  /-- there is such a header and it does not name `100-continue` -/
  | other
deriving DecidableEq, Repr

/-- A request as the server has read it from a connection: what `net/http` looks at before
it calls a handler, and the fields a handler could look at. -/
structure Request where
  method : String
  /-- the path of the request target as the mux compares it: `*` for the asterisk form,
  empty for the authority form of `CONNECT` -/
  path : String
  /-- the protocol is HTTP/1.1 (otherwise HTTP/1.0) -/
  http11 : Bool := true
  /-- the `Host` header, when there is one -/
  host : Option String := some "127.0.0.1:8989"
  /-- the `Expect` header -/
  expect : Expect := .absent
  /-- the other headers -/
  headers : List (String × String)
  body : List Nat
deriving DecidableEq, Repr

/-! ### What `net/http` answers by itself

`http.ListenAndServe(addr, nil)` (line 29) serves with `http.DefaultServeMux`, on which
line 22 registers the handler under the pattern "/".  Before the handler is called the
server and the mux look at the request, and some requests they answer themselves. -/

/-- The segments of a path between its slashes, the leading slash taken off. -/
def splitSlash : List Char → List (List Char)
  | [] => [[]]
  | c :: cs =>
    if c = '/' then [] :: splitSlash cs
    else
      match splitSlash cs with
      | seg :: rest => (c :: seg) :: rest
      | [] => [[c]]

/-- The path is what the mux cleans it to: it starts with a slash, no segment but the
last is empty, and no segment is `.` or `..`. -/
def isCleanPath (p : String) : Bool :=
  match p.toList with
  | c :: rest =>
    c = '/' && (splitSlash rest).dropLast.all (fun seg => !seg.isEmpty) &&
      (splitSlash rest).all (fun seg => seg != ['.'] && seg != ['.', '.'])
  | [] => false

/-- The server refuses an HTTP/1.1 request without `Host` header (status 400); `CONNECT`
is exempt. -/
def missingHost (r : Request) : Bool :=
  r.http11 && r.host.isNone && r.method != "CONNECT"

/-- The server refuses a request whose `Expect` header asks for anything but
`100-continue` (status 417). -/
def expectationFails (r : Request) : Bool :=
  r.expect == .other

/-- The request target is `*`: the server answers `OPTIONS *` itself, and the mux refuses
every other method on `*` (status 400). -/
def asteriskForm (r : Request) : Bool :=
  r.path == "*"

/-- A `CONNECT` request whose target is an authority has no path, and the pattern "/"
matches only paths that start with a slash: the mux answers it. -/
def connectWithoutPath (r : Request) : Bool :=
  r.method == "CONNECT" && r.path.toList.head? != some '/'

/-- The mux redirects a request, other than `CONNECT`, whose path is not clean to the
cleaned path. -/
def uncleanPath (r : Request) : Bool :=
  r.method != "CONNECT" && !isCleanPath r.path

/-- The request is one of those `net/http` answers without calling the handler. -/
def answeredByServer (r : Request) : Bool :=
  missingHost r || expectationFails r || asteriskForm r || connectWithoutPath r ||
    uncleanPath r

/-- The bytes of `[]byte("ok")`: 0x6f 0x6b. -/
def okBytes : List Nat := [111, 107]

/-- What `w.Write` does: it returns `(len, nil)`, it returns an error, or it panics. -/
inductive WriteOutcome where
  | ok
  | error
  | panic
deriving DecidableEq, Repr

/-- How the function body is left: by reaching its end, or by a panic. -/
inductive Exit where
  | normal
  | panicking
deriving DecidableEq, Repr

/-- The way the body of the handler is left after `w.Write`: the two results of `Write`
are discarded (line 26 is an expression statement), so only a panic makes a difference. -/
def exitAfterWrite : WriteOutcome → Exit
  | .ok => .normal
  | .error => .normal
  | .panic => .panicking

/-- The calls a handler makes on the lock and on its `http.ResponseWriter`. -/
inductive HandlerOp where
  | rlock
  | writeHeader (code : Nat)
  | write (bytes : List Nat)
  | runlock
deriving DecidableEq, Repr

/-- Program counter of one invocation of the handler. -/
inductive HandlerPc where
  /-- line 23, at (or suspended in) `lock.RLock()` -/
  | atRLock
  /-- line 26, `RLock` has returned and `lock.RUnlock()` is deferred (line 24);
  about to call `w.Write([]byte("ok"))` -/
  | atWrite
  /-- the body is left (normally, or by a panic of `Write`); the deferred
  `lock.RUnlock()` is about to run -/
  | atRUnlock (e : Exit)
  /-- the invocation is over: it returned to the server, or its panic reached the server -/
  | returned (e : Exit)
deriving DecidableEq, Repr

/-- The invocation is between the return of `RLock` and its deferred `RUnlock`. -/
def HandlerPc.holding : HandlerPc → Bool
  | .atWrite | .atRUnlock _ => true
  | _ => false

/-- One invocation of the handler: the request it was given, its program counter and the
calls it has made so far, oldest first. -/
structure Handler where
  req : Request
  pc : HandlerPc
  ops : List HandlerOp
deriving DecidableEq, Repr

/-- A response: its status code and the bytes of its body. -/
structure Response where
  status : Nat
  body : List Nat
deriving DecidableEq, Repr

/-- The bytes a call hands to the response body. -/
def HandlerOp.bytes : HandlerOp → List Nat
  | .write b => b
  | _ => []

/-- The calls made on the `http.ResponseWriter`, the lock calls left out. -/
def writerCalls (ops : List HandlerOp) : List HandlerOp :=
  ops.filter fun o => match o with
    | .writeHeader _ => true
    | .write _ => true
    | _ => false

/-- A response of this status may carry a body: not 1xx, 204 or 304. -/
def bodyAllowed (status : Nat) : Bool :=
  !((100 ≤ status && status < 200) || status == 204 || status == 304)

/-- The status `net/http` sends for the calls on the `ResponseWriter`: the code of a
`WriteHeader` that comes first, and 200 when `Write` comes first or nothing is called. -/
def statusOf (ops : List HandlerOp) : Nat :=
  match writerCalls ops with
  | .writeHeader c :: _ => c
  | _ => 200

/-- The response `net/http` makes of the calls on the `ResponseWriter` for the request
`req`: the body is what the calls of `Write` handed over, in order, and it is left out
when the method of the request is `HEAD` or the status allows no body.  Whether the
response gets to the client is the affair of the connection. -/
def responseOf (req : Request) (ops : List HandlerOp) : Response :=
  { status := statusOf ops
    body :=
      if req.method = "HEAD" || !bodyAllowed (statusOf ops) then []
      else ((writerCalls ops).map HandlerOp.bytes).flatten }

/-! ## The process (lines 12-32) -/

/-- The address handed to `http.ListenAndServe` (line 29). -/
def listenAddr : String := "127.0.0.1:8989"

/-- How the process ends. -/
inductive Termination where
  /-- `log.Fatalf("listen error: %s", err)` (line 30): the message is logged and the
  process exits with status 1 -/
  | listenFatal (err : String)
  /-- `ListenAndServe` returned nil: `main` returns (line 32) and the process exits with
  status 0 -/
  | mainReturned
  /-- a fatal error of the Go runtime, as raised by the unlock of an unlocked mutex:
  exit status 2 -/
  | runtimeFatal (msg : String)
deriving DecidableEq, Repr

/-- The exit status of the process. -/
def Termination.exitCode : Termination → Nat
  | .listenFatal _ => 1
  | .mainReturned => 0
  | .runtimeFatal _ => 2

/-- The termination is the fatal one of line 30. -/
def Termination.isListenFatal : Termination → Bool
  | .listenFatal _ => true
  | _ => false

/-- Lines 29 to 32: what `main` does with the value `ListenAndServe` returns. -/
def mainAfterListenAndServe (err : Option String) : Termination :=
  match err with
  | some e => .listenFatal e
  | none => .mainReturned

/-- The message `log.Fatalf("listen error: %s", err)` formats. -/
def fatalMessage (err : String) : String := "listen error: " ++ err

/-- A line written by the standard logger: the logger writes the date and the time of the
call, then the message. -/
structure LogEntry where
  /-- the time of the call, which the logger prints as date and time -/
  time : Nat
  message : String
deriving DecidableEq, Repr

/-- The phase `main` is in. -/
inductive Proc where
  /-- `ListenAndServe` has been called with `listenAddr` and has not bound the address yet -/
  | starting
  /-- `ListenAndServe` has bound the address and accepts connections -/
  | serving
  /-- `ListenAndServe` has returned `err` (line 29) and `main` has not yet acted on it;
  the locker and the goroutines of the connections accepted before run on -/
  | returned (err : Option String)
  /-- the process is over -/
  | terminated (t : Termination)
deriving DecidableEq, Repr

/-- The process is alive. -/
def Proc.running : Proc → Bool
  | .terminated _ => false
  | _ => true

/-- The state of the whole process. -/
structure State where
  /-- nanoseconds since the locker goroutine started -/
  now : Nat
  /-- the package-level lock -/
  lock : RWMutex
  /-- the program counter of the locker -/
  locker : LockerPc
  /-- the number of loop iterations the locker has completed -/
  iterations : Nat
  /-- the handler invocations, in order of arrival -/
  handlers : List Handler
  /-- the phase of `main` -/
  proc : Proc
  /-- the lines the code of `main.go` has logged; what `net/http` logs on its own
  account, as when it recovers the panic of a handler, is not recorded -/
  log : List LogEntry
  /-- the address `ListenAndServe` has bound, once it has -/
  bound : Option String
deriving DecidableEq, Repr

/-- Requests can come in: the server accepts connections, or `ListenAndServe` has
returned from serving and the connections it had accepted are still served. -/
def State.connected (s : State) : Bool :=
  match s.proc with
  | .serving => true
  | .returned _ => s.bound.isSome
  | _ => false

/-- The state at process start for a lock of the given policy: the lock is unlocked, the
locker is at the top of its loop, no request has arrived, `main` is about to bind. -/
def initWith (pref : Bool) : State :=
  { now := 0, lock := { RWMutex.zero with writerPreference := pref }, locker := .atSleep10,
    iterations := 0, handlers := [], proc := .starting, log := [], bound := none }

/-- The state at process start with the lock of Go. -/
def init : State := initWith true

/-- What can happen next. -/
inductive Label where
  /-- `d` nanoseconds pass -/
  | tick (d : Nat)
  /-- `ListenAndServe` binds the address (`none`), or fails to and returns `err` -/
  | listen (err : Option String)
  /-- `ListenAndServe` returns from serving with `err` -/
  | serveReturn (err : Option String)
  /-- `main` acts on the value `ListenAndServe` has returned (lines 29 to 32): it calls
  `log.Fatalf`, which logs and exits, or it returns -/
  | mainExit
  /-- the server has read a request from a connection: it answers the request itself, or
  it invokes the handler for it on the goroutine of the connection -/
  | arrive (req : Request)
  /-- the locker goroutine advances -/
  | locker
  /-- the handler invocation number `i` advances; `out` is what `w.Write` does should
  this be its call of `Write` -/
  | handler (i : Nat) (out : WriteOutcome)
deriving DecidableEq, Repr

/-- One step of a handler invocation (lines 23-26 and the deferred call of line 24);
the new lock state and the new invocation, `none` when it is suspended or over. -/
def handlerStep (m : RWMutex) (h : Handler) (out : WriteOutcome) :
    Option (Except String (RWMutex × Handler)) :=
  match h.pc with
  | .atRLock =>
    match m.rlock with
    | none => none
    | some m' => some (.ok (m', { h with pc := .atWrite, ops := h.ops ++ [.rlock] }))
  | .atWrite =>
    some (.ok (m, { h with pc := .atRUnlock (exitAfterWrite out),
                           ops := h.ops ++ [.write okBytes] }))
  | .atRUnlock e =>
    match m.runlock with
    | .error msg => some (.error msg)
    | .ok m' => some (.ok (m', { h with pc := .returned e, ops := h.ops ++ [.runlock] }))
  | .returned _ => none

/-- The invocation can take a step: it is neither over nor suspended in `RLock`. -/
def handlerReady (m : RWMutex) (h : Handler) : Bool :=
  (handlerStep m h .ok).isSome

/-- The time that may pass before the locker or an invocation has to advance, when sleeps
are exact and statements take no time: none while an invocation can take a step or the
locker stands at a statement it can execute, the rest of the sleep while the locker
sleeps; `none` when the locker is suspended for an unknown time. -/
def slack (s : State) : Option Nat :=
  if s.handlers.any (handlerReady s.lock) then some 0
  else
    match s.locker with
    | .inSleep10 wake => some (wake - s.now)
    | .inSleep2 wake => some (wake - s.now)
    | .inLock => if s.lock.readers = 0 then some 0 else none
    | _ => some 0

/-- The process ends with `t`; when `t` is the fatal exit of line 30 the logger has
written its line before. -/
def terminate (s : State) (t : Termination) : State :=
  { s with
    proc := .terminated t
    log := match t with
      | .listenFatal e => s.log ++ [{ time := s.now, message := fatalMessage e }]
      | _ => s.log }

/-- One step of the locker goroutine (lines 14-19); `none` when it is suspended. -/
def lockerStep (s : State) : Option State :=
  match s.locker with
  | .atSleep10 => some { s with locker := .inSleep10 (s.now + idleSleep) }
  | .inSleep10 wake => if wake ≤ s.now then some { s with locker := .atLock } else none
  | .atLock =>
    match s.lock.lockBegin with
    | none => none
    | some (m, true) => some { s with lock := m, locker := .atSleep2 }
    | some (m, false) => some { s with lock := m, locker := .inLock }
  | .inLock =>
    match s.lock.lockFinish with
    | none => none
    | some m => some { s with lock := m, locker := .atSleep2 }
  | .atSleep2 => some { s with locker := .inSleep2 (s.now + holdSleep) }
  | .inSleep2 wake => if wake ≤ s.now then some { s with locker := .atUnlock } else none
  | .atUnlock =>
    match s.lock.unlock with
    | .error msg => some (terminate s (.runtimeFatal msg))
    | .ok m => some { s with lock := m, locker := .atSleep10, iterations := s.iterations + 1 }

/-- One step of the process.  With `exact` set, sleeps end exactly when requested and the
statements of the locker and of the handler take no time: the clock stands still while
one of them can take a step.  Without it a sleep lasts at least the requested duration, as
`time.Sleep` promises, and a statement may take any time.  Nothing happens after the
process has terminated. -/
def step (exact : Bool) (s : State) (l : Label) : Option State :=
  if s.proc.running then
    match l with
    | .tick d =>
      if exact then
        match slack s with
        | some k => if d ≤ k then some { s with now := s.now + d } else none
        | none => some { s with now := s.now + d }
      else some { s with now := s.now + d }
    | .listen err =>
      match s.proc with
      | .starting =>
        match err with
        | none => some { s with proc := .serving, bound := some listenAddr }
        | some e => some { s with proc := .returned (some e) }
      | _ => none
    | .serveReturn err =>
      match s.proc with
      | .serving => some { s with proc := .returned err }
      | _ => none
    | .mainExit =>
      match s.proc with
      | .returned err => some (terminate s (mainAfterListenAndServe err))
      | _ => none
    | .arrive req =>
      if s.connected then
        if answeredByServer req then some s
        else
          some { s with handlers := s.handlers ++ [{ req := req, pc := .atRLock, ops := [] }] }
      else none
    | .locker => lockerStep s
    | .handler i out =>
      match s.handlers[i]? with
      | none => none
      | some h =>
        match handlerStep s.lock h out with
        | none => none
        | some (.error msg) => some (terminate s (.runtimeFatal msg))
        | some (.ok (m, h')) => some { s with lock := m, handlers := s.handlers.set i h' }
  else none

/-- Running a sequence of steps; `none` when one of them is not possible. -/
def run (exact : Bool) (s : State) : List Label → Option State
  | [] => some s
  | l :: ls =>
    match step exact s l with
    | none => none
    | some s' => run exact s' ls

/-- The states the process can be in, whatever the policy of the lock. -/
def Reachable (exact : Bool) (s : State) : Prop :=
  ∃ pref ls, run exact (initWith pref) ls = some s

/-- The number of handler invocations between the return of `RLock` and the deferred
`RUnlock`. -/
def sharedHolders (s : State) : Nat :=
  s.handlers.countP fun h => h.pc.holding

/-- The locker is inside `lock.Lock()`, waiting for the shared holders to leave. -/
def LockerPc.waiting : LockerPc → Bool
  | .inLock => true
  | _ => false

/-- The calls an invocation has made when it stands at a program counter. -/
def opsAt : HandlerPc → List HandlerOp
  | .atRLock => []
  | .atWrite => [.rlock]
  | .atRUnlock _ => [.rlock, .write okBytes]
  | .returned _ => [.rlock, .write okBytes, .runlock]

/-- The invariant that ties the lock to the program counters of its users. -/
structure Inv (s : State) : Prop where
  writer_eq : s.lock.writer = s.locker.holding
  waiting_eq : s.lock.writerWaiting = s.locker.waiting
  readers_eq : s.lock.readers = sharedHolders s
  exclusive : s.lock.writer = true → s.lock.readers = 0
  ops_eq : ∀ h ∈ s.handlers, h.ops = opsAt h.pc
  no_runtime_fatal : ∀ msg, s.proc ≠ .terminated (.runtimeFatal msg)
  starting_empty : s.proc = .starting → s.handlers = []

/-- From `s` the process can get to `s'`. -/
def Reaches (exact : Bool) (s s' : State) : Prop :=
  ∃ ls, run exact s ls = some s'

/-- The time the exclusive hold is still scheduled to last: the whole second sleep when
the locker has not started it, what is left of it when it sleeps, nothing when it has
woken up. -/
def remainingHold (s : State) : Nat :=
  match s.locker with
  | .atSleep2 => holdSleep
  | .inSleep2 wake => wake - s.now
  | _ => 0

/-- What the sleeps guarantee about the clock, however late they end. -/
structure TimeInv (s : State) : Prop where
  idle_wake : ∀ w, s.locker = .inSleep10 w → idleSleep ≤ w
  hold_wake : ∀ w, s.locker = .inSleep2 w → w ≤ s.now + holdSleep
  past_idle : s.locker.index ≠ 0 ∨ s.iterations ≠ 0 → idleSleep ≤ s.now

/-- What the server guarantees about the invocations and the address: every invocation is
for a request the server hands to the handler, there is none unless the address has been
bound, and the address bound is the one of line 29. -/
structure ServerInv (s : State) : Prop where
  handed : ∀ h ∈ s.handlers, answeredByServer h.req = false
  unbound_empty : s.bound = none → s.handlers = []
  starting_unbound : s.proc = .starting → s.bound = none
  serving_bound : s.proc = .serving → s.bound = some listenAddr
  bound_addr : ∀ a, s.bound = some a → a = listenAddr

/-- The way an invocation standing at `pc` ends when its call of `Write`, should it still
have to make it, does `out`. -/
def exitOf : HandlerPc → WriteOutcome → Exit
  | .atRUnlock e, _ => e
  | .returned e, _ => e
  | _, out => exitAfterWrite out

/-- Between `s` and `s'` nothing but handler invocations has moved, and the invocations
that were outside their critical section in `s` have not moved either. -/
structure HandlersMoved (s s' : State) : Prop where
  locker_eq : s'.locker = s.locker
  now_eq : s'.now = s.now
  proc_eq : s'.proc = s.proc
  iterations_eq : s'.iterations = s.iterations
  log_eq : s'.log = s.log
  others : ∀ (j : Nat) (h : Handler), s.handlers[j]? = some h → h.pc.holding = false →
    s'.handlers[j]? = some h

/-- The invocation is over. -/
def HandlerPc.isReturned : HandlerPc → Bool
  | .returned _ => true
  | _ => false

/-- What the log holds: nothing while the process runs or after `main` has returned,
the line of `log.Fatalf`, written when the process ended, after the fatal exit of line 30. -/
def expectedLog (s : State) : List LogEntry :=
  match s.proc with
  | .terminated (.listenFatal e) => [{ time := s.now, message := fatalMessage e }]
  | _ => []

/-- The clock under exact sleeps and statements that take no time, tied to the program
counter of the locker: iteration `k` starts at `12 k` seconds, `Lock` is called and
returns at `12 k + 10` seconds, `Unlock` is called at `12 k + 12` seconds. -/
structure ExactInv (s : State) : Prop where
  top : s.locker = .atSleep10 → s.now = 12 * Second * s.iterations
  idle : ∀ w, s.locker = .inSleep10 w →
    w = 12 * Second * s.iterations + idleSleep ∧ 12 * Second * s.iterations ≤ s.now ∧ s.now ≤ w
  locking : s.locker = .atLock ∨ s.locker = .inLock ∨ s.locker = .atSleep2 →
    s.now = 12 * Second * s.iterations + idleSleep
  hold : ∀ w, s.locker = .inSleep2 w →
    w = 12 * Second * s.iterations + idleSleep + holdSleep ∧
      12 * Second * s.iterations + idleSleep ≤ s.now ∧ s.now ≤ w
  unlocking : s.locker = .atUnlock →
    s.now = 12 * Second * s.iterations + idleSleep + holdSleep

/-- The exclusive hold that was to end at time `e` is over and the invocation number `i`,
for the request `r`, has been let in: either it is still time `e`, the locker has unlocked
and is back at its first sleep, or time has moved on and the invocation has returned. -/
def AfterHold (e : Nat) (i : Nat) (r : Request) (s : State) : Prop :=
  (s.now = e ∧ (s.locker = .atSleep10 ∨ ∃ w, s.locker = .inSleep10 w ∧ e < w) ∧
      ∃ h, s.handlers[i]? = some h ∧ h.req = r) ∨
    (e < s.now ∧ ∃ h, s.handlers[i]? = some h ∧ h.req = r ∧ h.pc.isReturned = true)

/-! ## The timeline of the locker -/

/-- One executed statement of the locker: the iteration it belongs to, the statement, the
time it was reached and the time it completed. -/
structure LockerEvent where
  iteration : Nat
  stmt : LockerStmt
  start : Nat
  finish : Nat
deriving DecidableEq, Repr

/-- The time at which a statement reached at time `t` completes when sleeps are exact and
statements take no time of their own: a sleep lasts its argument, `Lock` lasts the time
`wait` it is suspended, `Unlock` returns at once. -/
def execStmt (wait : Nat) (t : Nat) : LockerStmt → Nat
  | .sleep d => t + d
  | .lock => t + wait
  | .unlock => t

/-- Executing statements in order from time `t` in iteration `k`: the events and the time
at which the last statement completes. -/
def execBody (k : Nat) (wait : Nat) : Nat → List LockerStmt → List LockerEvent × Nat
  | t, [] => ([], t)
  | t, st :: rest =>
    let r := execBody k wait (execStmt wait t st) rest
    ({ iteration := k, stmt := st, start := t, finish := execStmt wait t st } :: r.1, r.2)

/-- The first `n` passes through `for { ... }` (lines 14-19), starting iteration `k` at
time `t`; `wait j` is the time the call of `Lock` of iteration `j` is suspended. -/
def lockerLoop (wait : Nat → Nat) : Nat → Nat → Nat → List LockerEvent
  | 0, _, _ => []
  | n + 1, k, t =>
    let r := execBody k (wait k) t lockerBody
    r.1 ++ lockerLoop wait n (k + 1) r.2

/-- The start of iteration `k` as the specification gives it: 12 seconds for every
earlier iteration, plus the time these iterations waited for the lock. -/
def iterationStart (wait : Nat → Nat) (k : Nat) : Nat :=
  12 * Second * k + ((List.range k).map wait).sum

/-- The four events of one iteration as the specification gives them, for an iteration
`k` that starts at `t` and waits `w` for the lock. -/
def iterationEvents (w k t : Nat) : List LockerEvent :=
  [ { iteration := k, stmt := .sleep idleSleep, start := t, finish := t + 10 * Second },
    { iteration := k, stmt := .lock, start := t + 10 * Second, finish := t + 10 * Second + w },
    { iteration := k, stmt := .sleep holdSleep,
      start := t + 10 * Second + w, finish := t + 12 * Second + w },
    { iteration := k, stmt := .unlock,
      start := t + 12 * Second + w, finish := t + 12 * Second + w } ]

/-- The interval during which the lock is held exclusively in a list of events of one
iteration: from the completion of `Lock` to the call of `Unlock`. -/
def holdInterval (evs : List LockerEvent) : Option (Nat × Nat) :=
  match evs.find? (fun e => e.stmt = .lock), evs.find? (fun e => e.stmt = .unlock) with
  | some l, some u => some (l.finish, u.start)
  | _, _ => none

/-! ## The locker alone, under exact sleeps -/

/-- The locker at the top of iteration `k` at time `t`, the lock free, no request so far. -/
def idleAt (t k : Nat) : State :=
  { init with now := t, iterations := k }

/-- The locker in iteration `k` at time `t`, `Lock` having just returned, no request so
far. -/
def holdAt (t k : Nat) : State :=
  { init with
    now := t, iterations := k, locker := .atSleep2,
    lock := { readers := 0, writer := true, writerWaiting := false } }

/-- The steps of the locker from the top of the loop to the return of `Lock` when nobody
holds the lock: it starts its sleep, 10 seconds pass, it wakes up and locks. -/
def idlePhase : List Label :=
  [.locker, .tick idleSleep, .locker, .locker]

/-- The steps of the locker from the return of `Lock` to the top of the loop: it starts
its sleep, 2 seconds pass, it wakes up and unlocks. -/
def holdPhase : List Label :=
  [.locker, .tick holdSleep, .locker, .locker]

/-! ## Concrete requests, runs and states -/

/-- The request `GET /`. -/
def getRoot : Request :=
  { method := "GET", path := "/", headers := [], body := [] }

/-- A request with another method, another path, a header and a body. -/
def postElsewhere : Request :=
  { method := "POST", path := "/any/other/path", headers := [("X-Trace", "1")],
    body := [1, 2, 3] }

/-- The request `HEAD /`. -/
def headRoot : Request :=
  { method := "HEAD", path := "/", headers := [], body := [] }

/-- The request `GET //x`: its path is not clean. -/
def getUnclean : Request :=
  { method := "GET", path := "//x", headers := [], body := [] }

/-- The request `CONNECT 127.0.0.1:8989`: its target is an authority, it has no path. -/
def connectAuthority : Request :=
  { method := "CONNECT", path := "", headers := [], body := [] }

/-- The request `OPTIONS *`. -/
def optionsAsterisk : Request :=
  { method := "OPTIONS", path := "*", headers := [], body := [] }

/-- The request `GET /` of HTTP/1.1 without `Host` header. -/
def getWithoutHost : Request :=
  { method := "GET", path := "/", host := none, headers := [], body := [] }

/-- The request `GET /` with the header `Expect: 200-ok`. -/
def getExpecting : Request :=
  { method := "GET", path := "/", expect := .other, headers := [], body := [] }

/-- An invocation that has returned normally. -/
def servedHandler (r : Request) : Handler :=
  { req := r, pc := .returned .normal, ops := [.rlock, .write okBytes, .runlock] }

/-- An invocation that has not got past `RLock`. -/
def waitingHandler (r : Request) : Handler :=
  { req := r, pc := .atRLock, ops := [] }

/-- An invocation that holds the lock in shared mode and is about to write. -/
def writingHandler (r : Request) : Handler :=
  { req := r, pc := .atWrite, ops := [.rlock] }

/-- The server has bound the address and one request has been served, at time 0. -/
def servedState : State :=
  { now := 0, lock := RWMutex.zero, locker := .atSleep10, iterations := 0,
    handlers := [servedHandler postElsewhere], proc := .serving, log := [], bound := some listenAddr }

/-- The run that leads to `servedState`. -/
def servedRun : List Label :=
  [.listen none, .arrive postElsewhere, .handler 0 .ok, .handler 0 .error, .handler 0 .ok]

/-- The server has bound the address and the request `HEAD /` has been served, at time 0. -/
def headServedState : State :=
  { servedState with handlers := [servedHandler headRoot] }

/-- The run that leads to `headServedState`. -/
def headServedRun : List Label :=
  [.listen none, .arrive headRoot, .handler 0 .ok, .handler 0 .ok, .handler 0 .ok]

/-- The locker holds the lock since time 10 s and a request that has arrived stands at
`RLock`; an earlier request has been served. -/
def heldState : State :=
  { now := idleSleep, lock := { readers := 0, writer := true, writerWaiting := false },
    locker := .atSleep2, iterations := 0,
    handlers := [servedHandler getRoot, waitingHandler postElsewhere],
    proc := .serving, log := [], bound := some listenAddr }

/-- The run that leads to `heldState`. -/
def heldRun : List Label :=
  [.listen none, .arrive getRoot, .handler 0 .ok, .handler 0 .ok, .handler 0 .ok,
    .locker, .tick idleSleep, .locker, .locker, .arrive postElsewhere]

/-- One invocation holds the lock in shared mode and is about to call `Write`. -/
def writingState : State :=
  { now := 0, lock := { readers := 1, writer := false, writerWaiting := false },
    locker := .atSleep10, iterations := 0,
    handlers := [writingHandler getRoot], proc := .serving, log := [], bound := some listenAddr }

/-- The run that leads to `writingState`. -/
def writingRun : List Label :=
  [.listen none, .arrive getRoot, .handler 0 .ok]

/-- Five seconds after start: the locker is in its first sleep and a request has just
arrived. -/
def earlyState : State :=
  { now := 5 * Second, lock := RWMutex.zero, locker := .inSleep10 idleSleep, iterations := 0,
    handlers := [waitingHandler getRoot], proc := .serving, log := [], bound := some listenAddr }

/-- The run that leads to `earlyState`. -/
def earlyRun : List Label :=
  [.listen none, .locker, .tick (5 * Second), .arrive getRoot]

/-- The steps up to 10.5 seconds after start when no request arrives before: the locker
sleeps 10 seconds, takes the lock at once and starts its sleep of 2 seconds; half a second
later a request arrives. -/
def midHoldRun : List Label :=
  [.listen none, .locker, .tick idleSleep, .locker, .locker, .locker, .tick (Second / 2),
    .arrive getRoot]

/-- The state 10.5 seconds after start that `midHoldRun` leads to: the lock is held until
12 seconds and the request stands at `RLock`. -/
def midHoldState : State :=
  { now := 10 * Second + Second / 2,
    lock := { readers := 0, writer := true, writerWaiting := false },
    locker := .inSleep2 (12 * Second), iterations := 0,
    handlers := [waitingHandler getRoot], proc := .serving, log := [], bound := some listenAddr }

/-- The steps after `midHoldState` that serve the request as early as possible: the rest
of the 2 seconds passes, the locker wakes up and unlocks, the handler runs. -/
def midHoldServe : List Label :=
  [.tick (Second + Second / 2), .locker, .locker,
    .handler 0 .ok, .handler 0 .ok, .handler 0 .ok]

/-- The state `midHoldServe` leads to from `midHoldState`, 12 seconds after start. -/
def midHoldServed : State :=
  { now := 12 * Second, lock := RWMutex.zero, locker := .atSleep10, iterations := 1,
    handlers := [servedHandler getRoot], proc := .serving, log := [], bound := some listenAddr }

/-- The state `midHoldState` three seconds later, the locker having overslept. -/
def oversleptState : State :=
  { midHoldState with now := 13 * Second + Second / 2 }

/-- Five seconds after start the request `HEAD /` has arrived and has been served. -/
def earlyHeadServed : State :=
  { earlyState with handlers := [servedHandler headRoot] }

/-- The run that leads to `earlyHeadServed`. -/
def earlyHeadRun : List Label :=
  [.listen none, .locker, .tick (5 * Second), .arrive headRoot,
    .handler 0 .ok, .handler 0 .ok, .handler 0 .ok]

/-- The state `midHoldState` with the request `HEAD /` in the place of `GET /`. -/
def midHoldHead : State :=
  { midHoldState with handlers := [waitingHandler headRoot] }

/-- The run that leads to `midHoldHead`. -/
def midHoldHeadRun : List Label :=
  [.listen none, .locker, .tick idleSleep, .locker, .locker, .locker, .tick (Second / 2),
    .arrive headRoot]

/-- The state `midHoldServed` with the request `HEAD /` in the place of `GET /`. -/
def midHoldHeadServed : State :=
  { midHoldServed with handlers := [servedHandler headRoot] }

/-- The state 10.5 seconds after start when no request has arrived: the lock is held
until 12 seconds. -/
def midHoldIdle : State :=
  { midHoldState with handlers := [] }

/-- The run that leads to `midHoldIdle`. -/
def midHoldIdleRun : List Label :=
  [.listen none, .locker, .tick idleSleep, .locker, .locker, .locker, .tick (Second / 2)]

/-- The steps that make the locker wait inside `Lock`: the locker sleeps 10 seconds; a
first request arrives and takes the lock in shared mode just before the locker wakes up
and calls `Lock`; then a second request arrives. -/
def pendingRun : List Label :=
  [.listen none, .locker, .tick idleSleep, .arrive getRoot, .handler 0 .ok, .locker, .locker,
    .arrive postElsewhere]

/-- The state `pendingRun` leads to: nobody holds the lock exclusively, the first
invocation holds it in shared mode, the locker waits inside `Lock` and the second
invocation stands at `RLock`. -/
def pendingState : State :=
  { now := idleSleep, lock := { readers := 1, writer := false, writerWaiting := true },
    locker := .inLock, iterations := 0,
    handlers := [writingHandler getRoot, waitingHandler postElsewhere],
    proc := .serving, log := [], bound := some listenAddr }

/-- The error with which serving ends in `fatalAfterServing`. -/
def acceptError : String := "accept tcp 127.0.0.1:8989: accept4: bad file descriptor"

/-- The state after a request has been served and `ListenAndServe` has then returned
`acceptError`: `main` has not yet acted on it. -/
def returnedAfterServing : State :=
  { servedState with proc := .returned (some acceptError) }

/-- The state after `main` has then called `log.Fatalf`. -/
def fatalAfterServing : State :=
  { servedState with
    proc := .terminated (.listenFatal acceptError)
    log := [{ time := 0, message := fatalMessage acceptError }] }

/-- The error of a bind on a port in use. -/
def addressInUse : String := "listen tcp 127.0.0.1:8989: bind: address already in use"

/-- The state after the bind has failed with `addressInUse` at process start:
`ListenAndServe` has returned and `main` has not yet acted on it. -/
def bindFailed : State :=
  { init with proc := .returned (some addressInUse) }

/-! ## Lists of invocations -/

theorem countP_set_of_get {α : Type} (p : α → Bool) :
    ∀ (l : List α) (i : Nat) (h a : α), l[i]? = some h →
      (l.set i a).countP p + (if p h then 1 else 0) = l.countP p + (if p a then 1 else 0)
  | [], i, h, a, hget => by simp at hget
  | x :: xs, 0, h, a, hget => by
    simp at hget
    subst hget
    simp [List.countP_cons]
    omega
  | x :: xs, i + 1, h, a, hget => by
    simp at hget
    have ih := countP_set_of_get p xs i h a hget
    simp [List.countP_cons]
    omega

theorem mem_set_of_get {α : Type} :
    ∀ (l : List α) (i : Nat) (a b : α), b ∈ l.set i a → b = a ∨ b ∈ l
  | [], _, _, _, hb => by simp at hb
  | x :: xs, 0, a, b, hb => by
    simp at hb
    rcases hb with h | h
    · exact Or.inl h
    · exact Or.inr (List.mem_cons_of_mem _ h)
  | x :: xs, i + 1, a, b, hb => by
    simp at hb
    rcases hb with h | h
    · exact Or.inr (by simp [h])
    · rcases mem_set_of_get xs i a b h with h1 | h1
      · exact Or.inl h1
      · exact Or.inr (List.mem_cons_of_mem _ h1)

/-! ## The invariant of the lock -/

theorem inv_init (pref : Bool) : Inv (initWith pref) := by
  constructor <;>
    simp [initWith, RWMutex.zero, LockerPc.holding, LockerPc.waiting, sharedHolders]

theorem inv_tick (s : State) (d : Nat) (h : Inv s) : Inv { s with now := s.now + d } :=
  ⟨h.1, h.2, h.3, h.4, h.5, h.6, h.7⟩

theorem inv_lockerStep {s s' : State} (h : Inv s) (hs : lockerStep s = some s') : Inv s' := by
  obtain ⟨h1, h2, h3, h4, h5, h6, h7⟩ := h
  unfold lockerStep at hs
  split at hs
  · simp at hs; subst hs
    constructor <;> simp_all [LockerPc.holding, LockerPc.waiting, sharedHolders]
  · split at hs
    · simp at hs; subst hs
      constructor <;> simp_all [LockerPc.holding, LockerPc.waiting, sharedHolders]
    · simp at hs
  · simp only [RWMutex.lockBegin] at hs
    split at hs
    · simp at hs
    · rename_i m heq
      split at heq
      · simp at heq
      · split at heq <;> simp at heq
        simp at hs; subst hs
        obtain ⟨rfl, _⟩ := heq
        constructor <;> simp_all [LockerPc.holding, LockerPc.waiting, sharedHolders]
    · rename_i m heq
      split at heq
      · simp at heq
      · split at heq <;> simp at heq
        simp at hs; subst hs
        obtain ⟨rfl, _⟩ := heq
        constructor <;> simp_all [LockerPc.holding, LockerPc.waiting, sharedHolders]
  · simp only [RWMutex.lockFinish] at hs
    split at hs
    · simp at hs
    · rename_i m heq
      split at heq
      · simp at heq hs; subst hs; subst heq
        constructor <;> simp_all [LockerPc.holding, LockerPc.waiting, sharedHolders]
      · simp at heq
  · simp at hs; subst hs
    constructor <;> simp_all [LockerPc.holding, LockerPc.waiting, sharedHolders]
  · split at hs
    · simp at hs; subst hs
      constructor <;> simp_all [LockerPc.holding, LockerPc.waiting, sharedHolders]
    · simp at hs
  · simp only [RWMutex.unlock] at hs
    split at hs
    · rename_i msg heq
      split at heq
      · simp at heq
      · simp_all [LockerPc.holding]
    · rename_i m heq
      split at heq
      · simp at heq hs; subst hs; subst heq
        constructor <;> simp_all [LockerPc.holding, LockerPc.waiting, sharedHolders]
      · simp at heq

theorem inv_terminate_listen {s : State} (h : Inv s) (err : Option String) :
    Inv (terminate s (mainAfterListenAndServe err)) := by
  obtain ⟨h1, h2, h3, h4, h5, h6, h7⟩ := h
  constructor <;> (cases err <;> simp_all [terminate, mainAfterListenAndServe, sharedHolders])

theorem inv_handlerStep {s : State} {i : Nat} {out : WriteOutcome} {h h' : Handler}
    {m : RWMutex} (hinv : Inv s) (hget : s.handlers[i]? = some h)
    (hs : handlerStep s.lock h out = some (.ok (m, h'))) :
    Inv { s with lock := m, handlers := s.handlers.set i h' } := by
  obtain ⟨h1, h2, h3, h4, h5, h6, h7⟩ := hinv
  have hcount : sharedHolders { s with lock := m, handlers := s.handlers.set i h' }
      + (if h.pc.holding then 1 else 0) = sharedHolders s + (if h'.pc.holding then 1 else 0) :=
    countP_set_of_get (fun h : Handler => h.pc.holding) s.handlers i h h' hget
  have hmem : h ∈ s.handlers := List.getElem?_mem hget
  have hops := h5 h hmem
  have hne : s.proc ≠ .starting := by
    intro hp
    rw [h7 hp] at hget
    simp at hget
  unfold handlerStep at hs
  split at hs
  · rename_i hpc
    simp only [RWMutex.rlock] at hs
    split at hs
    · simp at hs
    · rename_i m' heq
      split at heq
      · simp at heq
      · simp at heq hs
        obtain ⟨rfl, rfl⟩ := hs
        subst heq
        rename_i hw
        simp at hw
        have hh : h.pc.holding = false := by rw [hpc]; rfl
        rw [hh] at hcount
        simp [HandlerPc.holding] at hcount
        constructor
        · simpa using h1
        · simpa using h2
        · show s.lock.readers + 1 = _
          omega
        · simp [hw.1]
        · intro b hb
          rcases mem_set_of_get _ _ _ _ hb with rfl | hb
          · simp [opsAt, hops, hpc]
          · exact h5 b hb
        · exact h6
        · intro hp; exact absurd hp hne
  · rename_i hpc
    simp at hs
    obtain ⟨rfl, rfl⟩ := hs
    have hh : h.pc.holding = true := by rw [hpc]; rfl
    rw [hh] at hcount
    simp [HandlerPc.holding] at hcount
    constructor
    · simpa using h1
    · simpa using h2
    · show s.lock.readers = _
      omega
    · simpa using h4
    · intro b hb
      rcases mem_set_of_get _ _ _ _ hb with rfl | hb
      · simp [opsAt, hops, hpc]
      · exact h5 b hb
    · exact h6
    · intro hp; exact absurd hp hne
  · rename_i e hpc
    simp only [RWMutex.runlock] at hs
    split at hs
    · simp at hs
    · rename_i m' heq
      split at heq
      · simp at heq
      · simp at heq hs
        obtain ⟨rfl, rfl⟩ := hs
        subst heq
        rename_i hr
        have hh : h.pc.holding = true := by rw [hpc]; rfl
        rw [hh] at hcount
        simp [HandlerPc.holding] at hcount
        constructor
        · simpa using h1
        · simpa using h2
        · show s.lock.readers - 1 = _
          omega
        · intro hw
          have := h4 hw
          simp at hw
          omega
        · intro b hb
          rcases mem_set_of_get _ _ _ _ hb with rfl | hb
          · simp [opsAt, hops, hpc]
          · exact h5 b hb
        · exact h6
        · intro hp; exact absurd hp hne
  · simp at hs

theorem handlerStep_no_error {s : State} {i : Nat} {out : WriteOutcome} {h : Handler}
    (hinv : Inv s) (hget : s.handlers[i]? = some h) (msg : String) :
    handlerStep s.lock h out ≠ some (.error msg) := by
  intro hs
  have hpos : h.pc.holding = true → 0 < sharedHolders s := by
    intro hh
    apply List.countP_pos_iff.mpr
    exact ⟨h, List.getElem?_mem hget, hh⟩
  unfold handlerStep at hs
  split at hs
  · split at hs <;> simp at hs
  · simp at hs
  · rename_i e hpc
    have := hpos (by simp [hpc, HandlerPc.holding])
    have hr := hinv.readers_eq
    simp only [RWMutex.runlock] at hs
    split at hs
    · rename_i heq
      split at heq
      · omega
      · simp at heq
    · simp at hs
  · simp at hs

theorem inv_arrive {s : State} (hinv : Inv s) (req : Request) (hp : s.proc ≠ .starting) :
    Inv { s with handlers := s.handlers ++ [{ req := req, pc := .atRLock, ops := [] }] } := by
  obtain ⟨h1, h2, h3, h4, h5, h6, h7⟩ := hinv
  constructor
  · exact h1
  · exact h2
  · simp [sharedHolders, HandlerPc.holding] at h3 ⊢
    exact h3
  · exact h4
  · intro b hb
    simp at hb
    rcases hb with hb | rfl
    · exact h5 b hb
    · simp [opsAt]
  · exact h6
  · intro hp'
    exact absurd hp' hp

theorem inv_proc {s : State} (hinv : Inv s) (p : Proc) (hp : p ≠ .starting)
    (hnf : ∀ msg, p ≠ .terminated (.runtimeFatal msg)) (b : Option String) :
    Inv { s with proc := p, bound := b } := by
  obtain ⟨h1, h2, h3, h4, h5, h6, h7⟩ := hinv
  exact ⟨h1, h2, h3, h4, h5, hnf, fun h => absurd h hp⟩

theorem step_inv {exact : Bool} {s s' : State} {l : Label} (hinv : Inv s)
    (hs : step exact s l = some s') : Inv s' := by
  unfold step at hs
  split at hs
  · cases l with
    | tick d =>
      simp only at hs
      split at hs
      · split at hs
        · split at hs
          · simp at hs; subst hs; exact inv_tick s d hinv
          · simp at hs
        · simp at hs; subst hs; exact inv_tick s d hinv
      · simp at hs; subst hs; exact inv_tick s d hinv
    | listen err =>
      simp only at hs
      split at hs
      · split at hs
        · simp at hs; subst hs
          exact inv_proc hinv .serving (by simp) (by simp) _
        · simp at hs; subst hs
          exact inv_proc hinv (.returned _) (by simp) (by simp) s.bound
      · simp at hs
    | serveReturn err =>
      simp only at hs
      split at hs
      · simp at hs; subst hs
        exact inv_proc hinv (.returned _) (by simp) (by simp) s.bound
      · simp at hs
    | mainExit =>
      simp only at hs
      split at hs
      · simp at hs; subst hs; exact inv_terminate_listen hinv _
      · simp at hs
    | arrive req =>
      simp only at hs
      split at hs
      · rename_i hc
        split at hs
        · simp at hs; subst hs; exact hinv
        · simp at hs; subst hs
          exact inv_arrive hinv req (by intro hp; simp [State.connected, hp] at hc)
      · simp at hs
    | locker => exact inv_lockerStep hinv hs
    | handler i out =>
      simp only at hs
      split at hs
      · simp at hs
      · rename_i h hget
        split at hs
        · simp at hs
        · rename_i msg heq
          exact absurd heq (handlerStep_no_error hinv hget msg)
        · rename_i m h' heq
          simp at hs; subst hs
          exact inv_handlerStep hinv hget heq
  · simp at hs

theorem run_inv {exact : Bool} : ∀ (ls : List Label) {s s' : State}, Inv s →
    run exact s ls = some s' → Inv s'
  | [], s, s', hinv, hr => by
    simp [run] at hr; subst hr; exact hinv
  | l :: ls, s, s', hinv, hr => by
    simp only [run] at hr
    split at hr
    · simp at hr
    · rename_i s1 hs1
      exact run_inv ls (step_inv hinv hs1) hr

theorem reachable_inv {exact : Bool} {s : State} (h : Reachable exact s) : Inv s := by
  obtain ⟨pref, ls, hr⟩ := h
  exact run_inv ls (inv_init pref) hr

/-! ## Runs -/

theorem run_append (exact : Bool) : ∀ (l1 l2 : List Label) (s : State),
    run exact s (l1 ++ l2) = (run exact s l1).bind fun s1 => run exact s1 l2
  | [], l2, s => by simp [run]
  | l :: l1, l2, s => by
    simp only [List.cons_append, run]
    cases step exact s l with
    | none => simp
    | some s1 => simpa using run_append exact l1 l2 s1

theorem reaches_refl (exact : Bool) (s : State) : Reaches exact s s := ⟨[], rfl⟩

theorem reaches_trans {exact : Bool} {s s1 s2 : State} (h1 : Reaches exact s s1)
    (h2 : Reaches exact s1 s2) : Reaches exact s s2 := by
  obtain ⟨l1, hl1⟩ := h1
  obtain ⟨l2, hl2⟩ := h2
  exact ⟨l1 ++ l2, by rw [run_append, hl1]; simpa using hl2⟩

theorem reaches_step {exact : Bool} {s s' : State} {l : Label}
    (h : step exact s l = some s') : Reaches exact s s' :=
  ⟨[l], by simp [run, h]⟩

theorem reachable_reaches {exact : Bool} {s s' : State} (hs : Reachable exact s)
    (h : Reaches exact s s') : Reachable exact s' := by
  obtain ⟨pref, ls, hr⟩ := hs
  obtain ⟨ls', hr'⟩ := h
  exact ⟨pref, ls ++ ls', by rw [run_append, hr]; simpa using hr'⟩

theorem reaches_inv {exact : Bool} {s s' : State} (hinv : Inv s) (h : Reaches exact s s') :
    Inv s' := by
  obtain ⟨ls, hr⟩ := h
  exact run_inv ls hinv hr

/-! ## The steps written out -/

theorem step_tick_sleep2 (exact : Bool) (s : State) {w : Nat} (d : Nat)
    (hrun : s.proc.running = true) (hpc : s.locker = .inSleep2 w) (hd : d ≤ w - s.now)
    (hq : s.handlers.any (handlerReady s.lock) = false) :
    step exact s (.tick d) = some { s with now := s.now + d } := by
  cases exact <;> simp [step, hrun, slack, hpc, hd, hq]

theorem step_tick_sleep10 (exact : Bool) (s : State) {w : Nat} (d : Nat)
    (hrun : s.proc.running = true) (hpc : s.locker = .inSleep10 w) (hd : d ≤ w - s.now)
    (hq : s.handlers.any (handlerReady s.lock) = false) :
    step exact s (.tick d) = some { s with now := s.now + d } := by
  cases exact <;> simp [step, hrun, slack, hpc, hd, hq]

theorem held_quiet {s : State} (hinv : Inv s) (hw : s.lock.writer = true) :
    s.handlers.any (handlerReady s.lock) = false := by
  rw [List.any_eq_false]
  intro h hmem
  have hr := hinv.exclusive hw
  rw [hinv.readers_eq] at hr
  have hnh := List.countP_eq_zero.mp hr h hmem
  cases hpc : h.pc <;>
    simp_all [handlerReady, handlerStep, HandlerPc.holding, RWMutex.rlock, sharedHolders]

theorem returned_quiet {s : State} (hret : ∀ h ∈ s.handlers, h.pc.isReturned = true) :
    s.handlers.any (handlerReady s.lock) = false := by
  rw [List.any_eq_false]
  intro h hmem
  have := hret h hmem
  cases hpc : h.pc <;> simp_all [handlerReady, handlerStep, HandlerPc.isReturned]

theorem ready_of_free {s : State} {i : Nat} {h : Handler}
    (hw : s.lock.writer = false) (hww : s.lock.writerWaiting = false)
    (hget : s.handlers[i]? = some h) (hnr : h.pc.isReturned = false) :
    s.handlers.any (handlerReady s.lock) = true := by
  rw [List.any_eq_true]
  refine ⟨h, List.getElem?_mem hget, ?_⟩
  cases hpc : h.pc with
  | returned e => simp [hpc, HandlerPc.isReturned] at hnr
  | atRLock => simp [handlerReady, handlerStep, hpc, RWMutex.rlock, hw, hww]
  | atWrite => simp [handlerReady, handlerStep, hpc]
  | atRUnlock e =>
    simp only [handlerReady, handlerStep, hpc]
    cases s.lock.runlock <;> rfl

theorem step_locker (exact : Bool) {s : State} (hrun : s.proc.running = true) :
    step exact s .locker = lockerStep s := by
  simp [step, hrun]

theorem step_handler_rlock (exact : Bool) (s : State) {i : Nat} {h : Handler}
    (out : WriteOutcome) (hrun : s.proc.running = true) (hget : s.handlers[i]? = some h)
    (hpc : h.pc = .atRLock) (hw : s.lock.writer = false)
    (hww : s.lock.writerWaiting = false) :
    step exact s (.handler i out) =
      some { s with
        lock := { s.lock with readers := s.lock.readers + 1 }
        handlers := s.handlers.set i { h with pc := .atWrite, ops := h.ops ++ [.rlock] } } := by
  simp [step, hrun, hget, handlerStep, hpc, RWMutex.rlock, hw, hww]

theorem step_handler_rlock_blocked (exact : Bool) (s : State) {i : Nat} {h : Handler}
    (out : WriteOutcome) (hget : s.handlers[i]? = some h)
    (hpc : h.pc = .atRLock)
    (hw : s.lock.writer = true ∨
      (s.lock.writerPreference = true ∧ s.lock.writerWaiting = true)) :
    step exact s (.handler i out) = none := by
  unfold step
  split
  · rcases hw with hw | ⟨hp, hw⟩
    · simp [hget, handlerStep, hpc, RWMutex.rlock, hw]
    · simp [hget, handlerStep, hpc, RWMutex.rlock, hw, hp]
  · rfl

theorem step_handler_write (exact : Bool) (s : State) {i : Nat} {h : Handler}
    (out : WriteOutcome) (hrun : s.proc.running = true) (hget : s.handlers[i]? = some h)
    (hpc : h.pc = .atWrite) :
    step exact s (.handler i out) =
      some { s with
        handlers := s.handlers.set i
          { h with pc := .atRUnlock (exitAfterWrite out), ops := h.ops ++ [.write okBytes] } } := by
  simp [step, hrun, hget, handlerStep, hpc]

theorem step_handler_runlock (exact : Bool) (s : State) {i : Nat} {h : Handler} {e : Exit}
    (out : WriteOutcome) (hrun : s.proc.running = true) (hget : s.handlers[i]? = some h)
    (hpc : h.pc = .atRUnlock e) (hr : s.lock.readers ≠ 0) :
    step exact s (.handler i out) =
      some { s with
        lock := { s.lock with readers := s.lock.readers - 1 }
        handlers := s.handlers.set i
          { h with pc := .returned e, ops := h.ops ++ [.runlock] } } := by
  simp [step, hrun, hget, handlerStep, hpc, RWMutex.runlock, hr]

theorem holder_readers_ne_zero {s : State} {i : Nat} {h : Handler} (hinv : Inv s)
    (hget : s.handlers[i]? = some h) (hh : h.pc.holding = true) : s.lock.readers ≠ 0 := by
  have hpos : 0 < sharedHolders s :=
    List.countP_pos_iff.mpr ⟨h, List.getElem?_mem hget, hh⟩
  have := hinv.readers_eq
  omega

theorem set_get_self {α : Type} (l : List α) (i : Nat) (a b : α) (h : l[i]? = some b) :
    (l.set i a)[i]? = some a := by
  have hlt : i < l.length := by
    rcases List.getElem?_eq_some_iff.mp h with ⟨hlt, _⟩
    exact hlt
  simp [List.getElem?_set, hlt]

theorem set_get_other {α : Type} (l : List α) (i j : Nat) (a : α) (hij : i ≠ j) :
    (l.set i a)[j]? = l[j]? := by
  simp [List.getElem?_set, hij]

/-! ## Leaving the critical sections -/

theorem finish_holder (exact : Bool) {s : State} {j : Nat} {h : Handler}
    (out : WriteOutcome) (hinv : Inv s) (hrun : s.proc.running = true)
    (hget : s.handlers[j]? = some h) (hh : h.pc.holding = true) :
    ∃ s', Reaches exact s s' ∧
      s' = { s with
        lock := { s.lock with readers := s.lock.readers - 1 }
        handlers := s.handlers.set j
          { h with pc := .returned (exitOf h.pc out),
                   ops := opsAt (.returned (exitOf h.pc out)) } } := by
  have hops := hinv.ops_eq h (List.getElem?_mem hget)
  have hr := holder_readers_ne_zero hinv hget hh
  cases hpc : h.pc with
  | atRLock => simp [hpc, HandlerPc.holding] at hh
  | returned e => simp [hpc, HandlerPc.holding] at hh
  | atRUnlock e =>
    refine ⟨_, reaches_step (step_handler_runlock exact s out hrun hget hpc hr), ?_⟩
    simp [exitOf, opsAt, hops, hpc]
  | atWrite =>
    let h1 : Handler :=
      { h with pc := .atRUnlock (exitAfterWrite out), ops := h.ops ++ [.write okBytes] }
    let s1 : State := { s with handlers := s.handlers.set j h1 }
    have hstep1 : step exact s (.handler j out) = some s1 :=
      step_handler_write exact s out hrun hget hpc
    have hget1 : s1.handlers[j]? = some h1 := set_get_self s.handlers j h1 h hget
    have hstep2 := step_handler_runlock exact s1 out hrun hget1 rfl hr
    refine ⟨_, reaches_trans (reaches_step hstep1) (reaches_step hstep2), ?_⟩
    simp [exitOf, opsAt, hops, hpc]

theorem sharedHolders_finish {s : State} {j : Nat} {h h' : Handler} {m : RWMutex}
    (hget : s.handlers[j]? = some h) (hh : h.pc.holding = true)
    (hh' : h'.pc.holding = false) :
    sharedHolders { s with lock := m, handlers := s.handlers.set j h' } + 1 =
      sharedHolders s := by
  have hcount : sharedHolders { s with lock := m, handlers := s.handlers.set j h' }
      + (if h.pc.holding then 1 else 0) = sharedHolders s + (if h'.pc.holding then 1 else 0) :=
    countP_set_of_get (fun h : Handler => h.pc.holding) s.handlers j h h' hget
  rw [hh, hh'] at hcount
  simpa using hcount

theorem handlersMoved_refl (s : State) : HandlersMoved s s :=
  ⟨rfl, rfl, rfl, rfl, rfl, fun _ _ h _ => h⟩

theorem handlersMoved_trans {s s1 s2 : State} (h1 : HandlersMoved s s1)
    (h2 : HandlersMoved s1 s2) : HandlersMoved s s2 :=
  ⟨h2.1.trans h1.1, h2.2.trans h1.2, h2.3.trans h1.3, h2.4.trans h1.4, h2.5.trans h1.5,
    fun j h hj hh => h2.6 j h (h1.6 j h hj hh) hh⟩

theorem drain (exact : Bool) : ∀ (n : Nat) (s : State), Inv s → s.proc.running = true →
    sharedHolders s = n →
    ∃ s', Reaches exact s s' ∧ HandlersMoved s s' ∧ sharedHolders s' = 0
  | 0, s, _, _, hn => ⟨s, reaches_refl exact s, handlersMoved_refl s, hn⟩
  | n + 1, s, hinv, hrun, hn => by
    have hpos : 0 < sharedHolders s := by omega
    obtain ⟨h, hmem, hh⟩ := List.countP_pos_iff.mp hpos
    obtain ⟨j, hget⟩ := List.getElem?_of_mem hmem
    obtain ⟨s1, hreach1, hs1⟩ := finish_holder exact .ok hinv hrun hget hh
    have hinv1 : Inv s1 := reaches_inv hinv hreach1
    have hcount : sharedHolders s1 + 1 = sharedHolders s := by
      rw [hs1]
      exact sharedHolders_finish hget hh rfl
    have hrun1 : s1.proc.running = true := by rw [hs1]; exact hrun
    obtain ⟨s2, hreach2, hmoved2, hfree⟩ := drain exact n s1 hinv1 hrun1 (by omega)
    refine ⟨s2, reaches_trans hreach1 hreach2, handlersMoved_trans ?_ hmoved2, hfree⟩
    rw [hs1]
    refine ⟨rfl, rfl, rfl, rfl, rfl, ?_⟩
    intro k hk hgetk hhk
    have hjk : j ≠ k := by
      intro hjk
      subst hjk
      rw [hget] at hgetk
      simp at hgetk
      subst hgetk
      simp [hh] at hhk
    simpa [set_get_other _ _ _ _ hjk] using hgetk

/-! ## The steps of the locker written out -/

theorem step_locker_sleep10 (exact : Bool) (s : State) (hrun : s.proc.running = true)
    (hpc : s.locker = .atSleep10) :
    step exact s .locker = some { s with locker := .inSleep10 (s.now + idleSleep) } := by
  simp [step, hrun, lockerStep, hpc]

theorem step_locker_wake10 (exact : Bool) (s : State) {w : Nat} (hrun : s.proc.running = true)
    (hpc : s.locker = .inSleep10 w) (hw : w ≤ s.now) :
    step exact s .locker = some { s with locker := .atLock } := by
  simp [step, hrun, lockerStep, hpc, hw]

theorem step_locker_lock_free (exact : Bool) (s : State) (hrun : s.proc.running = true)
    (hpc : s.locker = .atLock) (hw : s.lock.writer = false)
    (hww : s.lock.writerWaiting = false) (hr : s.lock.readers = 0) :
    step exact s .locker =
      some { s with lock := { s.lock with writer := true }, locker := .atSleep2 } := by
  simp [step, hrun, lockerStep, hpc, RWMutex.lockBegin, hw, hww, hr]

theorem step_locker_lock_wait (exact : Bool) (s : State) (hrun : s.proc.running = true)
    (hpc : s.locker = .atLock) (hw : s.lock.writer = false)
    (hww : s.lock.writerWaiting = false) (hr : s.lock.readers ≠ 0) :
    step exact s .locker =
      some { s with lock := { s.lock with writerWaiting := true }, locker := .inLock } := by
  simp [step, hrun, lockerStep, hpc, RWMutex.lockBegin, hw, hww, hr]

theorem step_locker_acquire (exact : Bool) (s : State) (hrun : s.proc.running = true)
    (hpc : s.locker = .inLock) (hww : s.lock.writerWaiting = true) (hr : s.lock.readers = 0) :
    step exact s .locker =
      some { s with lock := { s.lock with writer := true, writerWaiting := false },
                    locker := .atSleep2 } := by
  simp [step, hrun, lockerStep, hpc, RWMutex.lockFinish, hww, hr]

theorem step_locker_sleep2 (exact : Bool) (s : State) (hrun : s.proc.running = true)
    (hpc : s.locker = .atSleep2) :
    step exact s .locker = some { s with locker := .inSleep2 (s.now + holdSleep) } := by
  simp [step, hrun, lockerStep, hpc]

theorem step_locker_wake2 (exact : Bool) (s : State) {w : Nat} (hrun : s.proc.running = true)
    (hpc : s.locker = .inSleep2 w) (hw : w ≤ s.now) :
    step exact s .locker = some { s with locker := .atUnlock } := by
  simp [step, hrun, lockerStep, hpc, hw]

theorem step_locker_unlock (exact : Bool) (s : State) (hrun : s.proc.running = true)
    (hpc : s.locker = .atUnlock) (hw : s.lock.writer = true) :
    step exact s .locker =
      some { s with lock := { s.lock with writer := false }, locker := .atSleep10,
                    iterations := s.iterations + 1 } := by
  simp [step, hrun, lockerStep, hpc, RWMutex.unlock, hw]

/-! ## The locker gets through its critical section -/

theorem locker_release (exact : Bool) {s : State} (hinv : Inv s)
    (hrun : s.proc.running = true) (hh : s.locker.holding = true) :
    Reaches exact s
      { s with
        now := s.now + remainingHold s
        lock := { s.lock with writer := false }
        locker := .atSleep10
        iterations := s.iterations + 1 } := by
  have hw : s.lock.writer = true := by rw [hinv.writer_eq]; exact hh
  cases hpc : s.locker with
  | atSleep10 => simp [hpc, LockerPc.holding] at hh
  | inSleep10 w => simp [hpc, LockerPc.holding] at hh
  | atLock => simp [hpc, LockerPc.holding] at hh
  | inLock => simp [hpc, LockerPc.holding] at hh
  | atUnlock =>
    have h1 := step_locker_unlock exact s hrun hpc hw
    have hrem : remainingHold s = 0 := by simp [remainingHold, hpc]
    rw [hrem]
    exact reaches_step h1
  | inSleep2 w =>
    have hrem : remainingHold s = w - s.now := by simp [remainingHold, hpc]
    rw [hrem]
    have h1 := step_tick_sleep2 exact s (w - s.now) hrun hpc (le_refl _) (held_quiet hinv hw)
    have h2 := step_locker_wake2 exact { s with now := s.now + (w - s.now) } hrun hpc
      (by show w ≤ s.now + (w - s.now); omega)
    have h3 := step_locker_unlock exact
      { s with now := s.now + (w - s.now), locker := .atUnlock } hrun rfl hw
    exact reaches_trans (reaches_step h1) (reaches_trans (reaches_step h2) (reaches_step h3))
  | atSleep2 =>
    have hrem : remainingHold s = holdSleep := by simp [remainingHold, hpc]
    rw [hrem]
    have h1 := step_locker_sleep2 exact s hrun hpc
    have h2 := step_tick_sleep2 exact
      { s with locker := .inSleep2 (s.now + holdSleep) } holdSleep hrun rfl (by simp)
      (held_quiet hinv hw : s.handlers.any (handlerReady s.lock) = false)
    have h3 := step_locker_wake2 exact
      { s with now := s.now + holdSleep, locker := .inSleep2 (s.now + holdSleep) } hrun rfl
      (le_refl _)
    have h4 := step_locker_unlock exact
      { s with now := s.now + holdSleep, locker := .atUnlock } hrun rfl hw
    exact reaches_trans (reaches_step h1) (reaches_trans (reaches_step h2)
      (reaches_trans (reaches_step h3) (reaches_step h4)))

theorem locker_acquire (exact : Bool) {s : State} (hinv : Inv s)
    (hrun : s.proc.running = true) (hpc : s.locker = .inLock) :
    ∃ s1, HandlersMoved s s1 ∧ sharedHolders s1 = 0 ∧
      Reaches exact s
        { s1 with
          lock := { s1.lock with writer := true, writerWaiting := false }
          locker := .atSleep2 } := by
  obtain ⟨s1, hreach, hmoved, hfree⟩ := drain exact _ s hinv hrun rfl
  have hinv1 := reaches_inv hinv hreach
  have hrun1 : s1.proc.running = true := by rw [hmoved.proc_eq]; exact hrun
  have hpc1 : s1.locker = .inLock := by rw [hmoved.locker_eq]; exact hpc
  have hr : s1.lock.readers = 0 := by rw [hinv1.readers_eq]; exact hfree
  have hww : s1.lock.writerWaiting = true := by
    rw [hinv1.waiting_eq, hpc1]; rfl
  exact ⟨s1, hmoved, hfree,
    reaches_trans hreach (reaches_step (step_locker_acquire exact s1 hrun1 hpc1 hww hr))⟩

/-! ## An invocation gets through -/

theorem lock_free_of_not_requested {s : State} (hinv : Inv s)
    (hfree : s.locker.requested = false) :
    s.lock.writer = false ∧ s.lock.writerWaiting = false := by
  rw [hinv.writer_eq, hinv.waiting_eq]
  cases hl : s.locker <;> simp_all [LockerPc.requested, LockerPc.holding, LockerPc.waiting]

theorem complete_handler (exact : Bool) {s : State} {i : Nat} {h : Handler}
    (out : WriteOutcome) (hinv : Inv s) (hrun : s.proc.running = true)
    (hget : s.handlers[i]? = some h) (hfree : s.locker.requested = false) :
    ∃ s', Reaches exact s s' ∧ s'.now = s.now ∧ s'.locker = s.locker ∧ s'.proc = s.proc ∧
      s'.iterations = s.iterations ∧
      s'.handlers[i]? = some
        { h with pc := .returned (exitOf h.pc out),
                 ops := opsAt (.returned (exitOf h.pc out)) } := by
  have hops := hinv.ops_eq h (List.getElem?_mem hget)
  cases hpc : h.pc with
  | returned e =>
    refine ⟨s, reaches_refl exact s, rfl, rfl, rfl, rfl, ?_⟩
    rw [hget]
    cases h
    simp_all [exitOf, opsAt]
  | atRLock =>
    obtain ⟨hw, hww⟩ := lock_free_of_not_requested hinv hfree
    let h1 : Handler := { h with pc := .atWrite, ops := h.ops ++ [.rlock] }
    let s1 : State :=
      { s with lock := { s.lock with readers := s.lock.readers + 1 }
               handlers := s.handlers.set i h1 }
    have hstep1 : step exact s (.handler i out) = some s1 :=
      step_handler_rlock exact s out hrun hget hpc hw hww
    have hinv1 : Inv s1 := step_inv hinv hstep1
    have hget1 : s1.handlers[i]? = some h1 := set_get_self s.handlers i h1 h hget
    obtain ⟨s2, hreach2, hs2⟩ := finish_holder exact out hinv1 hrun hget1 rfl
    refine ⟨s2, reaches_trans (reaches_step hstep1) hreach2, ?_⟩
    rw [hs2]
    have hlt : i < s.handlers.length := by
      rcases List.getElem?_eq_some_iff.mp hget with ⟨hlt, _⟩
      exact hlt
    simp [s1, h1, exitOf, hlt]
  | atWrite =>
    obtain ⟨s2, hreach2, hs2⟩ := finish_holder exact out hinv hrun hget (by rw [hpc]; rfl)
    refine ⟨s2, hreach2, ?_⟩
    rw [hs2]
    have hlt : i < s.handlers.length := by
      rcases List.getElem?_eq_some_iff.mp hget with ⟨hlt, _⟩
      exact hlt
    simp [exitOf, hlt, hpc]
  | atRUnlock e =>
    obtain ⟨s2, hreach2, hs2⟩ := finish_holder exact out hinv hrun hget (by rw [hpc]; rfl)
    refine ⟨s2, hreach2, ?_⟩
    rw [hs2]
    have hlt : i < s.handlers.length := by
      rcases List.getElem?_eq_some_iff.mp hget with ⟨hlt, _⟩
      exact hlt
    simp [exitOf, hlt, hpc]

theorem complete_pending (exact : Bool) {s : State} {i : Nat} {h : Handler}
    (hinv : Inv s) (hrun : s.proc.running = true)
    (hget : s.handlers[i]? = some h) (hfree : s.locker.requested = false)
    (hnr : h.pc.isReturned = false) :
    ∃ s' h', Reaches exact s s' ∧ s'.now = s.now ∧ s'.locker = s.locker ∧ s'.proc = s.proc ∧
      s'.iterations = s.iterations ∧ h'.pc.isReturned = true ∧
      s'.handlers = s.handlers.set i h' := by
  cases hpc : h.pc with
  | returned e => simp [hpc, HandlerPc.isReturned] at hnr
  | atRLock =>
    obtain ⟨hw, hww⟩ := lock_free_of_not_requested hinv hfree
    let h1 : Handler := { h with pc := .atWrite, ops := h.ops ++ [.rlock] }
    let s1 : State :=
      { s with lock := { s.lock with readers := s.lock.readers + 1 }
               handlers := s.handlers.set i h1 }
    have hstep1 : step exact s (.handler i .ok) = some s1 :=
      step_handler_rlock exact s .ok hrun hget hpc hw hww
    have hinv1 : Inv s1 := step_inv hinv hstep1
    have hget1 : s1.handlers[i]? = some h1 := set_get_self s.handlers i h1 h hget
    obtain ⟨s2, hreach2, hs2⟩ := finish_holder exact .ok hinv1 hrun hget1 rfl
    refine ⟨s2, { h1 with pc := .returned (exitOf h1.pc .ok),
                          ops := opsAt (.returned (exitOf h1.pc .ok)) },
      reaches_trans (reaches_step hstep1) hreach2, ?_, ?_, ?_, ?_, rfl, ?_⟩
    all_goals rw [hs2]
    simp [s1]
  | atWrite =>
    obtain ⟨s2, hreach2, hs2⟩ := finish_holder exact .ok hinv hrun hget (by rw [hpc]; rfl)
    refine ⟨s2, { h with pc := .returned (exitOf h.pc .ok),
                         ops := opsAt (.returned (exitOf h.pc .ok)) },
      hreach2, ?_, ?_, ?_, ?_, rfl, ?_⟩
    all_goals rw [hs2]
  | atRUnlock e =>
    obtain ⟨s2, hreach2, hs2⟩ := finish_holder exact .ok hinv hrun hget (by rw [hpc]; rfl)
    refine ⟨s2, { h with pc := .returned (exitOf h.pc .ok),
                         ops := opsAt (.returned (exitOf h.pc .ok)) },
      hreach2, ?_, ?_, ?_, ?_, rfl, ?_⟩
    all_goals rw [hs2]

theorem quiesce (exact : Bool) : ∀ (n : Nat) (s : State), Inv s → s.proc.running = true →
    s.locker.requested = false → s.handlers.countP (fun h => !h.pc.isReturned) = n →
    ∃ s', Reaches exact s s' ∧ s'.now = s.now ∧ s'.locker = s.locker ∧ s'.proc = s.proc ∧
      s'.iterations = s.iterations ∧ ∀ h ∈ s'.handlers, h.pc.isReturned = true
  | 0, s, _, _, _, hn => by
    refine ⟨s, reaches_refl exact s, rfl, rfl, rfl, rfl, ?_⟩
    intro h hmem
    have := List.countP_eq_zero.mp hn h hmem
    simpa using this
  | n + 1, s, hinv, hrun, hfree, hn => by
    have hpos : 0 < s.handlers.countP (fun h => !h.pc.isReturned) := by omega
    obtain ⟨h, hmem, hh⟩ := List.countP_pos_iff.mp hpos
    obtain ⟨j, hget⟩ := List.getElem?_of_mem hmem
    have hnr : h.pc.isReturned = false := by simpa using hh
    obtain ⟨s1, h1, hreach1, hnow1, hl1, hp1, hit1, hret1, hset1⟩ :=
      complete_pending exact hinv hrun hget hfree hnr
    have hinv1 : Inv s1 := reaches_inv hinv hreach1
    have hcount := countP_set_of_get (fun h : Handler => !h.pc.isReturned) s.handlers j h h1 hget
    rw [← hset1] at hcount
    simp [hnr, hret1] at hcount
    obtain ⟨s2, hreach2, hnow2, hl2, hp2, hit2, hall⟩ :=
      quiesce exact n s1 hinv1 (by rw [hp1]; exact hrun) (by rw [hl1]; exact hfree) (by omega)
    exact ⟨s2, reaches_trans hreach1 hreach2, hnow2.trans hnow1, hl2.trans hl1,
      hp2.trans hp1, hit2.trans hit1, hall⟩

/-! ## What a step leaves alone -/

theorem step_tick_eq {exact : Bool} {s s' : State} {d : Nat}
    (hs : step exact s (.tick d) = some s') :
    s' = { s with now := s.now + d } ∧
      (exact = true → ∀ k, slack s = some k → d ≤ k) := by
  unfold step at hs
  split at hs
  · simp only at hs
    split at hs
    · split at hs
      · rename_i k hk
        split at hs
        · rename_i hd
          simp at hs
          refine ⟨hs.symm, ?_⟩
          intro _ k' hk'
          rw [hk] at hk'
          simp at hk'
          omega
        · simp at hs
      · rename_i hk
        simp at hs
        exact ⟨hs.symm, fun _ k' hk' => by rw [hk] at hk'; simp at hk'⟩
    · rename_i he
      simp at hs
      exact ⟨hs.symm, fun h => absurd h he⟩
  · simp at hs

theorem step_other_frame {exact : Bool} {s s' : State} {l : Label}
    (hs : step exact s l = some s') (htick : ∀ d, l ≠ .tick d) (hlocker : l ≠ .locker) :
    s'.locker = s.locker ∧ s'.now = s.now ∧ s'.iterations = s.iterations := by
  unfold step at hs
  split at hs
  · cases l with
    | tick d => exact absurd rfl (htick d)
    | locker => exact absurd rfl hlocker
    | listen err =>
      simp only at hs
      split at hs
      · split at hs <;> (simp at hs; subst hs; simp)
      · simp at hs
    | serveReturn err =>
      simp only at hs
      split at hs
      · simp at hs; subst hs; simp
      · simp at hs
    | mainExit =>
      simp only at hs
      split at hs
      · simp at hs; subst hs; simp [terminate]
      · simp at hs
    | arrive req =>
      simp only at hs
      split at hs
      · split at hs <;> (simp at hs; subst hs; simp)
      · simp at hs
    | handler i out =>
      simp only at hs
      split at hs
      · simp at hs
      · split at hs
        · simp at hs
        · simp at hs; subst hs; simp [terminate]
        · simp at hs; subst hs; simp
  · simp at hs

theorem lockerStep_frame {s s' : State} (hs : lockerStep s = some s') :
    s'.now = s.now ∧ s'.handlers = s.handlers ∧ s'.lock.readers = s.lock.readers ∧
      s.iterations ≤ s'.iterations := by
  unfold lockerStep at hs
  split at hs
  · simp at hs; subst hs; simp
  · split at hs
    · simp at hs; subst hs; simp
    · simp at hs
  · simp only [RWMutex.lockBegin] at hs
    split at hs
    · simp at hs
    · rename_i m heq
      split at heq
      · simp at heq
      · split at heq <;> simp at heq
        simp at hs; subst hs
        obtain ⟨rfl, _⟩ := heq
        simp
    · rename_i m heq
      split at heq
      · simp at heq
      · split at heq <;> simp at heq
        simp at hs; subst hs
        obtain ⟨rfl, _⟩ := heq
        simp
  · simp only [RWMutex.lockFinish] at hs
    split at hs
    · simp at hs
    · rename_i m heq
      split at heq
      · simp at heq hs; subst hs; subst heq; simp
      · simp at heq
  · simp at hs; subst hs; simp
  · split at hs
    · simp at hs; subst hs; simp
    · simp at hs
  · simp only [RWMutex.unlock] at hs
    split at hs
    · simp at hs; subst hs; simp [terminate]
    · rename_i m heq
      split at heq
      · simp at heq hs; subst hs; subst heq; simp
      · simp at heq

theorem step_mono {exact : Bool} {s s' : State} {l : Label}
    (hs : step exact s l = some s') : s.now ≤ s'.now ∧ s.iterations ≤ s'.iterations := by
  by_cases htick : ∃ d, l = .tick d
  · obtain ⟨d, rfl⟩ := htick
    obtain ⟨rfl, _⟩ := step_tick_eq hs
    simp
  · by_cases hlocker : l = .locker
    · subst hlocker
      have hrun : s.proc.running = true := by
        unfold step at hs
        split at hs
        · assumption
        · simp at hs
      rw [step_locker exact hrun] at hs
      obtain ⟨h1, _, _, h4⟩ := lockerStep_frame hs
      exact ⟨by omega, h4⟩
    · obtain ⟨_, h2, h3⟩ := step_other_frame hs (fun d hd => htick ⟨d, hd⟩) hlocker
      omega

theorem run_mono {exact : Bool} : ∀ (ls : List Label) {s s' : State},
    run exact s ls = some s' → s.now ≤ s'.now ∧ s.iterations ≤ s'.iterations
  | [], s, s', hr => by
    simp [run] at hr; subst hr; simp
  | l :: ls, s, s', hr => by
    simp only [run] at hr
    split at hr
    · simp at hr
    · rename_i s1 hs1
      have h1 := step_mono hs1
      have h2 := run_mono ls hr
      omega

/-! ## The clock -/

theorem timeInv_init (pref : Bool) : TimeInv (initWith pref) := by
  constructor <;> simp [initWith, LockerPc.index]

theorem timeInv_lockerStep {s s' : State} (ht : TimeInv s) (hs : lockerStep s = some s') :
    TimeInv s' := by
  obtain ⟨t1, t2, t3⟩ := ht
  unfold lockerStep at hs
  split at hs
  · rename_i hpc
    simp at hs; subst hs
    refine ⟨?_, ?_, ?_⟩
    · intro w hw
      simp at hw
      subst hw
      show idleSleep ≤ s.now + idleSleep
      omega
    · intro w hw; simp at hw
    · intro h
      simp [LockerPc.index] at h
      exact t3 (Or.inr h)
  · rename_i w hpc
    split at hs
    · rename_i hw
      simp at hs; subst hs
      have := t1 w hpc
      refine ⟨?_, ?_, ?_⟩
      · intro w hw; simp at hw
      · intro w hw; simp at hw
      · intro _
        show idleSleep ≤ s.now
        omega
    · simp at hs
  · rename_i hpc
    have hnow : idleSleep ≤ s.now := t3 (Or.inl (by simp [hpc, LockerPc.index]))
    split at hs
    · simp at hs
    · simp at hs; subst hs
      exact ⟨fun w hw => by simp at hw, fun w hw => by simp at hw, fun _ => hnow⟩
    · simp at hs; subst hs
      exact ⟨fun w hw => by simp at hw, fun w hw => by simp at hw, fun _ => hnow⟩
  · rename_i hpc
    have hnow : idleSleep ≤ s.now := t3 (Or.inl (by simp [hpc, LockerPc.index]))
    split at hs
    · simp at hs
    · simp at hs; subst hs
      exact ⟨fun w hw => by simp at hw, fun w hw => by simp at hw, fun _ => hnow⟩
  · rename_i hpc
    have hnow : idleSleep ≤ s.now := t3 (Or.inl (by simp [hpc, LockerPc.index]))
    simp at hs; subst hs
    refine ⟨fun w hw => by simp at hw, ?_, fun _ => hnow⟩
    intro w hw
    simp at hw
    subst hw
    exact le_refl _
  · rename_i w hpc
    have hnow : idleSleep ≤ s.now := t3 (Or.inl (by simp [hpc, LockerPc.index]))
    split at hs
    · simp at hs; subst hs
      exact ⟨fun w hw => by simp at hw, fun w hw => by simp at hw, fun _ => hnow⟩
    · simp at hs
  · rename_i hpc
    have hnow : idleSleep ≤ s.now := t3 (Or.inl (by simp [hpc, LockerPc.index]))
    split at hs
    · simp at hs; subst hs
      exact ⟨fun w hw => by simp [terminate, hpc] at hw,
        fun w hw => by simp [terminate, hpc] at hw, fun _ => hnow⟩
    · simp at hs; subst hs
      exact ⟨fun w hw => by simp at hw, fun w hw => by simp at hw, fun _ => hnow⟩

theorem step_timeInv {exact : Bool} {s s' : State} {l : Label} (ht : TimeInv s)
    (hs : step exact s l = some s') : TimeInv s' := by
  by_cases htick : ∃ d, l = .tick d
  · obtain ⟨d, rfl⟩ := htick
    obtain ⟨rfl, _⟩ := step_tick_eq hs
    obtain ⟨t1, t2, t3⟩ := ht
    refine ⟨t1, ?_, ?_⟩
    · intro w hw
      have := t2 w hw
      show w ≤ s.now + d + holdSleep
      omega
    · intro h
      have := t3 h
      show idleSleep ≤ s.now + d
      omega
  · by_cases hlocker : l = .locker
    · subst hlocker
      have hrun : s.proc.running = true := by
        unfold step at hs
        split at hs
        · assumption
        · simp at hs
      rw [step_locker exact hrun] at hs
      exact timeInv_lockerStep ht hs
    · obtain ⟨h1, h2, h3⟩ := step_other_frame hs (fun d hd => htick ⟨d, hd⟩) hlocker
      obtain ⟨t1, t2, t3⟩ := ht
      refine ⟨?_, ?_, ?_⟩
      · intro w hw; rw [h1] at hw; exact t1 w hw
      · intro w hw; rw [h1] at hw; rw [h2]; exact t2 w hw
      · intro h; rw [h1, h3] at h; rw [h2]; exact t3 h

theorem run_timeInv {exact : Bool} : ∀ (ls : List Label) {s s' : State}, TimeInv s →
    run exact s ls = some s' → TimeInv s'
  | [], s, s', ht, hr => by
    simp [run] at hr; subst hr; exact ht
  | l :: ls, s, s', ht, hr => by
    simp only [run] at hr
    split at hr
    · simp at hr
    · rename_i s1 hs1
      exact run_timeInv ls (step_timeInv ht hs1) hr

theorem reachable_timeInv {exact : Bool} {s : State} (h : Reachable exact s) : TimeInv s := by
  obtain ⟨pref, ls, hr⟩ := h
  exact run_timeInv ls (timeInv_init pref) hr

theorem remainingHold_le {s : State} (ht : TimeInv s) : remainingHold s ≤ holdSleep := by
  unfold remainingHold
  split
  · exact le_refl _
  · rename_i w hpc
    have := ht.hold_wake w hpc
    omega
  · exact Nat.zero_le _

/-! ## A suspended invocation stays where it is -/

theorem step_running {exact : Bool} {s s' : State} {l : Label}
    (hs : step exact s l = some s') : s.proc.running = true := by
  unfold step at hs
  split at hs
  · assumption
  · simp at hs

theorem step_keeps_suspended {exact : Bool} {s s' : State} {l : Label} {i : Nat} {h : Handler}
    (hs : step exact s l = some s') (hget : s.handlers[i]? = some h)
    (hpc : h.pc = .atRLock)
    (hw : s.lock.writer = true ∨
      (s.lock.writerPreference = true ∧ s.lock.writerWaiting = true)) :
    s'.handlers[i]? = some h := by
  have hrun := step_running hs
  cases l with
  | tick d =>
    obtain ⟨rfl, _⟩ := step_tick_eq hs
    exact hget
  | locker =>
    rw [step_locker exact hrun] at hs
    obtain ⟨_, h2, _, _⟩ := lockerStep_frame hs
    rw [h2]; exact hget
  | listen err =>
    unfold step at hs
    simp only [hrun, if_true] at hs
    split at hs
    · split at hs <;> (simp at hs; subst hs; exact hget)
    · simp at hs
  | serveReturn err =>
    unfold step at hs
    simp only [hrun, if_true] at hs
    split at hs
    · simp at hs; subst hs; exact hget
    · simp at hs
  | mainExit =>
    unfold step at hs
    simp only [hrun, if_true] at hs
    split at hs
    · simp at hs; subst hs; exact hget
    · simp at hs
  | arrive req =>
    unfold step at hs
    simp only [hrun, if_true] at hs
    split at hs
    · split at hs
      · simp at hs; subst hs; exact hget
      · simp at hs; subst hs
        have hlt : i < s.handlers.length := by
          rcases List.getElem?_eq_some_iff.mp hget with ⟨hlt, _⟩
          exact hlt
        simp [List.getElem?_append_left hlt, hget]
    · simp at hs
  | handler j out =>
    by_cases hji : j = i
    · subst hji
      rw [step_handler_rlock_blocked exact s out hget hpc hw] at hs
      simp at hs
    · unfold step at hs
      simp only [hrun, if_true] at hs
      split at hs
      · simp at hs
      · split at hs
        · simp at hs
        · simp at hs; subst hs; exact hget
        · simp at hs; subst hs
          simpa [set_get_other _ _ _ _ hji] using hget

/-! ## The exclusive hold under exact sleeps -/

theorem hold_step {s s' : State} {l : Label} (hinv : Inv s)
    (hs : step true s l = some s') (hh : s.locker.holding = true) :
    (s'.iterations = s.iterations ∧ s'.locker.holding = true ∧
        s'.now + remainingHold s' = s.now + remainingHold s) ∨
      (s'.iterations = s.iterations + 1 ∧ s'.now = s.now + remainingHold s ∧
        s'.locker = .atSleep10) := by
  have hrun := step_running hs
  have hw : s.lock.writer = true := by rw [hinv.writer_eq]; exact hh
  have hq := held_quiet hinv hw
  by_cases htick : ∃ d, l = .tick d
  · obtain ⟨d, rfl⟩ := htick
    obtain ⟨rfl, hd⟩ := step_tick_eq hs
    left
    refine ⟨rfl, hh, ?_⟩
    have hd := hd rfl
    cases hpc : s.locker with
    | atSleep10 => simp [hpc, LockerPc.holding] at hh
    | inSleep10 w => simp [hpc, LockerPc.holding] at hh
    | atLock => simp [hpc, LockerPc.holding] at hh
    | inLock => simp [hpc, LockerPc.holding] at hh
    | atSleep2 =>
      have := hd 0 (by simp [slack, hq, hpc])
      simp [remainingHold, hpc]
      omega
    | atUnlock =>
      have := hd 0 (by simp [slack, hq, hpc])
      simp [remainingHold, hpc]
      omega
    | inSleep2 w =>
      have := hd (w - s.now) (by simp [slack, hq, hpc])
      simp [remainingHold, hpc]
      omega
  · by_cases hlocker : l = .locker
    · subst hlocker
      cases hpc : s.locker with
      | atSleep10 => simp [hpc, LockerPc.holding] at hh
      | inSleep10 w => simp [hpc, LockerPc.holding] at hh
      | atLock => simp [hpc, LockerPc.holding] at hh
      | inLock => simp [hpc, LockerPc.holding] at hh
      | atSleep2 =>
        rw [step_locker_sleep2 true s hrun hpc] at hs
        simp at hs; subst hs
        left
        simp [LockerPc.holding, remainingHold, hpc]
      | atUnlock =>
        rw [step_locker_unlock true s hrun hpc hw] at hs
        simp at hs; subst hs
        right
        simp [remainingHold, hpc]
      | inSleep2 w =>
        rw [step_locker true hrun] at hs
        simp only [lockerStep, hpc] at hs
        split at hs
        · rename_i hle
          simp at hs; subst hs
          left
          simp [LockerPc.holding, remainingHold, hpc]
          omega
        · simp at hs
    · obtain ⟨h1, h2, h3⟩ := step_other_frame hs (fun d hd => htick ⟨d, hd⟩) hlocker
      left
      refine ⟨h3, by rw [h1]; exact hh, ?_⟩
      simp [remainingHold, h1, h2]

theorem hold_run : ∀ (ls : List Label) {s s' : State} {i : Nat} {h : Handler}, Inv s →
    s.locker.holding = true → s.handlers[i]? = some h → h.pc = .atRLock →
    run true s ls = some s' →
    (s'.iterations = s.iterations →
        s'.locker.holding = true ∧ s'.now + remainingHold s' = s.now + remainingHold s ∧
          s'.handlers[i]? = some h) ∧
      (s'.iterations ≠ s.iterations → s.now + remainingHold s ≤ s'.now)
  | [], s, s', i, h, _, hh, hget, _, hr => by
    simp [run] at hr; subst hr
    exact ⟨fun _ => ⟨hh, rfl, hget⟩, fun hne => absurd rfl hne⟩
  | l :: ls, s, s', i, h, hinv, hh, hget, hpc, hr => by
    simp only [run] at hr
    split at hr
    · simp at hr
    · rename_i s1 hs1
      have hinv1 := step_inv hinv hs1
      have hw : s.lock.writer = true := by rw [hinv.writer_eq]; exact hh
      have hget1 := step_keeps_suspended hs1 hget hpc (Or.inl hw)
      have hmono := run_mono ls hr
      rcases hold_step hinv hs1 hh with ⟨hit, hh1, hend⟩ | ⟨hit, hnow, _⟩
      · obtain ⟨ih1, ih2⟩ := hold_run ls hinv1 hh1 hget1 hpc hr
        constructor
        · intro heq
          obtain ⟨a, b, c⟩ := ih1 (by omega)
          exact ⟨a, by omega, c⟩
        · intro hne
          have := ih2 (by omega)
          omega
      · constructor
        · intro heq
          omega
        · intro _
          omega

/-! ## The invocations the server makes -/

theorem handlerStep_req {m m' : RWMutex} {h h' : Handler} {out : WriteOutcome}
    (hs : handlerStep m h out = some (.ok (m', h'))) :
    h'.req = h.req ∧ h.pc.isReturned = false := by
  unfold handlerStep at hs
  split at hs
  · rename_i hpc
    split at hs
    · simp at hs
    · simp at hs
      obtain ⟨_, rfl⟩ := hs
      simp [hpc, HandlerPc.isReturned]
  · rename_i hpc
    simp at hs
    obtain ⟨_, rfl⟩ := hs
    simp [hpc, HandlerPc.isReturned]
  · rename_i e hpc
    split at hs
    · simp at hs
    · simp at hs
      obtain ⟨_, rfl⟩ := hs
      simp [hpc, HandlerPc.isReturned]
  · simp at hs

theorem lockerStep_server {s s' : State} (hs : lockerStep s = some s') :
    s'.handlers = s.handlers ∧ s'.bound = s.bound ∧
      (s'.proc = s.proc ∨ ∃ t, s'.proc = .terminated t) := by
  unfold lockerStep at hs
  split at hs
  · simp at hs; subst hs; simp
  · split at hs
    · simp at hs; subst hs; simp
    · simp at hs
  · split at hs
    · simp at hs
    · simp at hs; subst hs; simp
    · simp at hs; subst hs; simp
  · split at hs
    · simp at hs
    · simp at hs; subst hs; simp
  · simp at hs; subst hs; simp
  · split at hs
    · simp at hs; subst hs; simp
    · simp at hs
  · split at hs
    · simp at hs; subst hs; simp [terminate]
    · simp at hs; subst hs; simp

theorem serverInv_init (pref : Bool) : ServerInv (initWith pref) := by
  constructor <;> simp [initWith]

theorem step_serverInv {exact : Bool} {s s' : State} {l : Label} (hv : ServerInv s)
    (hs : step exact s l = some s') : ServerInv s' := by
  have hrun := step_running hs
  obtain ⟨v1, v2, v3, v4, v5⟩ := hv
  cases l with
  | tick d =>
    obtain ⟨rfl, _⟩ := step_tick_eq hs
    exact ⟨v1, v2, v3, v4, v5⟩
  | locker =>
    rw [step_locker exact hrun] at hs
    obtain ⟨hh, hb, hp⟩ := lockerStep_server hs
    refine ⟨by rw [hh]; exact v1, by rw [hh, hb]; exact v2, ?_, ?_, by rw [hb]; exact v5⟩
    · intro hst
      rcases hp with hp | ⟨t, hp⟩
      · rw [hb]; exact v3 (hp ▸ hst)
      · rw [hp] at hst; simp at hst
    · intro hst
      rcases hp with hp | ⟨t, hp⟩
      · rw [hb]; exact v4 (hp ▸ hst)
      · rw [hp] at hst; simp at hst
  | handler i out =>
    unfold step at hs
    simp only [hrun, if_true] at hs
    split at hs
    · simp at hs
    · rename_i h hget
      split at hs
      · simp at hs
      · simp at hs; subst hs
        exact ⟨v1, v2, by simp [terminate], by simp [terminate], v5⟩
      · rename_i m h' heq
        simp at hs; subst hs
        have hmem : h ∈ s.handlers := List.getElem?_mem hget
        refine ⟨?_, ?_, v3, v4, v5⟩
        · intro b hb
          rcases mem_set_of_get _ _ _ _ hb with rfl | hb
          · rw [(handlerStep_req heq).1]; exact v1 h hmem
          · exact v1 b hb
        · intro hb
          have := v2 hb
          rw [this] at hmem
          simp at hmem
  | arrive req =>
    unfold step at hs
    simp only [hrun, if_true] at hs
    split at hs
    · rename_i hc
      split at hs
      · simp at hs; subst hs; exact ⟨v1, v2, v3, v4, v5⟩
      · rename_i ha
        simp at hs; subst hs
        refine ⟨?_, ?_, v3, v4, v5⟩
        · intro b hb
          simp at hb
          rcases hb with hb | rfl
          · exact v1 b hb
          · simpa using ha
        · intro hb
          exfalso
          simp only [State.connected] at hc
          split at hc
          · rename_i hp
            have := v4 hp
            rw [hb] at this
            simp at this
          · simp [show s.bound = none from hb] at hc
          · simp at hc
    · simp at hs
  | listen err =>
    unfold step at hs
    simp only [hrun, if_true] at hs
    split at hs
    · rename_i hp
      split at hs
      · simp at hs; subst hs
        exact ⟨v1, fun hb => by simp at hb, fun hst => by simp at hst, fun _ => rfl,
          fun a ha => by simp at ha; exact ha.symm⟩
      · simp at hs; subst hs
        exact ⟨v1, v2, fun hst => by simp at hst, fun hst => by simp at hst, v5⟩
    · simp at hs
  | serveReturn err =>
    unfold step at hs
    simp only [hrun, if_true] at hs
    split at hs
    · simp at hs; subst hs
      exact ⟨v1, v2, fun hst => by simp at hst, fun hst => by simp at hst, v5⟩
    · simp at hs
  | mainExit =>
    unfold step at hs
    simp only [hrun, if_true] at hs
    split at hs
    · simp at hs; subst hs
      exact ⟨v1, v2, fun hst => by simp [terminate] at hst,
        fun hst => by simp [terminate] at hst, v5⟩
    · simp at hs

theorem run_serverInv {exact : Bool} : ∀ (ls : List Label) {s s' : State}, ServerInv s →
    run exact s ls = some s' → ServerInv s'
  | [], s, s', hv, hr => by
    simp [run] at hr; subst hr; exact hv
  | l :: ls, s, s', hv, hr => by
    simp only [run] at hr
    split at hr
    · simp at hr
    · rename_i s1 hs1
      exact run_serverInv ls (step_serverInv hv hs1) hr

theorem reachable_serverInv {exact : Bool} {s : State} (h : Reachable exact s) :
    ServerInv s := by
  obtain ⟨pref, ls, hr⟩ := h
  exact run_serverInv ls (serverInv_init pref) hr

/-! ## Invocations stay -/

theorem step_keeps_invocation {exact : Bool} {s s' : State} {l : Label} {i : Nat}
    {h : Handler} (hs : step exact s l = some s') (hget : s.handlers[i]? = some h) :
    ∃ h', s'.handlers[i]? = some h' ∧ h'.req = h.req ∧
      (h.pc.isReturned = true → h' = h) := by
  have hrun := step_running hs
  cases l with
  | tick d =>
    obtain ⟨rfl, _⟩ := step_tick_eq hs
    exact ⟨h, hget, rfl, fun _ => rfl⟩
  | locker =>
    rw [step_locker exact hrun] at hs
    obtain ⟨hh, _, _⟩ := lockerStep_server hs
    exact ⟨h, by rw [hh]; exact hget, rfl, fun _ => rfl⟩
  | listen err =>
    unfold step at hs
    simp only [hrun, if_true] at hs
    split at hs
    · split at hs <;> (simp at hs; subst hs; exact ⟨h, hget, rfl, fun _ => rfl⟩)
    · simp at hs
  | serveReturn err =>
    unfold step at hs
    simp only [hrun, if_true] at hs
    split at hs
    · simp at hs; subst hs; exact ⟨h, hget, rfl, fun _ => rfl⟩
    · simp at hs
  | mainExit =>
    unfold step at hs
    simp only [hrun, if_true] at hs
    split at hs
    · simp at hs; subst hs; exact ⟨h, hget, rfl, fun _ => rfl⟩
    · simp at hs
  | arrive req =>
    unfold step at hs
    simp only [hrun, if_true] at hs
    split at hs
    · split at hs
      · simp at hs; subst hs; exact ⟨h, hget, rfl, fun _ => rfl⟩
      · simp at hs; subst hs
        have hlt : i < s.handlers.length := by
          rcases List.getElem?_eq_some_iff.mp hget with ⟨hlt, _⟩
          exact hlt
        exact ⟨h, by simp [List.getElem?_append_left hlt, hget], rfl, fun _ => rfl⟩
    · simp at hs
  | handler j out =>
    unfold step at hs
    simp only [hrun, if_true] at hs
    split at hs
    · simp at hs
    · rename_i hj hgetj
      split at hs
      · simp at hs
      · simp at hs; subst hs; exact ⟨h, hget, rfl, fun _ => rfl⟩
      · rename_i m h' heq
        simp at hs; subst hs
        by_cases hji : j = i
        · subst hji
          rw [hget] at hgetj
          simp at hgetj
          subst hgetj
          obtain ⟨hreq, hnr⟩ := handlerStep_req heq
          refine ⟨h', set_get_self _ _ _ _ hget, hreq, ?_⟩
          intro hret
          rw [hret] at hnr
          exact absurd hnr (by decide)
        · exact ⟨h, by simpa [set_get_other _ _ _ _ hji] using hget, rfl, fun _ => rfl⟩

/-! ## After the exclusive hold, under exact sleeps -/

theorem afterHold_step {s s' : State} {l : Label} {e i : Nat} {r : Request} (hinv : Inv s)
    (ha : AfterHold e i r s) (hs : step true s l = some s') : AfterHold e i r s' := by
  have hrun := step_running hs
  have hmono := (step_mono hs).1
  rcases ha with ⟨hnow, hl, h, hget, hreq⟩ | ⟨hlt, h, hget, hreq, hret⟩
  · obtain ⟨h', hget', hreq', _⟩ := step_keeps_invocation hs hget
    have hfree : s.locker.requested = false := by
      rcases hl with hl | ⟨w, hl, _⟩ <;> rw [hl] <;> rfl
    obtain ⟨hw, hww⟩ := lock_free_of_not_requested hinv hfree
    by_cases htick : ∃ d, l = .tick d
    · obtain ⟨d, rfl⟩ := htick
      obtain ⟨rfl, hd⟩ := step_tick_eq hs
      have hd := hd rfl
      by_cases hd0 : d = 0
      · subst hd0
        exact Or.inl ⟨hnow, hl, h, hget, hreq⟩
      · cases hr : h.pc.isReturned with
        | true =>
          refine Or.inr ⟨?_, h, hget, hreq, hr⟩
          show e < s.now + d
          omega
        | false =>
          have hready := ready_of_free hw hww hget hr
          have := hd 0 (by simp [slack, hready])
          omega
    · by_cases hlocker : l = .locker
      · subst hlocker
        rw [step_locker true hrun] at hs
        rcases hl with hl | ⟨w, hl, hew⟩
        · simp [lockerStep, hl] at hs
          subst hs
          refine Or.inl ⟨hnow, Or.inr ⟨s.now + idleSleep, rfl, ?_⟩, h, hget, hreq⟩
          have : 0 < idleSleep := by decide
          omega
        · simp [lockerStep, hl] at hs
          omega
      · obtain ⟨h1, h2, _⟩ := step_other_frame hs (fun d hd => htick ⟨d, hd⟩) hlocker
        exact Or.inl ⟨h2.trans hnow, by rw [h1]; exact hl, h', hget', hreq'.trans hreq⟩
  · obtain ⟨h', hget', _, hsame⟩ := step_keeps_invocation hs hget
    have := hsame hret
    subst this
    exact Or.inr ⟨by omega, h', hget', hreq, hret⟩

theorem afterHold_run {e i : Nat} {r : Request} : ∀ (ls : List Label) {s s' : State},
    Inv s → AfterHold e i r s → run true s ls = some s' → AfterHold e i r s'
  | [], s, s', _, ha, hr => by
    simp [run] at hr; subst hr; exact ha
  | l :: ls, s, s', hinv, ha, hr => by
    simp only [run] at hr
    split at hr
    · simp at hr
    · rename_i s1 hs1
      exact afterHold_run ls (step_inv hinv hs1) (afterHold_step hinv ha hs1) hr

theorem hold_then_served : ∀ (ls : List Label) {s s' : State} {i : Nat} {h : Handler},
    Inv s → s.locker.holding = true → s.handlers[i]? = some h → h.pc = .atRLock →
    run true s ls = some s' →
    (s'.locker.holding = true ∧ s'.iterations = s.iterations ∧
        s'.now + remainingHold s' = s.now + remainingHold s ∧ s'.handlers[i]? = some h) ∨
      AfterHold (s.now + remainingHold s) i h.req s'
  | [], s, s', i, h, _, hh, hget, _, hr => by
    simp [run] at hr; subst hr
    exact Or.inl ⟨hh, rfl, rfl, hget⟩
  | l :: ls, s, s', i, h, hinv, hh, hget, hpc, hr => by
    simp only [run] at hr
    split at hr
    · simp at hr
    · rename_i s1 hs1
      have hinv1 := step_inv hinv hs1
      have hw : s.lock.writer = true := by rw [hinv.writer_eq]; exact hh
      have hget1 := step_keeps_suspended hs1 hget hpc (Or.inl hw)
      rcases hold_step hinv hs1 hh with ⟨hit, hh1, hend⟩ | ⟨_, hnow, hl⟩
      · rcases hold_then_served ls hinv1 hh1 hget1 hpc hr with ⟨a, b, c, d⟩ | ha
        · exact Or.inl ⟨a, b.trans hit, c.trans hend, d⟩
        · rw [hend] at ha
          exact Or.inr ha
      · exact Or.inr (afterHold_run ls hinv1
          (Or.inl ⟨hnow, Or.inl hl, h, hget1, rfl⟩) hr)

/-! ## The clock under exact sleeps -/

theorem exactInv_init (pref : Bool) : ExactInv (initWith pref) := by
  constructor <;> simp [initWith]

theorem exactInv_congr {s s' : State} (hl : s'.locker = s.locker) (hn : s'.now = s.now)
    (hi : s'.iterations = s.iterations) (he : ExactInv s) : ExactInv s' := by
  obtain ⟨e1, e2, e3, e4, e5⟩ := he
  refine ⟨?_, ?_, ?_, ?_, ?_⟩
  · intro h; rw [hn, hi]; exact e1 (hl ▸ h)
  · intro w h; rw [hn, hi]; exact e2 w (hl ▸ h)
  · intro h; rw [hn, hi]; exact e3 (hl ▸ h)
  · intro w h; rw [hn, hi]; exact e4 w (hl ▸ h)
  · intro h; rw [hn, hi]; exact e5 (hl ▸ h)

theorem exact_tick_bound {s : State} {d : Nat} (hinv : Inv s)
    (hd : ∀ k, slack s = some k → d ≤ k) :
    d = 0 ∨ (∃ w, (s.locker = .inSleep10 w ∨ s.locker = .inSleep2 w) ∧ s.now + d ≤ w) := by
  cases hany : s.handlers.any (handlerReady s.lock) with
  | true =>
    have := hd 0 (by simp [slack, hany])
    exact Or.inl (by omega)
  | false =>
    cases hpc : s.locker with
    | atSleep10 => exact Or.inl (by have := hd 0 (by simp [slack, hany, hpc]); omega)
    | atLock => exact Or.inl (by have := hd 0 (by simp [slack, hany, hpc]); omega)
    | atSleep2 => exact Or.inl (by have := hd 0 (by simp [slack, hany, hpc]); omega)
    | atUnlock => exact Or.inl (by have := hd 0 (by simp [slack, hany, hpc]); omega)
    | inSleep10 w =>
      have := hd (w - s.now) (by simp [slack, hany, hpc])
      by_cases h0 : d = 0
      · exact Or.inl h0
      · exact Or.inr ⟨w, Or.inl rfl, by omega⟩
    | inSleep2 w =>
      have := hd (w - s.now) (by simp [slack, hany, hpc])
      by_cases h0 : d = 0
      · exact Or.inl h0
      · exact Or.inr ⟨w, Or.inr rfl, by omega⟩
    | inLock =>
      by_cases hr : s.lock.readers = 0
      · exact Or.inl (by have := hd 0 (by simp [slack, hany, hpc, hr]); omega)
      · exfalso
        have hpos : 0 < sharedHolders s := by
          have := hinv.readers_eq
          omega
        obtain ⟨h, hmem, hh⟩ := List.countP_pos_iff.mp hpos
        obtain ⟨j, hget⟩ := List.getElem?_of_mem hmem
        have hw : s.lock.writer = false := by rw [hinv.writer_eq, hpc]; rfl
        have hq := List.any_eq_false.mp hany h hmem
        cases hp : h.pc with
        | atRLock => simp [hp, HandlerPc.holding] at hh
        | returned e => simp [hp, HandlerPc.holding] at hh
        | atWrite => simp [handlerReady, handlerStep, hp] at hq
        | atRUnlock e =>
          apply hq
          simp only [handlerReady, handlerStep, hp]
          cases s.lock.runlock <;> rfl

theorem exactInv_lockerStep {s s' : State} (he : ExactInv s) (hs : lockerStep s = some s') :
    ExactInv s' := by
  obtain ⟨e1, e2, e3, e4, e5⟩ := he
  have hI : idleSleep = 10000000000 := rfl
  have hH : holdSleep = 2000000000 := rfl
  have hS : Second = 1000000000 := rfl
  unfold lockerStep at hs
  split at hs
  · rename_i hpc
    simp at hs; subst hs
    have := e1 hpc
    refine ⟨by simp, ?_, by simp, by simp, by simp⟩
    intro w hw
    simp at hw
    subst hw
    simp only []
    omega
  · rename_i w hpc
    split at hs
    · rename_i hle
      simp at hs; subst hs
      have := e2 w hpc
      refine ⟨by simp, by simp, ?_, by simp, by simp⟩
      intro _
      simp only []
      omega
    · simp at hs
  · rename_i hpc
    have := e3 (Or.inl hpc)
    split at hs
    · simp at hs
    · simp at hs; subst hs
      exact ⟨by simp, by simp, fun _ => this, by simp, by simp⟩
    · simp at hs; subst hs
      exact ⟨by simp, by simp, fun _ => this, by simp, by simp⟩
  · rename_i hpc
    have := e3 (Or.inr (Or.inl hpc))
    split at hs
    · simp at hs
    · simp at hs; subst hs
      exact ⟨by simp, by simp, fun _ => this, by simp, by simp⟩
  · rename_i hpc
    have := e3 (Or.inr (Or.inr hpc))
    simp at hs; subst hs
    refine ⟨by simp, by simp, by simp, ?_, by simp⟩
    intro w hw
    simp at hw
    subst hw
    simp only []
    omega
  · rename_i w hpc
    split at hs
    · rename_i hle
      simp at hs; subst hs
      have := e4 w hpc
      refine ⟨by simp, by simp, by simp, by simp, ?_⟩
      intro _
      simp only []
      omega
    · simp at hs
  · rename_i hpc
    have := e5 hpc
    split at hs
    · simp at hs; subst hs
      exact exactInv_congr rfl rfl rfl ⟨e1, e2, e3, e4, e5⟩
    · simp at hs; subst hs
      refine ⟨?_, by simp, by simp, by simp, by simp⟩
      intro _
      simp only []
      rw [hS] at this ⊢
      omega

theorem exactInv_step {s s' : State} {l : Label} (hinv : Inv s) (he : ExactInv s)
    (hs : step true s l = some s') : ExactInv s' := by
  have hrun := step_running hs
  by_cases htick : ∃ d, l = .tick d
  · obtain ⟨d, rfl⟩ := htick
    obtain ⟨rfl, hd⟩ := step_tick_eq hs
    rcases exact_tick_bound hinv (hd rfl) with h0 | ⟨w, hw, hle⟩
    · subst h0
      exact exactInv_congr rfl rfl rfl he
    · obtain ⟨e1, e2, e3, e4, e5⟩ := he
      rcases hw with hw | hw
      · refine ⟨fun h => by simp [hw] at h, ?_, fun h => by simp [hw] at h,
          fun w' h => by simp [hw] at h, fun h => by simp [hw] at h⟩
        intro w' h
        have hww : w' = w := by
          have : s.locker = .inSleep10 w' := h
          rw [hw] at this
          simp at this
          exact this.symm
        subst hww
        have := e2 w' hw
        refine ⟨this.1, ?_, hle⟩
        show 12 * Second * s.iterations ≤ s.now + d
        omega
      · refine ⟨fun h => by simp [hw] at h, fun w' h => by simp [hw] at h,
          fun h => by simp [hw] at h, ?_, fun h => by simp [hw] at h⟩
        intro w' h
        have hww : w' = w := by
          have : s.locker = .inSleep2 w' := h
          rw [hw] at this
          simp at this
          exact this.symm
        subst hww
        have := e4 w' hw
        refine ⟨this.1, ?_, hle⟩
        show 12 * Second * s.iterations + idleSleep ≤ s.now + d
        omega
  · by_cases hlocker : l = .locker
    · subst hlocker
      rw [step_locker true hrun] at hs
      exact exactInv_lockerStep he hs
    · obtain ⟨h1, h2, h3⟩ := step_other_frame hs (fun d hd => htick ⟨d, hd⟩) hlocker
      exact exactInv_congr h1 h2 h3 he

theorem run_exactInv : ∀ (ls : List Label) {s s' : State}, Inv s → ExactInv s →
    run true s ls = some s' → ExactInv s'
  | [], s, s', _, he, hr => by
    simp [run] at hr; subst hr; exact he
  | l :: ls, s, s', hinv, he, hr => by
    simp only [run] at hr
    split at hr
    · simp at hr
    · rename_i s1 hs1
      exact run_exactInv ls (step_inv hinv hs1) (exactInv_step hinv he hs1) hr

theorem reachable_exactInv {s : State} (h : Reachable true s) : ExactInv s := by
  obtain ⟨pref, ls, hr⟩ := h
  exact run_exactInv ls (inv_init pref) (exactInv_init pref) hr

theorem hold_window {s : State} (hinv : Inv s) (he : ExactInv s) (k : Nat)
    (h1 : (12 * k + 10) * Second < s.now) (h2 : s.now < (12 * k + 12) * Second) :
    s.lock.writer = true ∧ s.iterations = k ∧
      s.now + remainingHold s = (12 * k + 12) * Second := by
  obtain ⟨e1, e2, e3, e4, e5⟩ := he
  have hI : idleSleep = 10000000000 := rfl
  have hH : holdSleep = 2000000000 := rfl
  have hS : Second = 1000000000 := rfl
  rw [hS] at h1 h2
  rw [hinv.writer_eq]
  cases hpc : s.locker with
  | atSleep10 =>
    have := e1 hpc
    rw [hS] at this
    omega
  | inSleep10 w =>
    have := e2 w hpc
    rw [hS] at this
    omega
  | atLock =>
    have := e3 (Or.inl hpc)
    rw [hS] at this
    omega
  | inLock =>
    have := e3 (Or.inr (Or.inl hpc))
    rw [hS] at this
    omega
  | atSleep2 =>
    have := e3 (Or.inr (Or.inr hpc))
    rw [hS] at this
    omega
  | atUnlock =>
    have := e5 hpc
    rw [hS] at this
    omega
  | inSleep2 w =>
    have := e4 w hpc
    rw [hS] at this
    have hk : s.iterations = k := by omega
    refine ⟨rfl, hk, ?_⟩
    simp only [remainingHold, hpc]
    rw [hS]
    omega

/-! ## Every invocation can be served -/

theorem serve_after_hold (exact : Bool) {s : State} {i : Nat} {h : Handler}
    (out : WriteOutcome) (hinv : Inv s) (hrun : s.proc.running = true)
    (hh : s.locker.holding = true) (hget : s.handlers[i]? = some h) :
    ∃ s', Reaches exact s s' ∧ s'.now = s.now + remainingHold s ∧ s'.proc = s.proc ∧
      s'.iterations = s.iterations + 1 ∧
      s'.handlers[i]? = some
        { h with pc := .returned (exitOf h.pc out),
                 ops := opsAt (.returned (exitOf h.pc out)) } := by
  have hrel := locker_release exact hinv hrun hh
  have hinv1 := reaches_inv hinv hrel
  obtain ⟨s2, hreach2, hnow, _, hproc, hit, hget2⟩ :=
    complete_handler exact out hinv1 hrun hget rfl
  exact ⟨s2, reaches_trans hrel hreach2, hnow, hproc, hit, hget2⟩

theorem serve_eventually (exact : Bool) {s : State} {i : Nat} {h : Handler}
    (out : WriteOutcome) (hinv : Inv s) (hrun : s.proc.running = true)
    (hget : s.handlers[i]? = some h) :
    ∃ s', Reaches exact s s' ∧ s'.proc = s.proc ∧
      s'.handlers[i]? = some
        { h with pc := .returned (exitOf h.pc out),
                 ops := opsAt (.returned (exitOf h.pc out)) } := by
  cases hreq : s.locker.requested with
  | false =>
    obtain ⟨s', hreach, _, _, hproc, _, hget'⟩ := complete_handler exact out hinv hrun hget hreq
    exact ⟨s', hreach, hproc, hget'⟩
  | true =>
    cases hhold : s.locker.holding with
    | true =>
      obtain ⟨s', hreach, _, hproc, _, hget'⟩ := serve_after_hold exact out hinv hrun hhold hget
      exact ⟨s', hreach, hproc, hget'⟩
    | false =>
      have hpc : s.locker = .inLock := by
        cases hl : s.locker <;> simp_all [LockerPc.requested, LockerPc.holding]
      cases hhh : h.pc.holding with
      | true =>
        obtain ⟨s', hreach, hs'⟩ := finish_holder exact out hinv hrun hget hhh
        refine ⟨s', hreach, by rw [hs'], ?_⟩
        rw [hs']
        exact set_get_self _ _ _ _ hget
      | false =>
        obtain ⟨s1, hmoved, _, hreach1⟩ := locker_acquire exact hinv hrun hpc
        have hinv1 := reaches_inv hinv hreach1
        have hrun1 : s1.proc.running = true := by rw [hmoved.proc_eq]; exact hrun
        have hget1 : s1.handlers[i]? = some h := hmoved.others i h hget hhh
        obtain ⟨s', hreach2, _, hproc, _, hget'⟩ :=
          serve_after_hold exact out hinv1 hrun1 rfl hget1
        exact ⟨s', reaches_trans hreach1 hreach2, hproc.trans hmoved.proc_eq, hget'⟩

/-! ## The locker can always complete another iteration -/

theorem iteration_from_holding (exact : Bool) {s : State} (hinv : Inv s)
    (hrun : s.proc.running = true) (hh : s.locker.holding = true) :
    ∃ s', Reaches exact s s' ∧ s'.iterations = s.iterations + 1 ∧ s'.locker = .atSleep10 ∧
      s'.proc = s.proc :=
  ⟨_, locker_release exact hinv hrun hh, rfl, rfl, rfl⟩

theorem iteration_from_inLock (exact : Bool) {s : State} (hinv : Inv s)
    (hrun : s.proc.running = true) (hpc : s.locker = .inLock) :
    ∃ s', Reaches exact s s' ∧ s'.iterations = s.iterations + 1 ∧ s'.locker = .atSleep10 ∧
      s'.proc = s.proc := by
  obtain ⟨s1, hmoved, _, hreach1⟩ := locker_acquire exact hinv hrun hpc
  have hinv1 := reaches_inv hinv hreach1
  have hrun1 : s1.proc.running = true := by rw [hmoved.proc_eq]; exact hrun
  obtain ⟨s', hreach2, hit, hl, hproc⟩ := iteration_from_holding exact hinv1 hrun1 rfl
  exact ⟨s', reaches_trans hreach1 hreach2, by rw [hit]; simp [hmoved.iterations_eq], hl,
    hproc.trans hmoved.proc_eq⟩

theorem iteration_from_atLock (exact : Bool) {s : State} (hinv : Inv s)
    (hrun : s.proc.running = true) (hpc : s.locker = .atLock) :
    ∃ s', Reaches exact s s' ∧ s'.iterations = s.iterations + 1 ∧ s'.locker = .atSleep10 ∧
      s'.proc = s.proc := by
  obtain ⟨hw, hww⟩ := lock_free_of_not_requested hinv (by rw [hpc]; rfl)
  by_cases hr : s.lock.readers = 0
  · have h1 := step_locker_lock_free exact s hrun hpc hw hww hr
    have hinv1 := step_inv hinv h1
    obtain ⟨s', hreach2, hit, hl, hproc⟩ := iteration_from_holding exact hinv1 hrun rfl
    exact ⟨s', reaches_trans (reaches_step h1) hreach2, hit, hl, hproc⟩
  · have h1 := step_locker_lock_wait exact s hrun hpc hw hww hr
    have hinv1 := step_inv hinv h1
    obtain ⟨s', hreach2, hit, hl, hproc⟩ := iteration_from_inLock exact hinv1 hrun rfl
    exact ⟨s', reaches_trans (reaches_step h1) hreach2, hit, hl, hproc⟩

theorem iteration_from_inSleep10 (exact : Bool) {s : State} {w : Nat} (hinv : Inv s)
    (hrun : s.proc.running = true) (hpc : s.locker = .inSleep10 w) :
    ∃ s', Reaches exact s s' ∧ s'.iterations = s.iterations + 1 ∧ s'.locker = .atSleep10 ∧
      s'.proc = s.proc := by
  obtain ⟨s0, hreach0, _, hl0, hp0, hit0, hall⟩ :=
    quiesce exact _ s hinv hrun (by rw [hpc]; rfl) rfl
  have hrun0 : s0.proc.running = true := by rw [hp0]; exact hrun
  have hpc0 : s0.locker = .inSleep10 w := by rw [hl0]; exact hpc
  have h1 := step_tick_sleep10 exact s0 (w - s0.now) hrun0 hpc0 (le_refl _)
    (returned_quiet hall)
  have h2 := step_locker_wake10 exact { s0 with now := s0.now + (w - s0.now) } hrun0 hpc0
    (by show w ≤ s0.now + (w - s0.now); omega)
  have hreach := reaches_trans hreach0 (reaches_trans (reaches_step h1) (reaches_step h2))
  have hinv1 := reaches_inv hinv hreach
  obtain ⟨s', hreach2, hit, hl, hproc⟩ := iteration_from_atLock exact hinv1 hrun0 rfl
  exact ⟨s', reaches_trans hreach hreach2, by rw [hit]; simp [hit0], hl, hproc.trans hp0⟩

theorem next_iteration (exact : Bool) {s : State} (hinv : Inv s)
    (hrun : s.proc.running = true) :
    ∃ s', Reaches exact s s' ∧ s'.iterations = s.iterations + 1 ∧ s'.locker = .atSleep10 ∧
      s'.proc = s.proc := by
  cases hpc : s.locker with
  | atSleep10 =>
    have h1 := step_locker_sleep10 exact s hrun hpc
    have hinv1 := step_inv hinv h1
    obtain ⟨s', hreach2, hit, hl, hproc⟩ := iteration_from_inSleep10 exact hinv1 hrun rfl
    exact ⟨s', reaches_trans (reaches_step h1) hreach2, hit, hl, hproc⟩
  | inSleep10 w => exact iteration_from_inSleep10 exact hinv hrun hpc
  | atLock => exact iteration_from_atLock exact hinv hrun hpc
  | inLock => exact iteration_from_inLock exact hinv hrun hpc
  | atSleep2 => exact iteration_from_holding exact hinv hrun (by rw [hpc]; rfl)
  | inSleep2 w => exact iteration_from_holding exact hinv hrun (by rw [hpc]; rfl)
  | atUnlock => exact iteration_from_holding exact hinv hrun (by rw [hpc]; rfl)

theorem more_iterations (exact : Bool) : ∀ (n : Nat) {s : State}, Inv s →
    s.proc.running = true →
    ∃ s', Reaches exact s s' ∧ s'.iterations = s.iterations + n ∧ s'.proc = s.proc
  | 0, s, _, _ => ⟨s, reaches_refl exact s, rfl, rfl⟩
  | n + 1, s, hinv, hrun => by
    obtain ⟨s1, hreach1, hit1, _, hproc1⟩ := next_iteration exact hinv hrun
    have hinv1 := reaches_inv hinv hreach1
    obtain ⟨s2, hreach2, hit2, hproc2⟩ :=
      more_iterations exact n hinv1 (by rw [hproc1]; exact hrun)
    exact ⟨s2, reaches_trans hreach1 hreach2, by omega, hproc2.trans hproc1⟩

/-! ## Any number of invocations can share the lock -/

theorem set_append_last {α : Type} (l : List α) (a b : α) :
    (l ++ [a]).set l.length b = l ++ [b] := by
  induction l with
  | nil => rfl
  | cons x xs ih => simp [ih]

theorem reaches_congr {exact : Bool} {s a b : State} (hab : a = b)
    (h : Reaches exact s a) : Reaches exact s b := hab ▸ h

theorem admit_all (exact : Bool) : ∀ (reqs : List Request) {s : State}, Inv s →
    s.proc = .serving → s.locker.requested = false →
    Reaches exact s
      { s with
        lock := { s.lock with
          readers := s.lock.readers + (reqs.filter fun r => !answeredByServer r).length }
        handlers := s.handlers ++
          (reqs.filter fun r => !answeredByServer r).map
            fun r => { req := r, pc := .atWrite, ops := [.rlock] } }
  | [], s, _, _, _ => by
    simpa using reaches_refl exact s
  | r :: reqs, s, hinv, hproc, hfree => by
    have hrun : s.proc.running = true := by rw [hproc]; rfl
    obtain ⟨hw, hww⟩ := lock_free_of_not_requested hinv hfree
    cases ha : answeredByServer r with
    | true =>
      have hrest := admit_all exact reqs hinv hproc hfree
      refine reaches_congr ?_ hrest
      simp [List.filter_cons, ha]
    | false =>
      have hstep1 : step exact s (.arrive r) =
          some { s with
            handlers := s.handlers ++ [{ req := r, pc := .atRLock, ops := [] }] } := by
        simp [step, hproc, Proc.running, State.connected, ha]
      have hget1 : (s.handlers ++ [({ req := r, pc := .atRLock, ops := [] } : Handler)])[
          s.handlers.length]? = some { req := r, pc := .atRLock, ops := [] } := by
        simp
      have hstep2 := step_handler_rlock exact
        { s with handlers := s.handlers ++ [{ req := r, pc := .atRLock, ops := [] }] }
        .ok hrun hget1 rfl hw hww
      have hreach := reaches_trans (reaches_step hstep1) (reaches_step hstep2)
      have hinv2 := reaches_inv hinv hreach
      have hrest := admit_all exact reqs hinv2 hproc hfree
      refine reaches_congr ?_ (reaches_trans hreach hrest)
      simp [set_append_last, List.filter_cons, ha]
      omega

/-! ## How single steps change the state -/

theorem lockerStep_cycle {s s' : State} (hinv : Inv s) (hs : lockerStep s = some s') :
    s'.proc = s.proc ∧ s'.log = s.log ∧
      (s'.locker.index = s.locker.index ∨ s'.locker.index = (s.locker.index + 1) % 4) := by
  unfold lockerStep at hs
  split at hs
  · rename_i hpc
    simp at hs; subst hs; simp [hpc, LockerPc.index]
  · rename_i hpc
    split at hs
    · simp at hs; subst hs; simp [hpc, LockerPc.index]
    · simp at hs
  · rename_i hpc
    split at hs
    · simp at hs
    · simp at hs; subst hs; simp [hpc, LockerPc.index]
    · simp at hs; subst hs; simp [hpc, LockerPc.index]
  · rename_i hpc
    split at hs
    · simp at hs
    · simp at hs; subst hs; simp [hpc, LockerPc.index]
  · rename_i hpc
    simp at hs; subst hs; simp [hpc, LockerPc.index]
  · rename_i hpc
    split at hs
    · simp at hs; subst hs; simp [hpc, LockerPc.index]
    · simp at hs
  · rename_i hpc
    have hw : s.lock.writer = true := by rw [hinv.writer_eq, hpc]; rfl
    simp [RWMutex.unlock, hw] at hs
    subst hs
    simp [hpc, LockerPc.index]

theorem stmt_at_index (pc : LockerPc) : lockerBody[pc.index]? = some pc.stmt := by
  cases pc <;> rfl

theorem handler_step_frame {exact : Bool} {s s' : State} {i : Nat} {out : WriteOutcome}
    (hinv : Inv s) (hs : step exact s (.handler i out) = some s') :
    s'.proc = s.proc ∧ s'.log = s.log ∧ s'.lock.writer = s.lock.writer ∧
      s'.lock.writerWaiting = s.lock.writerWaiting := by
  have hrun := step_running hs
  have hnf := (step_inv hinv hs).no_runtime_fatal
  unfold step at hs
  simp only [hrun, if_true] at hs
  split at hs
  · simp at hs
  · rename_i h hget
    split at hs
    · simp at hs
    · rename_i msg _
      simp at hs; subst hs
      exact absurd rfl (hnf msg)
    · rename_i m h' heq
      simp at hs; subst hs
      refine ⟨rfl, rfl, ?_⟩
      unfold handlerStep at heq
      split at heq
      · simp only [RWMutex.rlock] at heq
        split at heq
        · simp at heq
        · rename_i m' hm
          split at hm
          · simp at hm
          · simp at hm heq
            obtain ⟨rfl, _⟩ := heq
            subst hm
            simp
      · simp at heq
        obtain ⟨rfl, _⟩ := heq
        simp
      · simp only [RWMutex.runlock] at heq
        split at heq
        · simp at heq
        · rename_i m' hm
          split at hm
          · simp at hm
          · simp at hm heq
            obtain ⟨rfl, _⟩ := heq
            subst hm
            simp
      · simp at heq

/-! ## The log and the end of the process -/

theorem step_terminated (exact : Bool) (s : State) (h : s.proc.running = false) (l : Label) :
    step exact s l = none := by
  simp [step, h]

theorem expectedLog_running {s : State} (hrun : s.proc.running = true) :
    expectedLog s = [] := by
  cases hp : s.proc <;> simp_all [expectedLog, Proc.running]

theorem step_end_or_not {exact : Bool} {s s' : State} {l : Label} (hinv : Inv s)
    (hs : step exact s l = some s') :
    (s'.log = s.log ∧ s'.proc.running = true) ∨
      (l = .mainExit ∧ ∃ err, s.proc = .returned err ∧
        s' = terminate s (mainAfterListenAndServe err)) := by
  have hrun := step_running hs
  cases l with
  | tick d =>
    obtain ⟨rfl, _⟩ := step_tick_eq hs
    exact Or.inl ⟨rfl, hrun⟩
  | locker =>
    rw [step_locker exact hrun] at hs
    obtain ⟨hp, hl, _⟩ := lockerStep_cycle hinv hs
    exact Or.inl ⟨hl, by rw [hp]; exact hrun⟩
  | handler i out =>
    obtain ⟨hp, hl, _, _⟩ := handler_step_frame hinv hs
    exact Or.inl ⟨hl, by rw [hp]; exact hrun⟩
  | arrive req =>
    unfold step at hs
    simp only [hrun, if_true] at hs
    split at hs
    · split at hs <;> (simp at hs; subst hs; exact Or.inl ⟨rfl, hrun⟩)
    · simp at hs
  | listen err =>
    unfold step at hs
    simp only [hrun, if_true] at hs
    split at hs
    · split at hs <;> (simp at hs; subst hs; exact Or.inl ⟨rfl, rfl⟩)
    · simp at hs
  | serveReturn err =>
    unfold step at hs
    simp only [hrun, if_true] at hs
    split at hs
    · simp at hs; subst hs; exact Or.inl ⟨rfl, rfl⟩
    · simp at hs
  | mainExit =>
    unfold step at hs
    simp only [hrun, if_true] at hs
    split at hs
    · rename_i err hp
      simp at hs
      exact Or.inr ⟨rfl, err, hp, hs.symm⟩
    · simp at hs

theorem step_log {exact : Bool} {s s' : State} {l : Label} (hinv : Inv s)
    (hlog : s.log = expectedLog s) (hs : step exact s l = some s') :
    s'.log = expectedLog s' := by
  have hrun := step_running hs
  have hempty : s.log = [] := by rw [hlog]; exact expectedLog_running hrun
  rcases step_end_or_not hinv hs with ⟨hl, hrun'⟩ | ⟨_, err, _, rfl⟩
  · rw [hl, hempty, expectedLog_running hrun']
  · cases err <;> simp [terminate, mainAfterListenAndServe, expectedLog, hempty]

theorem run_log {exact : Bool} : ∀ (ls : List Label) {s s' : State}, Inv s →
    s.log = expectedLog s → run exact s ls = some s' → s'.log = expectedLog s'
  | [], s, s', _, hlog, hr => by
    simp [run] at hr; subst hr; exact hlog
  | l :: ls, s, s', hinv, hlog, hr => by
    simp only [run] at hr
    split at hr
    · simp at hr
    · rename_i s1 hs1
      exact run_log ls (step_inv hinv hs1) (step_log hinv hlog hs1) hr

theorem reachable_log {exact : Bool} {s : State} (h : Reachable exact s) :
    s.log = expectedLog s := by
  obtain ⟨pref, ls, hr⟩ := h
  exact run_log ls (inv_init pref) rfl hr

theorem response_at_return (r : Request) (e : Exit) :
    writerCalls (opsAt (.returned e)) = [.write okBytes] ∧
      responseOf r (opsAt (.returned e)) =
        { status := 200, body := if r.method = "HEAD" then [] else okBytes } := by
  refine ⟨rfl, ?_⟩
  have hs : statusOf (opsAt (.returned e)) = 200 := rfl
  have hw : writerCalls (opsAt (.returned e)) = [.write okBytes] := rfl
  simp only [responseOf, hs, hw]
  by_cases hm : r.method = "HEAD" <;> simp [hm, bodyAllowed, HandlerOp.bytes]

theorem response_at_runlock (r : Request) (e : Exit) :
    writerCalls (opsAt (.atRUnlock e)) = [.write okBytes] ∧
      responseOf r (opsAt (.atRUnlock e)) =
        { status := 200, body := if r.method = "HEAD" then [] else okBytes } := by
  refine ⟨rfl, ?_⟩
  have hs : statusOf (opsAt (.atRUnlock e)) = 200 := rfl
  have hw : writerCalls (opsAt (.atRUnlock e)) = [.write okBytes] := rfl
  simp only [responseOf, hs, hw]
  by_cases hm : r.method = "HEAD" <;> simp [hm, bodyAllowed, HandlerOp.bytes]

theorem handlerStep_any_request (m : RWMutex) (h : Handler) (r : Request)
    (out : WriteOutcome) :
    handlerStep m { h with req := r } out =
      (handlerStep m h out).map fun res => res.map fun p => (p.1, { p.2 with req := r }) := by
  unfold handlerStep
  cases h.pc with
  | atRLock =>
    simp only
    cases m.rlock <;> rfl
  | atWrite => rfl
  | atRUnlock e =>
    simp only
    cases m.runlock <;> rfl
  | returned e => rfl

/-! ## After `ListenAndServe` has returned -/

theorem returned_step {exact : Bool} {s s' : State} {l : Label} {err : Option String}
    (hinv : Inv s) (hp : s.proc = .returned err) (hs : step exact s l = some s') :
    (s'.proc = .returned err ∧ l ≠ .mainExit) ∨
      (l = .mainExit ∧ s' = terminate s (mainAfterListenAndServe err)) := by
  have hrun := step_running hs
  cases l with
  | tick d =>
    obtain ⟨rfl, _⟩ := step_tick_eq hs
    exact Or.inl ⟨hp, by simp⟩
  | locker =>
    rw [step_locker exact hrun] at hs
    obtain ⟨hp', _, _⟩ := lockerStep_cycle hinv hs
    exact Or.inl ⟨hp'.trans hp, by simp⟩
  | handler i out =>
    obtain ⟨hp', _, _, _⟩ := handler_step_frame hinv hs
    exact Or.inl ⟨hp'.trans hp, by simp⟩
  | arrive req =>
    unfold step at hs
    simp only [hrun, if_true] at hs
    split at hs
    · split at hs <;> (simp at hs; subst hs; exact Or.inl ⟨hp, by simp⟩)
    · simp at hs
  | listen e =>
    simp [step, hp] at hs
  | serveReturn e =>
    simp [step, hp] at hs
  | mainExit =>
    simp [step, hp, Proc.running] at hs
    exact Or.inr ⟨rfl, hs.symm⟩

theorem bind_failed_step {exact : Bool} {s s' : State} {l : Label} {err : Option String}
    (hp : s.proc = .returned err) (hb : s.bound = none)
    (hh : s.handlers = []) (hs : step exact s l = some s') :
    s'.bound = none ∧ s'.handlers = [] := by
  have hrun := step_running hs
  cases l with
  | tick d =>
    obtain ⟨rfl, _⟩ := step_tick_eq hs
    exact ⟨hb, hh⟩
  | locker =>
    rw [step_locker exact hrun] at hs
    obtain ⟨h1, h2, _⟩ := lockerStep_server hs
    exact ⟨h2.trans hb, h1.trans hh⟩
  | handler i out =>
    simp [step, hh] at hs
  | arrive req =>
    simp [step, State.connected, hp, hb] at hs
  | listen e =>
    simp [step, hp] at hs
  | serveReturn e =>
    simp [step, hp] at hs
  | mainExit =>
    simp [step, hp, Proc.running] at hs
    subst hs
    exact ⟨hb, hh⟩

theorem returned_run {exact : Bool} {err : Option String} : ∀ (ls : List Label)
    {s s' : State}, Inv s →
    s.proc = .returned err ∨ s.proc = .terminated (mainAfterListenAndServe err) →
    run exact s ls = some s' →
    s'.proc = .returned err ∨ s'.proc = .terminated (mainAfterListenAndServe err)
  | [], s, s', _, hp, hr => by
    simp [run] at hr; subst hr; exact hp
  | l :: ls, s, s', hinv, hp, hr => by
    simp only [run] at hr
    split at hr
    · simp at hr
    · rename_i s1 hs1
      rcases hp with hp | hp
      · have hinv1 := step_inv hinv hs1
        rcases returned_step hinv hp hs1 with ⟨h1, _⟩ | ⟨_, h1⟩
        · exact returned_run ls hinv1 (Or.inl h1) hr
        · exact returned_run ls hinv1 (Or.inr (by rw [h1]; rfl)) hr
      · rw [step_terminated exact s (by rw [hp]; rfl) l] at hs1
        simp at hs1

theorem bind_failed_run {exact : Bool} {err : Option String} : ∀ (ls : List Label)
    {s s' : State}, Inv s →
    s.proc = .returned err ∨ s.proc = .terminated (mainAfterListenAndServe err) →
    s.bound = none → s.handlers = [] → run exact s ls = some s' →
    s'.bound = none ∧ s'.handlers = []
  | [], s, s', _, _, hb, hh, hr => by
    simp [run] at hr; subst hr; exact ⟨hb, hh⟩
  | l :: ls, s, s', hinv, hp, hb, hh, hr => by
    simp only [run] at hr
    split at hr
    · simp at hr
    · rename_i s1 hs1
      rcases hp with hp | hp
      · have hinv1 := step_inv hinv hs1
        obtain ⟨hb1, hh1⟩ := bind_failed_step hp hb hh hs1
        have hp1 : s1.proc = .returned err ∨
            s1.proc = .terminated (mainAfterListenAndServe err) := by
          rcases returned_step hinv hp hs1 with ⟨h1, _⟩ | ⟨_, h1⟩
          · exact Or.inl h1
          · exact Or.inr (by rw [h1]; rfl)
        exact bind_failed_run ls hinv1 hp1 hb1 hh1 hr
      · rw [step_terminated exact s (by rw [hp]; rfl) l] at hs1
        simp at hs1

/-! ## The timeline of the locker -/

theorem execBody_lockerBody (k w t : Nat) :
    execBody k w t lockerBody = (iterationEvents w k t, t + 12 * Second + w) := by
  simp [execBody, lockerBody, execStmt, iterationEvents, idleSleep, holdSleep, Prod.ext_iff]
  omega

theorem iterationStart_succ (wait : Nat → Nat) (k : Nat) :
    iterationStart wait (k + 1) = iterationStart wait k + 12 * Second + wait k := by
  simp [iterationStart, List.range_succ, Nat.mul_add]
  omega

theorem lockerLoop_from (wait : Nat → Nat) : ∀ (n k : Nat),
    lockerLoop wait n k (iterationStart wait k) =
      (List.range n).flatMap fun j =>
        iterationEvents (wait (k + j)) (k + j) (iterationStart wait (k + j))
  | 0, k => by simp [lockerLoop]
  | n + 1, k => by
    have ih := lockerLoop_from wait n (k + 1)
    rw [iterationStart_succ] at ih
    simp only [lockerLoop, execBody_lockerBody, ih, List.range_succ_eq_map, List.flatMap_cons,
      List.flatMap_map]
    congr 1
    · apply congrArg
      funext j
      simp [Nat.add_assoc, Nat.add_comm 1 j]

/-! ## The locker alone, under exact sleeps -/

theorem run_cons_of_step {exact : Bool} {s s1 : State} {l : Label} (ls : List Label)
    (h : step exact s l = some s1) : run exact s (l :: ls) = run exact s1 ls := by
  simp only [run, h]

theorem run_idlePhase (t k : Nat) :
    run true (idleAt t k) idlePhase = some (holdAt (t + idleSleep) k) := by
  have h1 := step_locker_sleep10 true (idleAt t k) rfl rfl
  have h2 := step_tick_sleep10 true
    { idleAt t k with locker := .inSleep10 (t + idleSleep) } idleSleep rfl rfl
    (by show idleSleep ≤ t + idleSleep - t; omega) rfl
  have h3 := step_locker_wake10 true
    { idleAt t k with now := t + idleSleep, locker := .inSleep10 (t + idleSleep) } rfl rfl
    (le_refl _)
  have h4 := step_locker_lock_free true
    { idleAt t k with now := t + idleSleep, locker := .atLock } rfl rfl rfl rfl rfl
  exact (run_cons_of_step _ h1).trans ((run_cons_of_step _ h2).trans
    ((run_cons_of_step _ h3).trans ((run_cons_of_step _ h4).trans rfl)))

theorem run_holdPhase (t k : Nat) :
    run true (holdAt t k) holdPhase = some (idleAt (t + holdSleep) (k + 1)) := by
  have h1 := step_locker_sleep2 true (holdAt t k) rfl rfl
  have h2 := step_tick_sleep2 true
    { holdAt t k with locker := .inSleep2 (t + holdSleep) } holdSleep rfl rfl
    (by show holdSleep ≤ t + holdSleep - t; omega) rfl
  have h3 := step_locker_wake2 true
    { holdAt t k with now := t + holdSleep, locker := .inSleep2 (t + holdSleep) } rfl rfl
    (le_refl _)
  have h4 := step_locker_unlock true
    { holdAt t k with now := t + holdSleep, locker := .atUnlock } rfl rfl rfl
  exact (run_cons_of_step _ h1).trans ((run_cons_of_step _ h2).trans
    ((run_cons_of_step _ h3).trans ((run_cons_of_step _ h4).trans rfl)))

theorem twelve_seconds (k : Nat) :
    (12 * k + 10) * Second + holdSleep = 12 * (k + 1) * Second ∧
      12 * (k + 1) * Second + idleSleep = (12 * (k + 1) + 10) * Second ∧
      (12 * k + 10) * Second + holdSleep = (12 * k + 12) * Second := by
  have h1 : holdSleep = 2 * Second := rfl
  have h2 : idleSleep = 10 * Second := rfl
  rw [h1, h2]
  generalize Second = c
  refine ⟨?_, ?_, ?_⟩ <;> ring

theorem uncontended_iterations : ∀ k : Nat,
    Reachable true (idleAt (12 * k * Second) k) ∧
      Reachable true (holdAt ((12 * k + 10) * Second) k)
  | 0 => by
    refine ⟨⟨true, [], rfl⟩, ⟨true, idlePhase, ?_⟩⟩
    have h := run_idlePhase 0 0
    have heq : 0 + idleSleep = (12 * 0 + 10) * Second := by
      have h2 : idleSleep = 10 * Second := rfl
      rw [h2]
      generalize Second = c
      ring
    rw [heq] at h
    exact h
  | k + 1 => by
    obtain ⟨_, hhold⟩ := uncontended_iterations k
    obtain ⟨heq, heq2, _⟩ := twelve_seconds k
    have h1 := run_holdPhase ((12 * k + 10) * Second) k
    rw [heq] at h1
    have hidle : Reachable true (idleAt (12 * (k + 1) * Second) (k + 1)) :=
      reachable_reaches hhold ⟨holdPhase, h1⟩
    refine ⟨hidle, ?_⟩
    have h2 := run_idlePhase (12 * (k + 1) * Second) (k + 1)
    rw [heq2] at h2
    exact reachable_reaches hidle ⟨idlePhase, h2⟩

/-!
## The claims

`Reachable exact s` ranges over every interleaving of the locker, the handler invocations,
the requests the server reads, the passing of time, the return of `ListenAndServe` and the
end of `main`, and over both policies of the lock.  A theorem stated for a variable
`exact` holds for sleeps that last at least the requested time and for sleeps that last
exactly that time; one stated for `true` needs exact sleeps.
-/

/-- Claim C1, as amended. In every reachable state, under exact or inexact sleeps, every
invocation of the handler is for a request that `net/http` does not answer by itself, and
it has made exactly the calls its program counter stands for, whatever the request: it
never calls `WriteHeader`, every `Write` it makes hands over the two bytes `ok`, and once
`Write` has been called the response is status 200 with body `ok`, the body being left
out when the method is `HEAD`.  The steps of an invocation are the same for every request.
While the process runs, every invocation can be brought to its return, whatever `Write`
does.  A request that arrives gets an invocation of the handler unless `net/http` answers
it by itself, in which case nothing changes: the handler is not called. -/
theorem handler_writes_ok (exact : Bool) (s : State) (hs : Reachable exact s)
    (i : Nat) (h : Handler) (hget : s.handlers[i]? = some h) :
    answeredByServer h.req = false ∧
      h.ops = opsAt h.pc ∧
      (∀ c, HandlerOp.writeHeader c ∉ h.ops) ∧
      (∀ b, HandlerOp.write b ∈ h.ops → b = okBytes) ∧
      (∀ e, h.pc = .atRUnlock e ∨ h.pc = .returned e →
        writerCalls h.ops = [.write okBytes] ∧
          responseOf h.req h.ops =
            { status := 200, body := if h.req.method = "HEAD" then [] else okBytes }) ∧
      okBytes = "ok".toList.map Char.toNat ∧ okBytes.length = 2 ∧
      (∀ (r : Request) (m : RWMutex) (out : WriteOutcome),
        handlerStep m { h with req := r } out =
          (handlerStep m h out).map fun res => res.map fun p => (p.1, { p.2 with req := r })) ∧
      (s.proc.running = true → ∀ out : WriteOutcome,
        ∃ s' h', Reaches exact s s' ∧ s'.handlers[i]? = some h' ∧ h'.req = h.req ∧
          h'.pc = .returned (exitOf h.pc out) ∧
          writerCalls h'.ops = [.write okBytes] ∧
          responseOf h'.req h'.ops =
            { status := 200, body := if h.req.method = "HEAD" then [] else okBytes }) ∧
      (s.connected = true → ∀ r : Request,
        step exact s (.arrive r) =
          some (if answeredByServer r then s
            else { s with
              handlers := s.handlers ++ [{ req := r, pc := .atRLock, ops := [] }] })) := by
  have hinv := reachable_inv hs
  have hserver := reachable_serverInv hs
  have hops := hinv.ops_eq h (List.getElem?_mem hget)
  refine ⟨hserver.handed h (List.getElem?_mem hget), hops, ?_, ?_, ?_, by decide, rfl,
    fun r m out => handlerStep_any_request m h r out, ?_, ?_⟩
  · intro c
    rw [hops]
    cases h.pc <;> simp [opsAt]
  · intro b
    rw [hops]
    cases h.pc <;> simp [opsAt]
  · intro e he
    rw [hops]
    rcases he with he | he <;> rw [he]
    · exact response_at_runlock h.req e
    · exact response_at_return h.req e
  · intro hrun out
    obtain ⟨s', hreach, _, hget'⟩ := serve_eventually exact out hinv hrun hget
    exact ⟨s', _, hreach, hget', rfl, rfl, response_at_return h.req (exitOf h.pc out)⟩
  · intro hc r
    have hrun : s.proc.running = true := by
      cases hp : s.proc <;> simp_all [State.connected, Proc.running]
    cases ha : answeredByServer r <;> simp [step, hrun, hc, ha]

/-- Witness of C1: the request `POST /any/other/path` served at time 0 got 200 `ok`. -/
theorem handler_writes_ok_witness :
    Reachable false servedState ∧
      responseOf postElsewhere (servedHandler postElsewhere).ops =
        { status := 200, body := okBytes } :=
  have hr : Reachable false servedState := ⟨true, servedRun, rfl⟩
  ⟨hr, ((handler_writes_ok false servedState hr 0 (servedHandler postElsewhere) rfl).2.2.2.2.1
    .normal (Or.inr rfl)).2⟩

/-- Counterexample to C1 as stated: not every inbound request is answered 200 `ok`.  The
request `HEAD /` is handed to the handler, which writes `ok`, and its response is status
200 with an empty body.  The requests `GET //x`, `CONNECT 127.0.0.1:8989`, `OPTIONS *`,
`GET /` without `Host` header and `GET /` with `Expect: 200-ok` are answered by `net/http`
itself: when they arrive no invocation of the handler comes into being. -/
theorem head_gets_no_body_and_some_requests_no_handler :
    run false init headServedRun = some headServedState ∧
      answeredByServer headRoot = false ∧
      headServedState.handlers = [servedHandler headRoot] ∧
      (servedHandler headRoot).pc = .returned .normal ∧
      writerCalls (servedHandler headRoot).ops = [.write okBytes] ∧
      responseOf headRoot (servedHandler headRoot).ops = { status := 200, body := [] } ∧
      responseOf headRoot (servedHandler headRoot).ops ≠ { status := 200, body := okBytes } ∧
      run false init servedRun = some servedState ∧
      (answeredByServer getUnclean = true ∧
        step false servedState (.arrive getUnclean) = some servedState) ∧
      (answeredByServer connectAuthority = true ∧
        step false servedState (.arrive connectAuthority) = some servedState) ∧
      (answeredByServer optionsAsterisk = true ∧
        step false servedState (.arrive optionsAsterisk) = some servedState) ∧
      (answeredByServer getWithoutHost = true ∧
        step false servedState (.arrive getWithoutHost) = some servedState) ∧
      (answeredByServer getExpecting = true ∧
        step false servedState (.arrive getExpecting) = some servedState) ∧
      servedState.handlers = [servedHandler postElsewhere] := by
  refine ⟨rfl, rfl, rfl, rfl, rfl, rfl, by decide, rfl, ⟨rfl, rfl⟩, ⟨rfl, rfl⟩, ⟨rfl, rfl⟩,
    ⟨rfl, rfl⟩, ⟨rfl, rfl⟩, rfl⟩

/-- Claim C2. In every reachable state, under exact or inexact sleeps, the lock is held
exclusively only while the locker is between the return of `Lock` and its call of
`Unlock`, its shared holders are exactly the invocations between the return of `RLock` and
the deferred `RUnlock`, and the two never come together: when the lock is held exclusively
it has no shared holder, no invocation is inside its critical section, and an invocation
that stands at `RLock` cannot get past it. -/
theorem lock_mutual_exclusion (exact : Bool) (s : State) (hs : Reachable exact s) :
    s.lock.writer = s.locker.holding ∧
      s.lock.readers = sharedHolders s ∧
      (s.lock.writer = true → s.lock.readers = 0) ∧
      ¬ (s.lock.writer = true ∧ 0 < s.lock.readers) ∧
      (s.locker.holding = true → ∀ h ∈ s.handlers, h.pc.holding = false) ∧
      (∀ h ∈ s.handlers, h.pc.holding = true → s.locker.holding = false) ∧
      (s.lock.writer = true → ∀ (i : Nat) (h : Handler) (out : WriteOutcome),
        s.handlers[i]? = some h → h.pc = .atRLock →
          step exact s (.handler i out) = none) := by
  have hinv := reachable_inv hs
  have hnone : s.locker.holding = true → ∀ h ∈ s.handlers, h.pc.holding = false := by
    intro hh h hmem
    have hw : s.lock.writer = true := by rw [hinv.writer_eq]; exact hh
    have hr := hinv.exclusive hw
    rw [hinv.readers_eq] at hr
    have := List.countP_eq_zero.mp hr h hmem
    simpa using this
  refine ⟨hinv.writer_eq, hinv.readers_eq, hinv.exclusive, ?_, hnone, ?_, ?_⟩
  · rintro ⟨hw, hr⟩
    have := hinv.exclusive hw
    omega
  · intro h hmem hh
    cases hl : s.locker.holding with
    | false => rfl
    | true =>
      have := hnone hl h hmem
      rw [hh] at this
      exact absurd this (by decide)
  · intro hw i h out hget hpc
    exact step_handler_rlock_blocked exact s out hget hpc (Or.inl hw)

/-- Witness of C2: while the locker holds the lock from time 10 s on, the request that
arrived in the meantime is not inside its critical section. -/
theorem lock_mutual_exclusion_witness :
    Reachable true heldState ∧ heldState.lock.writer = true ∧
      (waitingHandler postElsewhere).pc.holding = false :=
  have hr : Reachable true heldState := ⟨true, heldRun, rfl⟩
  ⟨hr, rfl, (lock_mutual_exclusion true heldState hr).2.2.2.2.1 rfl
    (waitingHandler postElsewhere) (by decide)⟩

/-- Claim C3. In every reachable state, under exact or inexact sleeps, an invocation has
called `RLock` once as soon as it is past line 23 and has called `RUnlock` once when it is
over and not before.  While the process runs, an invocation inside its critical section
is never suspended: whatever `Write` does (success, error, panic) its next steps are the
call of `Write` and the deferred `RUnlock`, after which the lock has one shared holder
less and the invocation is over.  A step of the handler gives the same state whether
`Write` succeeds or returns an error, and the code of the handler neither logs nor ends
the process. -/
theorem handler_releases_once (exact : Bool) (s : State) (hs : Reachable exact s)
    (i : Nat) (h : Handler) (hget : s.handlers[i]? = some h) :
    h.ops.count .rlock = (if h.pc = .atRLock then 0 else 1) ∧
      h.ops.count .runlock = (if h.pc.isReturned then 1 else 0) ∧
      (s.proc.running = true → h.pc = .atWrite → ∀ out : WriteOutcome,
        step exact s (.handler i out) =
          some { s with
            handlers := s.handlers.set i
              { h with pc := .atRUnlock (exitAfterWrite out),
                       ops := h.ops ++ [.write okBytes] } }) ∧
      (s.proc.running = true → ∀ e, h.pc = .atRUnlock e → ∀ out : WriteOutcome,
        step exact s (.handler i out) =
          some { s with
            lock := { s.lock with readers := s.lock.readers - 1 }
            handlers := s.handlers.set i
              { h with pc := .returned e, ops := h.ops ++ [.runlock] } } ∧
          0 < s.lock.readers) ∧
      (s.proc.running = true → h.pc.holding = true → ∀ out : WriteOutcome,
        ∃ s', Reaches exact s s' ∧ s'.lock.readers + 1 = s.lock.readers ∧
          s'.handlers[i]? = some
            { h with pc := .returned (exitOf h.pc out),
                     ops := [.rlock, .write okBytes, .runlock] }) ∧
      step exact s (.handler i .ok) = step exact s (.handler i .error) ∧
      (∀ (out : WriteOutcome) (s' : State), step exact s (.handler i out) = some s' →
        s'.log = s.log ∧ s'.proc = s.proc) := by
  have hinv := reachable_inv hs
  have hops := hinv.ops_eq h (List.getElem?_mem hget)
  refine ⟨?_, ?_, ?_, ?_, ?_, ?_, ?_⟩
  · rw [hops]
    cases h.pc <;> simp [opsAt]
  · rw [hops]
    cases h.pc <;> simp [opsAt, HandlerPc.isReturned]
  · intro hrun hpc out
    exact step_handler_write exact s out hrun hget hpc
  · intro hrun e hpc out
    have hr := holder_readers_ne_zero hinv hget (by rw [hpc]; rfl)
    exact ⟨step_handler_runlock exact s out hrun hget hpc hr, by omega⟩
  · intro hrun hh out
    obtain ⟨s', hreach, hs'⟩ := finish_holder exact out hinv hrun hget hh
    have hr := holder_readers_ne_zero hinv hget hh
    refine ⟨s', hreach, ?_, ?_⟩
    · rw [hs']
      show s.lock.readers - 1 + 1 = s.lock.readers
      omega
    · rw [hs']
      exact set_get_self _ _ _ _ hget
  · simp only [step, hget, handlerStep, exitAfterWrite]
  · intro out s' hstep
    obtain ⟨h1, h2, _, _⟩ := handler_step_frame hinv hstep
    exact ⟨h2, h1⟩

/-- Witness of C3: the invocation that is about to write releases the lock when `Write`
panics. -/
theorem handler_releases_once_witness :
    Reachable false writingState ∧
      ∃ s', Reaches false writingState s' ∧ s'.lock.readers + 1 = writingState.lock.readers ∧
        s'.handlers[0]? = some
          { writingHandler getRoot with
            pc := .returned (exitOf (writingHandler getRoot).pc .panic),
            ops := [.rlock, .write okBytes, .runlock] } :=
  have hr : Reachable false writingState := ⟨true, writingRun, rfl⟩
  ⟨hr, (handler_releases_once false writingState hr 0 (writingHandler getRoot) rfl).2.2.2.2.1
    rfl rfl .panic⟩

theorem holdInterval_iteration (w k t : Nat) :
    holdInterval (iterationEvents w k t) = some (t + 10 * Second + w, t + 12 * Second + w) := by
  simp [holdInterval, iterationEvents]

theorem lockerLoop_length (wait : Nat → Nat) : ∀ (n k t : Nat),
    (lockerLoop wait n k t).length = 4 * n
  | 0, _, _ => by simp [lockerLoop]
  | n + 1, k, t => by
    simp only [lockerLoop, execBody_lockerBody, List.length_append,
      lockerLoop_length wait n]
    simp [iterationEvents]
    omega

/-- Claim C4. With exact sleeps, the first `n` passes of the locker through its loop are,
for every `n` and whatever the times `wait k` its calls of `Lock` are suspended, the four
events sleep 10 s, `Lock`, sleep 2 s, `Unlock` of the iterations 0 to `n - 1` in this
order; iteration `k` starts 12 seconds per earlier iteration plus the earlier waiting
times after start, so two consecutive iterations start 12 seconds plus the waiting time
apart; and when `Lock` never waits, the hold of iteration `k` lasts from `12 k + 10` to
`12 k + 12` seconds after start.  In the process itself: with exact sleeps and no request
the locker gets the lock of iteration `k` at `12 k + 10` seconds and is back at the top of
its loop at `12 k + 12` seconds; and in every reachable state, under exact or inexact
sleeps, the locker stands at a statement of its loop body, the lock is not held
exclusively while it stands at the first sleep and is held while it stands at the second,
and each of its steps stays at its statement or moves to the next, the first following
the fourth. -/
theorem locker_iteration_timeline (wait : Nat → Nat) (n : Nat) :
    lockerLoop wait n 0 0 =
        (List.range n).flatMap
          (fun k => iterationEvents (wait k) k (iterationStart wait k)) ∧
      (lockerLoop wait n 0 0).length = 4 * n ∧
      (∀ w k t, (iterationEvents w k t).map (fun e => e.stmt) = lockerBody ∧
        (iterationEvents w k t).map (fun e => e.iteration) = [k, k, k, k] ∧
        holdInterval (iterationEvents w k t) =
          some (t + 10 * Second + w, t + 12 * Second + w)) ∧
      (∀ k, iterationStart wait (k + 1) = iterationStart wait k + 12 * Second + wait k) ∧
      lockerLoop (fun _ => 0) n 0 0 =
        (List.range n).flatMap (fun k => iterationEvents 0 k (12 * Second * k)) ∧
      (∀ k, holdInterval (iterationEvents 0 k (12 * Second * k)) =
        some ((12 * k + 10) * Second, (12 * k + 12) * Second)) ∧
      (∀ k, Reachable true (holdAt ((12 * k + 10) * Second) k) ∧
        run true (holdAt ((12 * k + 10) * Second) k) holdPhase =
          some (idleAt ((12 * k + 12) * Second) (k + 1))) ∧
      (∀ (exact : Bool) (s : State), Reachable exact s →
        lockerBody[s.locker.index]? = some s.locker.stmt ∧
          (s.locker.stmt = .sleep idleSleep →
            s.lock.writer = false ∧ s.lock.writerWaiting = false) ∧
          (s.locker.stmt = .sleep holdSleep → s.lock.writer = true) ∧
          ∀ s', step exact s .locker = some s' →
            s'.locker.index = s.locker.index ∨
              s'.locker.index = (s.locker.index + 1) % 4) := by
  have hmain : ∀ wait : Nat → Nat, lockerLoop wait n 0 0 =
      (List.range n).flatMap
        (fun k => iterationEvents (wait k) k (iterationStart wait k)) := by
    intro wait
    have h := lockerLoop_from wait n 0
    simpa [iterationStart] using h
  refine ⟨hmain wait, ?_, ?_, iterationStart_succ wait, ?_, ?_, ?_, ?_⟩
  · exact lockerLoop_length wait n 0 0
  · intro w k t
    exact ⟨rfl, rfl, holdInterval_iteration w k t⟩
  · rw [hmain]
    simp [iterationStart]
  · intro k
    rw [holdInterval_iteration]
    simp
    constructor <;> ring
  · intro k
    refine ⟨(uncontended_iterations k).2, ?_⟩
    have h := run_holdPhase ((12 * k + 10) * Second) k
    rw [(twelve_seconds k).2.2] at h
    exact h
  · intro exact s hs
    have hinv := reachable_inv hs
    refine ⟨stmt_at_index s.locker, ?_, ?_, ?_⟩
    · intro hst
      rw [hinv.writer_eq, hinv.waiting_eq]
      cases hl : s.locker <;>
        simp_all [LockerPc.stmt, LockerPc.holding, LockerPc.waiting, idleSleep, holdSleep,
          Second]
    · intro hst
      rw [hinv.writer_eq]
      cases hl : s.locker <;>
        simp_all [LockerPc.stmt, LockerPc.holding, idleSleep, holdSleep, Second]
    · intro s' hstep
      have hrun := step_running hstep
      rw [step_locker exact hrun] at hstep
      exact (lockerStep_cycle hinv hstep).2.2

/-- Witness of C4: when the second call of `Lock` waits 3 seconds, the first three
iterations start 0, 12 and 27 seconds after start, and the third holds the lock from 37 to
39 seconds after start. -/
theorem locker_iteration_timeline_witness :
    lockerLoop (fun k => if k = 1 then 3 * Second else 0) 3 0 0 =
        iterationEvents 0 0 0 ++ iterationEvents (3 * Second) 1 (12 * Second) ++
          iterationEvents 0 2 (27 * Second) ∧
      holdInterval (iterationEvents 0 2 (27 * Second)) = some (37 * Second, 39 * Second) :=
  have hthm := locker_iteration_timeline (fun k => if k = 1 then 3 * Second else 0) 3
  ⟨hthm.1.trans (by decide), (hthm.2.2.1 0 2 (27 * Second)).2.2⟩

/-- Claim C5, as amended. In every reachable state earlier than 10 seconds after start,
under exact or inexact sleeps, the locker is still in its first sleep of its first
iteration: it has not called `Lock`, the lock is neither held exclusively nor waited for.
So, while the process runs, an invocation that stands at `RLock` takes the lock with its
next step, without waiting, and every invocation can be brought to its return without any
time passing, with response 200 and the body `ok`, which is left out when the method is
`HEAD`. -/
theorem no_exclusive_lock_before_ten_seconds (exact : Bool) (s : State)
    (hs : Reachable exact s) (hearly : s.now < 10 * Second) :
    s.locker.index = 0 ∧ s.iterations = 0 ∧ s.locker.requested = false ∧
      s.lock.writer = false ∧ s.lock.writerWaiting = false ∧
      (s.proc.running = true → ∀ (i : Nat) (h : Handler), s.handlers[i]? = some h →
        ∀ out : WriteOutcome,
          (h.pc = .atRLock →
            step exact s (.handler i out) =
              some { s with
                lock := { s.lock with readers := s.lock.readers + 1 }
                handlers := s.handlers.set i
                  { h with pc := .atWrite, ops := h.ops ++ [.rlock] } }) ∧
          ∃ s' h', Reaches exact s s' ∧ s'.now = s.now ∧ s'.handlers[i]? = some h' ∧
            h'.req = h.req ∧ h'.pc = .returned (exitOf h.pc out) ∧
            responseOf h'.req h'.ops =
              { status := 200, body := if h.req.method = "HEAD" then [] else okBytes }) := by
  have hinv := reachable_inv hs
  have htime := reachable_timeInv hs
  have hidle : idleSleep = 10 * Second := rfl
  have hindex : s.locker.index = 0 := by
    by_contra hne
    have := htime.past_idle (Or.inl hne)
    omega
  have hiter : s.iterations = 0 := by
    by_contra hne
    have := htime.past_idle (Or.inr hne)
    omega
  have hreq : s.locker.requested = false := by
    cases hl : s.locker <;> simp_all [LockerPc.index, LockerPc.requested]
  obtain ⟨hw, hww⟩ := lock_free_of_not_requested hinv hreq
  refine ⟨hindex, hiter, hreq, hw, hww, ?_⟩
  intro hrun i h hget out
  refine ⟨fun hpc => step_handler_rlock exact s out hrun hget hpc hw hww, ?_⟩
  obtain ⟨s', hreach, hnow, _, _, _, hget'⟩ := complete_handler exact out hinv hrun hget hreq
  exact ⟨s', _, hreach, hnow, hget', rfl, rfl,
    (response_at_return h.req (exitOf h.pc out)).2⟩

/-- Witness of C5: five seconds after start the lock is not held exclusively. -/
theorem no_exclusive_lock_before_ten_seconds_witness :
    Reachable true earlyState ∧ earlyState.now < 10 * Second ∧
      earlyState.lock.writer = false :=
  have hr : Reachable true earlyState := ⟨true, earlyRun, rfl⟩
  ⟨hr, by decide,
    (no_exclusive_lock_before_ten_seconds true earlyState hr (by decide)).2.2.2.1⟩

/-- Counterexample to C5 as stated: the request `HEAD /` arrives five seconds after start;
its handler runs at once, within the first 10 seconds, takes the shared lock without
waiting and writes `ok`, and the request is answered with status 200 and an empty body,
not with 200 `ok`; so it is under exact and under inexact sleeps. -/
theorem head_before_ten_seconds_gets_no_body :
    run true init earlyHeadRun = some earlyHeadServed ∧
      run false init earlyHeadRun = some earlyHeadServed ∧
      earlyHeadServed.now = 5 * Second ∧ earlyHeadServed.now < 10 * Second ∧
      earlyHeadServed.handlers = [servedHandler headRoot] ∧
      (servedHandler headRoot).pc = .returned .normal ∧
      (servedHandler headRoot).ops = [.rlock, .write okBytes, .runlock] ∧
      responseOf headRoot (servedHandler headRoot).ops = { status := 200, body := [] } ∧
      responseOf headRoot (servedHandler headRoot).ops ≠
        { status := 200, body := okBytes } := by
  refine ⟨rfl, rfl, rfl, by decide, rfl, rfl, rfl, rfl, by decide⟩

/-- Claim C6, as amended. With exact sleeps: when the lock is held exclusively and an
invocation stands at `RLock` (its request is one the server hands to the handler), the
hold is scheduled to last at most 2 more seconds and the invocation cannot take the lock
now.  Whatever happens next, as long as the scheduled end of the hold is not reached the
lock is still held and the invocation still stands suspended at `RLock`, and once time has
passed the scheduled end of the hold the invocation has returned, having called `RLock`,
`Write` with `ok` and `RUnlock`, so that the response is status 200 with body `ok`, the
body being left out when the method is `HEAD`.  The invocation can be served at exactly
the scheduled end of the hold, and time can pass beyond it.  In every reachable state
between `12 k + 10` and `12 k + 12` seconds after start the lock is held exclusively and
the hold ends at `12 k + 12` seconds. -/
theorem blocked_for_remaining_hold (s : State) (hs : Reachable true s)
    (hrun : s.proc.running = true) (hheld : s.lock.writer = true)
    (i : Nat) (h : Handler) (hget : s.handlers[i]? = some h) (hpc : h.pc = .atRLock) :
    answeredByServer h.req = false ∧
      remainingHold s ≤ 2 * Second ∧
      (∀ out : WriteOutcome, step true s (.handler i out) = none) ∧
      (∀ (ls : List Label) (s' : State), run true s ls = some s' →
        s'.now < s.now + remainingHold s →
          s'.lock.writer = true ∧ s'.iterations = s.iterations ∧
            s'.handlers[i]? = some h ∧
            ∀ out : WriteOutcome, step true s' (.handler i out) = none) ∧
      (∀ (ls : List Label) (s' : State), run true s ls = some s' →
        s'.iterations = s.iterations →
          s'.lock.writer = true ∧ s'.now ≤ s.now + remainingHold s ∧
            s'.handlers[i]? = some h ∧
            ∀ out : WriteOutcome, step true s' (.handler i out) = none) ∧
      (∀ (ls : List Label) (s' : State), run true s ls = some s' →
        s'.iterations ≠ s.iterations → s.now + remainingHold s ≤ s'.now) ∧
      (∀ (ls : List Label) (s' : State), run true s ls = some s' →
        s.now + remainingHold s < s'.now →
          ∃ h' e, s'.handlers[i]? = some h' ∧ h'.req = h.req ∧ h'.pc = .returned e ∧
            h'.ops = [.rlock, .write okBytes, .runlock] ∧
            responseOf h'.req h'.ops =
              { status := 200, body := if h.req.method = "HEAD" then [] else okBytes }) ∧
      (∀ out : WriteOutcome, ∃ s' h', Reaches true s s' ∧
        s'.now = s.now + remainingHold s ∧ s'.handlers[i]? = some h' ∧ h'.req = h.req ∧
        h'.pc = .returned (exitAfterWrite out) ∧
        responseOf h'.req h'.ops =
          { status := 200, body := if h.req.method = "HEAD" then [] else okBytes }) ∧
      (∃ s', Reaches true s s' ∧ s'.now = s.now + remainingHold s + 1) ∧
      (∀ (k : Nat) (t : State), Reachable true t →
        (12 * k + 10) * Second < t.now → t.now < (12 * k + 12) * Second →
          t.lock.writer = true ∧ t.now + remainingHold t = (12 * k + 12) * Second) := by
  have hinv := reachable_inv hs
  have htime := reachable_timeInv hs
  have hserver := reachable_serverInv hs
  have hh : s.locker.holding = true := by rw [← hinv.writer_eq]; exact hheld
  refine ⟨hserver.handed h (List.getElem?_mem hget), remainingHold_le htime, ?_, ?_, ?_, ?_,
    ?_, ?_, ?_, ?_⟩
  · intro out
    exact step_handler_rlock_blocked true s out hget hpc (Or.inl hheld)
  · intro ls s' hr hlt
    have hinv' := run_inv ls hinv hr
    rcases hold_then_served ls hinv hh hget hpc hr with ⟨a, b, _, d⟩ | ha
    · have hw' : s'.lock.writer = true := by rw [hinv'.writer_eq]; exact a
      exact ⟨hw', b, d, fun out =>
        step_handler_rlock_blocked true s' out d hpc (Or.inl hw')⟩
    · rcases ha with ⟨hnow, _⟩ | ⟨hnow, _⟩ <;> omega
  · intro ls s' hr hit
    have hinv' := run_inv ls hinv hr
    obtain ⟨h1, _⟩ := hold_run ls hinv hh hget hpc hr
    obtain ⟨hh', hend, hget'⟩ := h1 hit
    have hw' : s'.lock.writer = true := by rw [hinv'.writer_eq]; exact hh'
    refine ⟨hw', by omega, hget', ?_⟩
    intro out
    exact step_handler_rlock_blocked true s' out hget' hpc (Or.inl hw')
  · intro ls s' hr hit
    obtain ⟨_, h2⟩ := hold_run ls hinv hh hget hpc hr
    exact h2 hit
  · intro ls s' hr hlt
    have hinv' := run_inv ls hinv hr
    rcases hold_then_served ls hinv hh hget hpc hr with ⟨_, _, c, _⟩ | ha
    · omega
    · rcases ha with ⟨hnow, _⟩ | ⟨_, h', hget', hreq', hret⟩
      · omega
      · have hops := hinv'.ops_eq h' (List.getElem?_mem hget')
        cases hp' : h'.pc with
        | atRLock => simp [hp', HandlerPc.isReturned] at hret
        | atWrite => simp [hp', HandlerPc.isReturned] at hret
        | atRUnlock e => simp [hp', HandlerPc.isReturned] at hret
        | returned e =>
          refine ⟨h', e, hget', hreq', hp', ?_, ?_⟩
          · rw [hops, hp']; rfl
          · rw [hops, hp', ← hreq']
            exact (response_at_return h'.req e).2
  · intro out
    obtain ⟨s', hreach, hnow, _, _, hget'⟩ := serve_after_hold true out hinv hrun hh hget
    refine ⟨s', _, hreach, hnow, hget', rfl, ?_, (response_at_return h.req (exitOf h.pc out)).2⟩
    simp [exitOf, hpc]
  · have hrel := locker_release true hinv hrun hh
    have hinvR := reaches_inv hinv hrel
    obtain ⟨s3, hreach3, hnow3, hl3, hp3, _, hall⟩ :=
      quiesce true _ _ hinvR hrun rfl rfl
    have hrun3 : s3.proc.running = true := by rw [hp3]; exact hrun
    have h4 := step_locker_sleep10 true s3 hrun3 hl3
    have h5 := step_tick_sleep10 true
      { s3 with locker := .inSleep10 (s3.now + idleSleep) } 1 hrun3 rfl
      (by
        show 1 ≤ s3.now + idleSleep - s3.now
        have : 0 < idleSleep := by decide
        omega)
      (returned_quiet hall : s3.handlers.any (handlerReady s3.lock) = false)
    refine ⟨_, reaches_trans hrel (reaches_trans hreach3
      (reaches_trans (reaches_step h4) (reaches_step h5))), ?_⟩
    show s3.now + 1 = s.now + remainingHold s + 1
    rw [hnow3]
  · intro k t ht h1 h2
    obtain ⟨a, _, c⟩ := hold_window (reachable_inv ht) (reachable_exactInv ht) k h1 h2
    exact ⟨a, c⟩

/-- Witness of C6: the request issued 10.5 seconds after start, the lock being held since
10 seconds, cannot take the lock then; the hold has 1.5 seconds left, and the request is
served 12 seconds after start once the locker has unlocked. -/
theorem blocked_for_remaining_hold_witness :
    Reachable true midHoldState ∧ midHoldState.now = 10 * Second + Second / 2 ∧
      remainingHold midHoldState = Second + Second / 2 ∧
      step true midHoldState (.handler 0 .ok) = none ∧
      run true midHoldState midHoldServe = some midHoldServed ∧
      ∃ s' h', Reaches true midHoldState s' ∧
        s'.now = 12 * Second ∧ s'.handlers[0]? = some h' ∧
        h'.req = getRoot ∧ h'.pc = .returned .normal ∧
        responseOf h'.req h'.ops = { status := 200, body := okBytes } :=
  have hr : Reachable true midHoldState := ⟨true, midHoldRun, rfl⟩
  have hthm := blocked_for_remaining_hold midHoldState hr rfl rfl 0 (waitingHandler getRoot)
    rfl rfl
  ⟨hr, rfl, rfl, hthm.2.2.1 .ok, rfl, hthm.2.2.2.2.2.2.2.1 .ok⟩

/-- Counterexample to C6 as stated.  A sleep lasts at least, not exactly, the requested
time: the request arrives 10.5 seconds after start while the lock is held; three seconds
later the locker has not yet woken up, the lock is still held by the same iteration and
the request is still suspended at `RLock`, so it has waited more than 2 seconds.  Under
exact sleeps, the request `HEAD /` that arrives 10.5 seconds after start is served at 12
seconds with status 200 and an empty body, and the request `GET //x` that arrives while
the lock is held is answered by `net/http` itself: no invocation of the handler comes
into being and nothing stands at `RLock`. -/
theorem hold_can_outlast_two_seconds :
    run false init midHoldRun = some midHoldState ∧
      midHoldState.lock.writer = true ∧
      midHoldState.handlers[0]? = some (waitingHandler getRoot) ∧
      step false midHoldState (.tick (3 * Second)) = some oversleptState ∧
      oversleptState.lock.writer = true ∧
      oversleptState.iterations = midHoldState.iterations ∧
      oversleptState.handlers[0]? = some (waitingHandler getRoot) ∧
      step false oversleptState (.handler 0 .ok) = none ∧
      2 * Second < oversleptState.now - midHoldState.now ∧
      run true init midHoldHeadRun = some midHoldHead ∧
      run true midHoldHead midHoldServe = some midHoldHeadServed ∧
      midHoldHeadServed.now = 12 * Second ∧
      midHoldHeadServed.handlers = [servedHandler headRoot] ∧
      responseOf headRoot (servedHandler headRoot).ops = { status := 200, body := [] } ∧
      run true init midHoldIdleRun = some midHoldIdle ∧
      midHoldIdle.lock.writer = true ∧
      step true midHoldIdle (.arrive getUnclean) = some midHoldIdle ∧
      midHoldIdle.handlers = [] := by
  refine ⟨rfl, rfl, rfl, rfl, rfl, rfl, rfl, rfl, by decide, rfl, rfl, rfl, rfl, rfl, rfl,
    rfl, rfl, rfl⟩

theorem rlock_ignores_readers (m : RWMutex) (r : Nat) :
    ({ m with readers := r } : RWMutex).rlock.isSome = m.rlock.isSome := by
  simp only [RWMutex.rlock]
  split <;> rfl

/-- Claim C7, as amended. In every reachable state in which the process runs, under exact
or inexact sleeps and whatever the policy of the lock, an invocation that stands at
`RLock` is suspended if and only if the locker holds the lock or, under writer preference,
waits for it inside `Lock`; so it is suspended only if the locker has called `Lock` and
not yet `Unlock`, and with the writer preference of Go's lock it is suspended exactly
then.  Whether `RLock` returns does not depend on the number of shared holders, and an
invocation inside its critical section is never suspended.  While the locker is outside
`Lock` ... `Unlock` and the server serves, any list of requests can arrive and all of
them hold the lock in shared mode at the same time, those left out that `net/http`
answers by itself, for which the handler is not called. -/
theorem rlock_waits_only_for_locker (exact : Bool) (s : State) (hs : Reachable exact s)
    (hrun : s.proc.running = true) (i : Nat) (h : Handler)
    (hget : s.handlers[i]? = some h) (hpc : h.pc = .atRLock) :
    ((∀ out : WriteOutcome, step exact s (.handler i out) = none) ↔
        (s.locker.holding = true ∨
          (s.lock.writerPreference = true ∧ s.locker.waiting = true))) ∧
      ((∀ out : WriteOutcome, step exact s (.handler i out) = none) →
        s.locker.requested = true) ∧
      (s.lock.writerPreference = true →
        ((∀ out : WriteOutcome, step exact s (.handler i out) = none) ↔
          s.locker.requested = true)) ∧
      (s.locker.requested = false → ∀ out : WriteOutcome,
        step exact s (.handler i out) =
          some { s with
            lock := { s.lock with readers := s.lock.readers + 1 }
            handlers := s.handlers.set i
              { h with pc := .atWrite, ops := h.ops ++ [.rlock] } }) ∧
      (∀ (m : RWMutex) (r : Nat),
        ({ m with readers := r } : RWMutex).rlock.isSome = m.rlock.isSome) ∧
      (∀ (j : Nat) (hj : Handler) (out : WriteOutcome), s.handlers[j]? = some hj →
        hj.pc.holding = true → (step exact s (.handler j out)).isSome = true) ∧
      (s.proc = .serving → s.locker.requested = false → ∀ reqs : List Request,
        Reaches exact s
          { s with
            lock := { s.lock with
              readers := s.lock.readers + (reqs.filter fun r => !answeredByServer r).length }
            handlers := s.handlers ++
              (reqs.filter fun r => !answeredByServer r).map
                fun r => { req := r, pc := .atWrite, ops := [.rlock] } }) ∧
      (s.proc = .serving → s.locker.requested = false → ∀ reqs : List Request,
        (∀ r ∈ reqs, answeredByServer r = false) →
        Reaches exact s
          { s with
            lock := { s.lock with readers := s.lock.readers + reqs.length }
            handlers := s.handlers ++
              reqs.map fun r => { req := r, pc := .atWrite, ops := [.rlock] } }) := by
  have hinv := reachable_inv hs
  have hfree : s.locker.requested = false → ∀ out : WriteOutcome,
      step exact s (.handler i out) =
        some { s with
          lock := { s.lock with readers := s.lock.readers + 1 }
          handlers := s.handlers.set i
            { h with pc := .atWrite, ops := h.ops ++ [.rlock] } } := by
    intro hreq out
    obtain ⟨hw, hww⟩ := lock_free_of_not_requested hinv hreq
    exact step_handler_rlock exact s out hrun hget hpc hw hww
  have hiff : (∀ out : WriteOutcome, step exact s (.handler i out) = none) ↔
      (s.locker.holding = true ∨
        (s.lock.writerPreference = true ∧ s.locker.waiting = true)) := by
    constructor
    · intro hnone
      have hstep := hnone .ok
      rw [← hinv.writer_eq, ← hinv.waiting_eq]
      cases hw : s.lock.writer with
      | true => exact Or.inl rfl
      | false =>
        cases hp : s.lock.writerPreference with
        | false =>
          simp [step, hrun, hget, handlerStep, hpc, RWMutex.rlock, hw, hp] at hstep
        | true =>
          cases hww : s.lock.writerWaiting with
          | true => exact Or.inr ⟨rfl, rfl⟩
          | false =>
            simp [step, hrun, hget, handlerStep, hpc, RWMutex.rlock, hw, hww] at hstep
    · intro hblocked out
      apply step_handler_rlock_blocked exact s out hget hpc
      rw [hinv.writer_eq, hinv.waiting_eq]
      exact hblocked
  have honly : (∀ out : WriteOutcome, step exact s (.handler i out) = none) →
      s.locker.requested = true := by
    intro hnone
    rcases hiff.mp hnone with hh | ⟨_, hh⟩ <;>
      cases hl : s.locker <;>
        simp_all [LockerPc.requested, LockerPc.holding, LockerPc.waiting]
  refine ⟨hiff, honly, ?_, hfree, rlock_ignores_readers, ?_, ?_, ?_⟩
  · intro hp
    refine ⟨honly, fun hreq => hiff.mpr ?_⟩
    cases hl : s.locker <;>
      simp_all [LockerPc.requested, LockerPc.holding, LockerPc.waiting]
  · intro j hj out hgetj hhj
    cases hpcj : hj.pc with
    | atRLock => simp [hpcj, HandlerPc.holding] at hhj
    | returned e => simp [hpcj, HandlerPc.holding] at hhj
    | atWrite =>
      rw [step_handler_write exact s out hrun hgetj hpcj]
      rfl
    | atRUnlock e =>
      rw [step_handler_runlock exact s out hrun hgetj hpcj
        (holder_readers_ne_zero hinv hgetj hhj)]
      rfl
  · intro hproc hreq reqs
    exact admit_all exact reqs hinv hproc hreq
  · intro hproc hreq reqs hall
    have hfilter : (reqs.filter fun r => !answeredByServer r) = reqs := by
      apply List.filter_eq_self.mpr
      intro r hr
      simp [hall r hr]
    have h := admit_all exact reqs hinv hproc hreq
    rw [hfilter] at h
    exact h

/-- Witness of C7: five seconds after start the request that has just arrived is not
suspended. -/
theorem rlock_waits_only_for_locker_witness :
    Reachable false earlyState ∧
      ¬ (∀ out : WriteOutcome, step false earlyState (.handler 0 out) = none) :=
  have hr : Reachable false earlyState := ⟨true, earlyRun, rfl⟩
  ⟨hr, fun hnone =>
    absurd ((rlock_waits_only_for_locker false earlyState hr rfl 0 (waitingHandler getRoot)
      rfl rfl).2.1 hnone) (by decide)⟩

/-- Counterexample to C7 as stated: 10 seconds after start the locker has called `Lock`
while an earlier invocation still holds the lock in shared mode.  Nobody holds the lock
exclusively, and yet the invocation that arrives now is suspended at `RLock`, under exact
and under inexact sleeps: with the lock of Go the waiting call of `Lock` keeps new readers
out. -/
theorem rlock_waits_for_pending_writer :
    run false init pendingRun = some pendingState ∧
      run true init pendingRun = some pendingState ∧
      pendingState.lock.writer = false ∧ pendingState.locker.holding = false ∧
      pendingState.lock.writerPreference = true ∧
      pendingState.proc = .serving ∧
      pendingState.handlers[1]? = some (waitingHandler postElsewhere) ∧
      step false pendingState (.handler 1 .ok) = none ∧
      step true pendingState (.handler 1 .ok) = none := by
  refine ⟨rfl, rfl, rfl, rfl, rfl, rfl, rfl, rfl, rfl⟩

/-- Claim C8, as amended. In every reachable state, under exact or inexact sleeps: the
address the server binds is 127.0.0.1:8989, and before it is bound no request has been
handed to the handler.  When binding fails with `e`, `ListenAndServe` returns `e`, and
whatever happens from then on no request is ever handed to the handler, the address is
never bound and `ListenAndServe` is not called again; when serving returns `err`,
`ListenAndServe` returns `err`.  Once `ListenAndServe` has returned `err`, the next step
of `main` ends the process as lines 29 to 32 decide, and until then `main` stays where it
is: nothing is retried.  A terminated process has ended as lines 29 to 32 decide, its log
holds the line of `log.Fatalf`, whose message is `listen error: ` followed by the error,
or nothing, and no further step is possible.  Only the end of `main` ends the process,
and the end is the fatal one, with a non-zero exit status, if and only if the error
returned by `ListenAndServe` is non-nil. -/
theorem listen_error_is_fatal (exact : Bool) (s : State) (hs : Reachable exact s) :
    (s.proc = .starting → s.bound = none ∧ s.handlers = [] ∧
        step exact s (.listen none) =
          some { s with proc := .serving, bound := some "127.0.0.1:8989" }) ∧
      (s.proc = .serving → s.bound = some "127.0.0.1:8989") ∧
      (∀ a, s.bound = some a → a = "127.0.0.1:8989") ∧
      (s.bound = none → s.handlers = []) ∧
      (s.proc = .starting → ∀ e : String,
        step exact s (.listen (some e)) = some { s with proc := .returned (some e) } ∧
          ∀ (ls : List Label) (s' : State),
            run exact { s with proc := .returned (some e) } ls = some s' →
              s'.handlers = [] ∧ s'.bound = none ∧
                (s'.proc = .returned (some e) ∨ s'.proc = .terminated (.listenFatal e))) ∧
      (s.proc = .serving → ∀ err : Option String,
        step exact s (.serveReturn err) = some { s with proc := .returned err }) ∧
      (∀ err : Option String, s.proc = .returned err →
        step exact s .mainExit = some (terminate s (mainAfterListenAndServe err)) ∧
          (terminate s (mainAfterListenAndServe err)).log =
            expectedLog (terminate s (mainAfterListenAndServe err)) ∧
          (∀ (l : Label) (s' : State), step exact s l = some s' → l ≠ .mainExit →
            s'.proc = .returned err) ∧
          (∀ (ls : List Label) (s' : State), run exact s ls = some s' →
            s'.proc = .returned err ∨
              s'.proc = .terminated (mainAfterListenAndServe err))) ∧
      (∀ t, s.proc = .terminated t →
        (∃ err, t = mainAfterListenAndServe err) ∧ s.log = expectedLog s ∧
          (∀ e, t = .listenFatal e →
            s.log = [{ time := s.now, message := "listen error: " ++ e }]) ∧
          ∀ l, step exact s l = none) ∧
      (∀ (l : Label) (s' : State), step exact s l = some s' → s'.proc.running = false →
        l = .mainExit ∧ ∃ err, s.proc = .returned err ∧
          s'.proc = .terminated (mainAfterListenAndServe err)) ∧
      (∀ err : Option String,
        ((mainAfterListenAndServe err).isListenFatal = true ↔ err ≠ none) ∧
          ((mainAfterListenAndServe err).exitCode ≠ 0 ↔ err ≠ none)) ∧
      (∀ e : String, (Termination.listenFatal e).exitCode = 1) := by
  have hinv := reachable_inv hs
  have hlog := reachable_log hs
  have hserver := reachable_serverInv hs
  refine ⟨?_, hserver.serving_bound, hserver.bound_addr, hserver.unbound_empty, ?_, ?_, ?_,
    ?_, ?_, ?_, fun e => rfl⟩
  · intro hp
    refine ⟨hserver.starting_unbound hp, hinv.starting_empty hp, ?_⟩
    simp [step, hp, Proc.running, listenAddr]
  · intro hp e
    have hstep : step exact s (.listen (some e)) = some { s with proc := .returned (some e) } := by
      simp [step, hp, Proc.running]
    refine ⟨hstep, ?_⟩
    intro ls s' hr
    have hinv1 := step_inv hinv hstep
    obtain ⟨hb, hh⟩ := bind_failed_run ls hinv1 (Or.inl rfl)
      (hserver.starting_unbound hp) (hinv.starting_empty hp) hr
    exact ⟨hh, hb, returned_run ls hinv1 (Or.inl rfl) hr⟩
  · intro hp err
    simp [step, hp, Proc.running]
  · intro err hp
    have hl : s.log = [] := by
      rw [hlog]
      exact expectedLog_running (by rw [hp]; rfl)
    refine ⟨by simp [step, hp, Proc.running], ?_, ?_, ?_⟩
    · cases err <;> simp [terminate, mainAfterListenAndServe, expectedLog, hl]
    · intro l s' hstep hne
      rcases returned_step hinv hp hstep with ⟨h1, _⟩ | ⟨h1, _⟩
      · exact h1
      · exact absurd h1 hne
    · intro ls s' hr
      exact returned_run ls hinv (Or.inl hp) hr
  · intro t hp
    refine ⟨?_, hlog, ?_, fun l => step_terminated exact s (by rw [hp]; rfl) l⟩
    · cases t with
      | listenFatal e => exact ⟨some e, rfl⟩
      | mainReturned => exact ⟨none, rfl⟩
      | runtimeFatal msg => exact absurd hp (hinv.no_runtime_fatal msg)
    · intro e he
      subst he
      rw [hlog]
      simp [expectedLog, hp, fatalMessage]
  · intro l s' hstep hend
    rcases step_end_or_not hinv hstep with ⟨_, hrun'⟩ | ⟨hl, err, hp, hs'⟩
    · rw [hrun'] at hend
      exact absurd hend (by decide)
    · exact ⟨hl, err, hp, by rw [hs']; rfl⟩
  · intro err
    cases err <;> simp [mainAfterListenAndServe, Termination.isListenFatal, Termination.exitCode]

/-- Witness of C8: when the port is in use at process start, `ListenAndServe` returns the
error, and whatever happens then no request is handed to the handler. -/
theorem listen_error_is_fatal_witness :
    Reachable false init ∧
      step false init (.listen (some addressInUse)) = some bindFailed ∧
      (∀ (ls : List Label) (s' : State), run false bindFailed ls = some s' →
        s'.handlers = [] ∧ s'.bound = none ∧
          (s'.proc = .returned (some addressInUse) ∨
            s'.proc = .terminated (.listenFatal addressInUse))) ∧
      step false bindFailed .mainExit = some (terminate bindFailed (.listenFatal addressInUse)) ∧
      (terminate bindFailed (.listenFatal addressInUse)).log =
        [{ time := 0, message := "listen error: " ++ addressInUse }] :=
  have hr : Reachable false init := ⟨true, [], rfl⟩
  have hthm := (listen_error_is_fatal false init hr).2.2.2.2.1 rfl addressInUse
  ⟨hr, hthm.1, hthm.2, rfl, rfl⟩

/-- Counterexample to C8 as stated: the address is bound, a request is served with 200
`ok`, and then `ListenAndServe` returns an error from serving.  `main` calls `log.Fatalf`
and the process ends with the fatal exit of line 30 and a non-zero exit status, and yet a
request has been served.  Between the return of `ListenAndServe` and the exit a request
that comes in on a connection still gets its invocation of the handler. -/
theorem fatal_exit_after_serving :
    run false init (servedRun ++ [.serveReturn (some acceptError)]) =
        some returnedAfterServing ∧
      run false init (servedRun ++ [.serveReturn (some acceptError), .mainExit]) =
        some fatalAfterServing ∧
      fatalAfterServing.proc = .terminated (.listenFatal acceptError) ∧
      (Termination.listenFatal acceptError).exitCode ≠ 0 ∧
      fatalAfterServing.log = [{ time := 0, message := fatalMessage acceptError }] ∧
      fatalAfterServing.handlers = [servedHandler postElsewhere] ∧
      (servedHandler postElsewhere).pc = .returned .normal ∧
      responseOf postElsewhere (servedHandler postElsewhere).ops =
        { status := 200, body := okBytes } ∧
      step false returnedAfterServing (.arrive getRoot) =
        some { returnedAfterServing with
          handlers := [servedHandler postElsewhere, waitingHandler getRoot] } := by
  refine ⟨rfl, rfl, rfl, by decide, rfl, rfl, rfl, rfl, rfl⟩

/-- Claim C9. In every reachable state, under exact or inexact sleeps, the locker stands
at one of the four statements of its loop body; each of its steps leaves the process
running and leaves it at the same statement or takes it to the next one, the first
following the fourth; while the process runs it can complete any number of further
iterations; once the process has terminated nothing moves; and no step of the locker
ends the process, only the end of `main` after the return of `ListenAndServe` does. -/
theorem locker_never_exits (exact : Bool) (s : State) (hs : Reachable exact s) :
    lockerBody[s.locker.index]? = some s.locker.stmt ∧
      lockerBody.length = 4 ∧
      (∀ s', step exact s .locker = some s' →
        s'.proc = s.proc ∧ s'.proc.running = true ∧
          lockerBody[s'.locker.index]? = some s'.locker.stmt ∧
          (s'.locker.index = s.locker.index ∨
            s'.locker.index = (s.locker.index + 1) % 4)) ∧
      (s.proc.running = true → ∀ n : Nat,
        ∃ s', Reaches exact s s' ∧ s'.iterations = s.iterations + n ∧
          s'.proc.running = true) ∧
      (s.proc.running = false → ∀ l, step exact s l = none) ∧
      (∀ (l : Label) (s' : State), step exact s l = some s' → s'.proc.running = false →
        l = .mainExit ∧ ∃ err, s.proc = .returned err) := by
  have hinv := reachable_inv hs
  refine ⟨stmt_at_index s.locker, rfl, ?_, ?_, fun h l => step_terminated exact s h l, ?_⟩
  · intro s' hstep
    have hrun := step_running hstep
    rw [step_locker exact hrun] at hstep
    obtain ⟨hp, _, hidx⟩ := lockerStep_cycle hinv hstep
    exact ⟨hp, by rw [hp]; exact hrun, stmt_at_index s'.locker, hidx⟩
  · intro hrun n
    obtain ⟨s', hreach, hit, hp⟩ := more_iterations exact n hinv hrun
    exact ⟨s', hreach, hit, by rw [hp]; exact hrun⟩
  · intro l s' hstep hend
    rcases step_end_or_not hinv hstep with ⟨_, hrun'⟩ | ⟨hl, err, hp, _⟩
    · rw [hrun'] at hend
      exact absurd hend (by decide)
    · exact ⟨hl, err, hp⟩

/-- Witness of C9: from the state in which the locker holds the lock 10 seconds after
start, it can complete 1000 further iterations. -/
theorem locker_never_exits_witness :
    Reachable false heldState ∧
      ∃ s', Reaches false heldState s' ∧ s'.iterations = heldState.iterations + 1000 ∧
        s'.proc.running = true :=
  have hr : Reachable false heldState := ⟨true, heldRun, rfl⟩
  ⟨hr, (locker_never_exits false heldState hr).2.2.2.1 rfl 1000⟩

/-- Claim C10. In every reachable state, under exact or inexact sleeps, the lock mirrors
its users: its shared holders are the invocations between `RLock` and the deferred
`RUnlock`, it is held exclusively exactly when the locker is between `Lock` and `Unlock`,
and a call of `Lock` waits exactly when the locker is inside `Lock`.  A step of a handler
changes neither the exclusive hold nor the locker, a step of the locker changes neither
the shared holders nor the invocations.  The unlock of an unlocked mutex never happens:
the process never ends with a fatal error of the runtime, `Unlock` succeeds where the
locker calls it and `RUnlock` succeeds where an invocation calls it.  When the locker is
outside `Lock` ... `Unlock` and no invocation is inside its critical section, the lock is
unlocked as at process start (the zero value, with the policy it has), and while the
process runs such a state can always be reached. -/
theorem lock_use_is_balanced (exact : Bool) (s : State) (hs : Reachable exact s) :
    s.lock.readers = sharedHolders s ∧
      s.lock.writer = s.locker.holding ∧
      s.lock.writerWaiting = s.locker.waiting ∧
      (∀ (i : Nat) (out : WriteOutcome) (s' : State),
        step exact s (.handler i out) = some s' →
          s'.lock.writer = s.lock.writer ∧ s'.lock.writerWaiting = s.lock.writerWaiting ∧
            s'.locker = s.locker) ∧
      (∀ s', step exact s .locker = some s' →
        s'.lock.readers = s.lock.readers ∧ s'.handlers = s.handlers) ∧
      (∀ msg, s.proc ≠ .terminated (.runtimeFatal msg)) ∧
      (s.locker = .atUnlock → s.lock.unlock = .ok { s.lock with writer := false }) ∧
      (∀ h ∈ s.handlers, ∀ e, h.pc = .atRUnlock e →
        s.lock.runlock = .ok { s.lock with readers := s.lock.readers - 1 } ∧
          0 < s.lock.readers) ∧
      (s.locker.requested = false → (∀ h ∈ s.handlers, h.pc.holding = false) →
        s.lock = { RWMutex.zero with writerPreference := s.lock.writerPreference }) ∧
      (s.proc.running = true →
        ∃ s', Reaches exact s s' ∧ s'.locker.requested = false ∧
          (∀ h ∈ s'.handlers, h.pc.holding = false) ∧
          s'.lock = { RWMutex.zero with writerPreference := s'.lock.writerPreference }) := by
  have hinv := reachable_inv hs
  have hzero : ∀ t : State, Inv t → t.locker.requested = false →
      (∀ h ∈ t.handlers, h.pc.holding = false) →
        t.lock = { RWMutex.zero with writerPreference := t.lock.writerPreference } := by
    intro t htinv hreq hnone
    obtain ⟨hw, hww⟩ := lock_free_of_not_requested htinv hreq
    have hr : t.lock.readers = 0 := by
      rw [htinv.readers_eq]
      apply List.countP_eq_zero.mpr
      intro h hmem
      simp [hnone h hmem]
    cases hl : t.lock
    simp_all [RWMutex.zero]
  refine ⟨hinv.readers_eq, hinv.writer_eq, hinv.waiting_eq, ?_, ?_, hinv.no_runtime_fatal,
    ?_, ?_, hzero s hinv, ?_⟩
  · intro i out s' hstep
    obtain ⟨_, _, hw, hww⟩ := handler_step_frame hinv hstep
    obtain ⟨hl, _, _⟩ := step_other_frame hstep (fun d hd => by simp at hd) (by simp)
    exact ⟨hw, hww, hl⟩
  · intro s' hstep
    have hrun := step_running hstep
    rw [step_locker exact hrun] at hstep
    obtain ⟨_, hh, hr, _⟩ := lockerStep_frame hstep
    exact ⟨hr, hh⟩
  · intro hpc
    have hw : s.lock.writer = true := by rw [hinv.writer_eq, hpc]; rfl
    simp [RWMutex.unlock, hw]
  · intro h hmem e hpc
    obtain ⟨j, hget⟩ := List.getElem?_of_mem hmem
    have hr := holder_readers_ne_zero hinv hget (by rw [hpc]; rfl)
    exact ⟨by simp [RWMutex.runlock, hr], by omega⟩
  · intro hrun
    obtain ⟨s1, hreach1, _, hl1, hp1⟩ := next_iteration exact hinv hrun
    have hinv1 := reaches_inv hinv hreach1
    obtain ⟨s2, hreach2, hmoved, hfree⟩ :=
      drain exact _ s1 hinv1 (by rw [hp1]; exact hrun) rfl
    have hinv2 := reaches_inv hinv1 hreach2
    have hreq2 : s2.locker.requested = false := by
      rw [hmoved.locker_eq, hl1]; rfl
    have hnone : ∀ h ∈ s2.handlers, h.pc.holding = false := by
      intro h hmem
      have := List.countP_eq_zero.mp hfree h hmem
      simpa using this
    exact ⟨s2, reaches_trans hreach1 hreach2, hreq2, hnone, hzero s2 hinv2 hreq2 hnone⟩

/-- Witness of C10: after one request has been served and with the locker asleep, the
lock is the unlocked zero value. -/
theorem lock_use_is_balanced_witness :
    Reachable false servedState ∧ servedState.lock = RWMutex.zero :=
  have hr : Reachable false servedState := ⟨true, servedRun, rfl⟩
  ⟨hr, (lock_use_is_balanced false servedState hr).2.2.2.2.2.2.2.2.1 rfl (by decide)⟩

end CoordinatedOmission
